import Mathlib

/-!
# Klusterlet add-on controller: the reconcile loop

A shallow embedding of
`pkg/controller/klusterletaddon/klusterlet_addon_controller.go`.

* Kubernetes objects are records holding the fields the controller reads or
  writes.
* A Go `error` value is `Option Err`; `none` is `nil`.
* Every call that leaves `Reconcile` (object store, dependent synchronizers)
  is answered by an environment `Env`.  Each answer may depend on the whole
  history of calls and answers made so far in the cycle, so an environment is
  an arbitrary deterministic store.
* `Reconcile` returns its `reconcile.Result`, its error and the trace of the
  calls it made, each with the answer it got.
* One Go function, `Reconcile`, is cut into segments along its return points
  (`reconcileOwner`, `reconcileDeletion`, `reconcileTargetFinalizer`,
  `reconcileOwnerFinalizer`, `reconcileActive`); each names the lines it
  embeds.
* Two things the embedding takes for granted: a `client.Update` leaves the
  fields modelled here of the in-memory object as they were sent, and the
  dependent helpers that receive the owner by pointer do not change it.
* The three name constants (`KlusterletAddonFinalizer` and the two bundle
  postfixes) are declared outside the files at hand and are fields of `Env`.
-/

namespace KlusterletAddon

/-! ## Errors and results -/

/-- An API error, classified the way `errors.IsNotFound` and
`errors.IsConflict` classify it (by status reason). -/
inductive Err where
  | notFound
  | conflict
  | other (msg : String)
  deriving DecidableEq, Repr

/-- Go `errors.IsNotFound`; false on `nil`. -/
def IsNotFound : Option Err → Bool
  | some Err.notFound => true
  | _ => false

/-- Go `errors.IsConflict`; false on `nil`. -/
def IsConflict : Option Err → Bool
  | some Err.conflict => true
  | _ => false

/-- Go `time.Second`, in nanoseconds (`time.Duration` counts nanoseconds). -/
def Second : Nat := 1000000000

/-- Go `time.Minute`. -/
def Minute : Nat := 60 * Second

/-- The `reconcile.Result` of controller-runtime. -/
structure Result where
  Requeue : Bool
  RequeueAfter : Nat
  deriving DecidableEq, Repr

/-- The zero value `reconcile.Result{}`. -/
def Result.zero : Result := ⟨false, 0⟩

/-! ## Go strings and maps -/

/-- Go `map[string]string`: `none` is the nil map, `some l` a map whose
entries are the pairs of `l` (the first pair of a key is its entry). -/
abbrev StrMap := Option (List (String × String))

/-- The two-value lookup `v, ok := m[k]`: `some v` when `ok`. -/
def StrMap.find (m : StrMap) (k : String) : Option String :=
  match m with
  | none => none
  | some l => l.lookup k

/-- The one-value lookup `m[k]`: the empty string when the key is absent. -/
def StrMap.get (m : StrMap) (k : String) : String :=
  (m.find k).getD ""

/-- Go `delete(m, k)`; a no-op on the nil map. -/
def StrMap.delete (m : StrMap) (k : String) : StrMap :=
  match m with
  | none => none
  | some l => some (l.filter (fun p => p.1 != k))

/-- Go `m[k] = v` on a non-nil map (the controller never assigns into a nil
map: it installs an empty map first). -/
def StrMap.set (m : StrMap) (k v : String) : StrMap :=
  match m with
  | none => some [(k, v)]
  | some l => some ((k, v) :: l.filter (fun p => p.1 != k))

/-- One rune comparison of Go `strings.EqualFold`: equal runes, or two ASCII
runes that are the upper and lower case of one letter.  For a pair with a
rune beyond ASCII Go walks the `unicode.SimpleFold` orbit; the controller
only compares against the literal `"true"`, whose letters t, r, u, e have no
fold partner beyond ASCII, so that branch answers false here. -/
def runeEqualFold (a b : Char) : Bool :=
  let sr := if b.toNat < a.toNat then b else a
  let tr := if b.toNat < a.toNat then a else b
  if tr = sr then true
  else if tr.toNat < 128 then
    decide (65 ≤ sr.toNat ∧ sr.toNat ≤ 90 ∧ tr.toNat = sr.toNat + 32)
  else false

/-- The rune loop of Go `strings.EqualFold`. -/
def equalFoldRunes : List Char → List Char → Bool
  | [], [] => true
  | a :: s, b :: t => runeEqualFold a b && equalFoldRunes s t
  | _, _ => false

/-- Go `strings.EqualFold`. -/
def EqualFold (s t : String) : Bool := equalFoldRunes s.data t.data

/-- Go `strings.ToLower`, rune by rune.  Runes beyond ASCII are left as they
are; the controller only compares the result with `"true"`, and no rune
beyond ASCII lowers to one of t, r, u, e. -/
def ToLower (s : String) : String := String.mk (s.data.map Char.toLower)

/-! ## Objects -/

/-- A status condition (`Type` and `Status` of `metav1.Condition` and of
`StatusCondition`). -/
structure Condition where
  Type_ : String
  Status : String
  deriving DecidableEq, Repr

/-- The constant `ManagedClusterConditionAvailable` of the cluster API. -/
def ManagedClusterConditionAvailable : String := "ManagedClusterConditionAvailable"

/-- The constant `WorkAvailable` of the work API. -/
def WorkAvailable : String := "Available"

structure ManagedClusterVersion where
  Kubernetes : String
  deriving DecidableEq, Repr

structure ManagedClusterStatus where
  Conditions : List Condition
  Version : ManagedClusterVersion
  deriving DecidableEq, Repr

/-- The target resource `managedclusterv1.ManagedCluster`. -/
structure ManagedCluster where
  Name : String
  Labels : StrMap
  Finalizers : List String
  DeletionTimestamp : Option Nat
  Status : ManagedClusterStatus
  deriving DecidableEq, Repr

/-- The zero value `&managedclusterv1.ManagedCluster{}` that `Reconcile`
allocates before the first `Get`. -/
def ManagedCluster.zero : ManagedCluster :=
  ⟨"", none, [], none, ⟨[], ⟨""⟩⟩⟩

structure ManifestWorkStatus where
  Conditions : List Condition
  deriving DecidableEq, Repr

/-- A dependent resource `manifestworkv1.ManifestWork`. -/
structure ManifestWork where
  Name : String
  Namespace : String
  Finalizers : List String
  Status : ManifestWorkStatus
  deriving DecidableEq, Repr

structure AddonConfig where
  Enabled : Bool
  deriving DecidableEq, Repr

/-- The fields of `agentv1.KlusterletAddonConfigSpec` that the sources use. -/
structure KlusterletAddonConfigSpec where
  ClusterName : String
  ClusterNamespace : String
  ImagePullPolicy : String
  ImagePullSecret : String
  ImageRegistry : String
  SearchCollectorConfig : AddonConfig
  PolicyController : AddonConfig
  deriving DecidableEq, Repr

/-- The owner resource `agentv1.KlusterletAddonConfig`. -/
structure KlusterletAddonConfig where
  Name : String
  Namespace : String
  Annotations : StrMap
  Finalizers : List String
  DeletionTimestamp : Option Nat
  Spec : KlusterletAddonConfigSpec
  deriving DecidableEq, Repr

/-- The request key `reconcile.Request`. -/
structure Request where
  Namespace : String
  Name : String
  deriving DecidableEq, Repr

/-! ## The environment: object store and dependent synchronizers -/

/-- The answer of a `client.Get`: the object read, or the error. -/
inductive GetResult (α : Type) where
  | found (obj : α)
  | failed (err : Err)
  deriving DecidableEq, Repr

/-- The error value of a `GetResult` (`nil` when the object was read). -/
def GetResult.err {α : Type} : GetResult α → Option Err
  | GetResult.found _ => none
  | GetResult.failed e => some e

/-- One call leaving `Reconcile`, with its arguments and the answer it got. -/
inductive Event where
  | GetManagedCluster (name : String) (res : GetResult ManagedCluster)
  | GetKlusterletAddonConfig (ns name : String) (res : GetResult KlusterletAddonConfig)
  | UpdateManagedCluster (obj : ManagedCluster) (err : Option Err)
  | UpdateKlusterletAddonConfig (obj : KlusterletAddonConfig) (err : Option Err)
  | DeleteKlusterletAddonConfig (obj : KlusterletAddonConfig) (err : Option Err)
  | deleteManifestWorkCRs (owner : KlusterletAddonConfig) (removeFinalizers : Bool)
      (isCompleted : Bool) (err : Option Err)
  | DeleteManifestWork (name ns : String) (removeFinalizers : Bool) (err : Option Err)
  | createManifestWorkCRD (owner : KlusterletAddonConfig) (kubeVersion : String) (err : Option Err)
  | createManifestWorkComponentOperator (owner : KlusterletAddonConfig) (err : Option Err)
  | syncManagedClusterAddonCRs (owner : KlusterletAddonConfig) (err : Option Err)
  | GetManifestWork (name ns : String) (manifestWork : Option ManifestWork)
      (err : Option Err)
  | syncManifestWorkCRs (owner : KlusterletAddonConfig) (err : Option Err)
  deriving DecidableEq, Repr

/-- Everything `Reconcile` takes from outside its source file.  The first
argument of every call is the history: the events of the cycle so far, oldest
first.  `client.Update` is split by the kind of object updated.  The three
name constants are declared elsewhere in the package. -/
structure Env where
  KlusterletAddonFinalizer : String
  KlusterletAddonCRDsPostfix : String
  KlusterletAddonOperatorPostfix : String
  Getenv : String → String
  GetManagedCluster : List Event → String → GetResult ManagedCluster
  GetKlusterletAddonConfig : List Event → String → String → GetResult KlusterletAddonConfig
  UpdateManagedCluster : List Event → ManagedCluster → Option Err
  UpdateKlusterletAddonConfig : List Event → KlusterletAddonConfig → Option Err
  DeleteKlusterletAddonConfig : List Event → KlusterletAddonConfig → Option Err
  deleteManifestWorkCRs : List Event → KlusterletAddonConfig → Bool → Bool × Option Err
  DeleteManifestWork : List Event → String → String → Bool → Option Err
  createManifestWorkCRD : List Event → KlusterletAddonConfig → String → Option Err
  createManifestWorkComponentOperator : List Event → KlusterletAddonConfig → Option Err
  syncManagedClusterAddonCRs : List Event → KlusterletAddonConfig → Option Err
  GetManifestWork : List Event → String → String → Option ManifestWork × Option Err
  syncManifestWorkCRs : List Event → KlusterletAddonConfig → Option Err

/-! ## Finalizers -/

/-- Modelled from the spec: `utils.HasFinalizer` (package `utils` is not among
the sources); the finalizer list is, semantically, a set of names. -/
def HasFinalizer (finalizers : List String) (name : String) : Bool :=
  finalizers.contains name

/-- Modelled from the spec: `utils.AddFinalizer`; an idempotent add that keeps
the order of the entries already there. -/
def AddFinalizer (finalizers : List String) (name : String) : List String :=
  if finalizers.contains name then finalizers else finalizers ++ [name]

/-- Modelled from the spec: `utils.RemoveFinalizer`; afterwards the name is
not in the list. -/
def RemoveFinalizer (finalizers : List String) (name : String) : List String :=
  finalizers.filter (fun f => f != name)

/-! ## The helpers of the controller file -/

/-- The constant `KlusterletAddonConfigAnnotationPause` (line 42). -/
def KlusterletAddonConfigAnnotationPause : String := "klusterletaddonconfig-pause"

/-- The constant `PolicyControllerLabel` (line 43). -/
def PolicyControllerLabel : String := "policycontroller.addon.open-cluster-management.io"

/-- Lines 330-343.  The argument is a pointer: `none` is `nil`. -/
def IsManagedClusterOnline (managedCluster : Option ManagedCluster) : Bool :=
  match managedCluster with
  | none => false
  | some m =>
    m.Status.Conditions.any
      (fun condition => condition.Type_ == ManagedClusterConditionAvailable
        && condition.Status == "True")

/-- Lines 388-398.  The argument is a pointer that the function dereferences
without a nil check: on `nil` the Go runtime panics, which is the answer
`none` here. -/
def IsCRDManfestWorkAvailable (manifestWork : Option ManifestWork) : Option Bool :=
  match manifestWork with
  | none => none
  | some w =>
    some (w.Status.Conditions.any
      (fun condition => condition.Type_ == WorkAvailable && condition.Status == "True"))

/-- Lines 358-370. -/
def isPaused (instance_ : KlusterletAddonConfig) : Bool :=
  let a := instance_.Annotations
  if a.isNone then false
  else if a.get KlusterletAddonConfigAnnotationPause != ""
      && EqualFold (a.get KlusterletAddonConfigAnnotationPause) "true" then true
  else false

/-- Lines 346-355: the answer `(completed, err)` and the extended trace. -/
def deleteManifestWorkHelper (env : Env) (t : List Event) (name ns : String)
    (removeFinalizers : Bool) : (Bool × Option Err) × List Event :=
  let err := env.DeleteManifestWork t name ns removeFinalizers
  let t1 := t ++ [Event.DeleteManifestWork name ns removeFinalizers err]
  if err.isSome && IsNotFound err then ((true, none), t1)
  else if err.isSome then ((false, err), t1)
  else ((false, none), t1)

/-- Lines 411-413: a nil label map is replaced by an empty one. -/
def installLabels (managedCluster : ManagedCluster) : ManagedCluster :=
  if managedCluster.Labels.isNone then { managedCluster with Labels := some [] }
  else managedCluster

/-- Lines 403-420: the target as the call leaves it in memory, the error and
the extended trace. -/
def setManagedClusterPolicyControllerLabel (env : Env) (t : List Event)
    (managedCluster : ManagedCluster) (klusterletAddonConfig : KlusterletAddonConfig) :
    ManagedCluster × Option Err × List Event :=
  if klusterletAddonConfig.DeletionTimestamp.isSome
      || !klusterletAddonConfig.Spec.PolicyController.Enabled then
    if (managedCluster.Labels.find PolicyControllerLabel).isSome then
      let m := { managedCluster with
        Labels := managedCluster.Labels.delete PolicyControllerLabel }
      let err := env.UpdateManagedCluster t m
      (m, err, t ++ [Event.UpdateManagedCluster m err])
    else (managedCluster, none, t)
  else
    let m0 := installLabels managedCluster
    if ToLower (m0.Labels.get PolicyControllerLabel) != "true" then
      let m := { m0 with Labels := m0.Labels.set PolicyControllerLabel "true" }
      let err := env.UpdateManagedCluster t m
      (m, err, t ++ [Event.UpdateManagedCluster m err])
    else (m0, none, t)

/-! ## Reconcile -/

/-- What one cycle yields: the `reconcile.Result` and error returned, the
calls made (oldest first), and whether the cycle ended in a runtime panic
instead of returning. -/
structure Outcome where
  result : Result
  err : Option Err
  trace : List Event
  panicked : Bool
  deriving DecidableEq, Repr

/-- Lines 272-280: the owner as handed on after the backfill of the default
pull secret and registry from the process environment. -/
def fillDefaults (env : Env) (klusterletAddonConfig : KlusterletAddonConfig) :
    KlusterletAddonConfig :=
  let k1 := if klusterletAddonConfig.Spec.ImagePullSecret = ""
    then { klusterletAddonConfig with
      Spec := { klusterletAddonConfig.Spec with
        ImagePullSecret := env.Getenv "DEFAULT_IMAGE_PULL_SECRET" } }
    else klusterletAddonConfig
  if k1.Spec.ImageRegistry = ""
    then { k1 with
      Spec := { k1.Spec with ImageRegistry := env.Getenv "DEFAULT_IMAGE_REGISTRY" } }
    else k1

/-- Lines 258-327: owner deletion when the target is in deletion, the pause
check, the backfill of defaults (`fillDefaults`), dependent synchronization
and the requeue decision. -/
def reconcileActive (env : Env) (request : Request) (managedCluster : ManagedCluster)
    (klusterletAddonConfig : KlusterletAddonConfig) (t : List Event) : Outcome :=
  if managedCluster.DeletionTimestamp.isSome
      && klusterletAddonConfig.DeletionTimestamp.isNone then
    let err := env.DeleteKlusterletAddonConfig t klusterletAddonConfig
    let t1 := t ++ [Event.DeleteKlusterletAddonConfig klusterletAddonConfig err]
    if err.isSome then ⟨Result.zero, err, t1, false⟩
    else ⟨Result.zero, none, t1, false⟩
  else if isPaused klusterletAddonConfig then ⟨Result.zero, none, t, false⟩
  else
    let k2 := fillDefaults env klusterletAddonConfig
    let err1 := env.createManifestWorkCRD t k2 managedCluster.Status.Version.Kubernetes
    let t1 := t ++ [Event.createManifestWorkCRD k2 managedCluster.Status.Version.Kubernetes err1]
    if err1.isSome then ⟨Result.zero, err1, t1, false⟩
    else
    let err2 := env.createManifestWorkComponentOperator t1 k2
    let t2 := t1 ++ [Event.createManifestWorkComponentOperator k2 err2]
    if err2.isSome then ⟨Result.zero, err2, t2, false⟩
    else
    let err3 := env.syncManagedClusterAddonCRs t2 k2
    let t3 := t2 ++ [Event.syncManagedClusterAddonCRs k2 err3]
    if err3.isSome then ⟨Result.zero, err3, t3, false⟩
    else
    let r4 := setManagedClusterPolicyControllerLabel env t3 managedCluster k2
    if r4.2.1.isSome then ⟨Result.zero, r4.2.1, r4.2.2, false⟩
    else
    let r5 := env.GetManifestWork r4.2.2
      (request.Namespace ++ env.KlusterletAddonCRDsPostfix) request.Namespace
    let manifestWork := r5.1
    let t5 := r4.2.2 ++ [Event.GetManifestWork
      (request.Namespace ++ env.KlusterletAddonCRDsPostfix) request.Namespace r5.1 r5.2]
    if r5.2.isSome then ⟨Result.zero, r5.2, t5, false⟩
    else
    let hasConditions := match manifestWork with
      | none => false
      | some w => decide (w.Status.Conditions.length > 0)
    if hasConditions then
      match IsCRDManfestWorkAvailable manifestWork with
      | some true =>
        let err6 := env.syncManifestWorkCRs t5 k2
        let t6 := t5 ++ [Event.syncManifestWorkCRs k2 err6]
        if err6.isSome then ⟨Result.zero, err6, t6, false⟩
        else ⟨⟨true, 5 * Minute⟩, none, t6, false⟩
      | some false => ⟨⟨true, 30 * Second⟩, none, t5, false⟩
      | none => ⟨Result.zero, none, t5, true⟩
    else if IsManagedClusterOnline (some r4.1) then ⟨⟨true, 30 * Second⟩, none, t5, false⟩
    else ⟨⟨true, 5 * Minute⟩, none, t5, false⟩

/-- Lines 248-256: the owner gets the finalizer, then the cycle goes on. -/
def reconcileOwnerFinalizer (env : Env) (request : Request) (managedCluster : ManagedCluster)
    (klusterletAddonConfig : KlusterletAddonConfig) (t : List Event) : Outcome :=
  if !HasFinalizer klusterletAddonConfig.Finalizers env.KlusterletAddonFinalizer then
    let k := { klusterletAddonConfig with
      Finalizers := AddFinalizer klusterletAddonConfig.Finalizers env.KlusterletAddonFinalizer }
    let err := env.UpdateKlusterletAddonConfig t k
    let t1 := t ++ [Event.UpdateKlusterletAddonConfig k err]
    if err.isSome && IsConflict err then ⟨⟨true, 5 * Second⟩, none, t1, false⟩
    else if err.isSome then ⟨Result.zero, err, t1, false⟩
    else reconcileActive env request managedCluster k t1
  else reconcileActive env request managedCluster klusterletAddonConfig t

/-- Lines 234-247: nothing to do without a target; otherwise the target gets
the finalizer, then the cycle goes on. -/
def reconcileTargetFinalizer (env : Env) (request : Request) (managedCluster : ManagedCluster)
    (managedClusterIsNotFound : Bool) (klusterletAddonConfig : KlusterletAddonConfig)
    (t : List Event) : Outcome :=
  if managedClusterIsNotFound then ⟨Result.zero, none, t, false⟩
  else if !HasFinalizer managedCluster.Finalizers env.KlusterletAddonFinalizer then
    let m := { managedCluster with
      Finalizers := AddFinalizer managedCluster.Finalizers env.KlusterletAddonFinalizer }
    let err := env.UpdateManagedCluster t m
    let t1 := t ++ [Event.UpdateManagedCluster m err]
    if err.isSome && IsConflict err then ⟨⟨true, 5 * Second⟩, none, t1, false⟩
    else if err.isSome then ⟨Result.zero, err, t1, false⟩
    else reconcileOwnerFinalizer env request m klusterletAddonConfig t1
  else reconcileOwnerFinalizer env request managedCluster klusterletAddonConfig t

/-- Lines 176-233: the owner is in deletion.  Three tiers of teardown, the
policy-controller label, then the finalizers. -/
def reconcileDeletion (env : Env) (managedCluster : ManagedCluster)
    (managedClusterIsNotFound : Bool) (klusterletAddonConfig : KlusterletAddonConfig)
    (t : List Event) : Outcome :=
  let removeFinalizers :=
    managedClusterIsNotFound || !IsManagedClusterOnline (some managedCluster)
  let r1 := env.deleteManifestWorkCRs t klusterletAddonConfig removeFinalizers
  let t1 := t ++ [Event.deleteManifestWorkCRs klusterletAddonConfig removeFinalizers r1.1 r1.2]
  if r1.2.isSome then ⟨Result.zero, r1.2, t1, false⟩
  else if !r1.1 then ⟨⟨true, 5 * Second⟩, r1.2, t1, false⟩
  else
  let r2 := deleteManifestWorkHelper env t1
    (klusterletAddonConfig.Name ++ env.KlusterletAddonOperatorPostfix)
    klusterletAddonConfig.Namespace removeFinalizers
  if r2.1.2.isSome then ⟨Result.zero, r2.1.2, r2.2, false⟩
  else if !r2.1.1 then ⟨⟨true, 5 * Second⟩, r2.1.2, r2.2, false⟩
  else
  let r3 := deleteManifestWorkHelper env r2.2
    (klusterletAddonConfig.Name ++ env.KlusterletAddonCRDsPostfix)
    klusterletAddonConfig.Namespace removeFinalizers
  if r3.1.2.isSome then ⟨Result.zero, r3.1.2, r3.2, false⟩
  else if !r3.1.1 then ⟨⟨true, 5 * Second⟩, r3.1.2, r3.2, false⟩
  else
  let r4 := setManagedClusterPolicyControllerLabel env r3.2 managedCluster klusterletAddonConfig
  if r4.2.1.isSome then ⟨Result.zero, r4.2.1, r4.2.2, false⟩
  else
  let k := { klusterletAddonConfig with
    Finalizers := RemoveFinalizer klusterletAddonConfig.Finalizers env.KlusterletAddonFinalizer }
  let err5 := env.UpdateKlusterletAddonConfig r4.2.2 k
  let t5 := r4.2.2 ++ [Event.UpdateKlusterletAddonConfig k err5]
  if err5.isSome then ⟨Result.zero, err5, t5, false⟩
  else if !managedClusterIsNotFound then
    let m := { r4.1 with
      Finalizers := RemoveFinalizer r4.1.Finalizers env.KlusterletAddonFinalizer }
    let err6 := env.UpdateManagedCluster t5 m
    let t6 := t5 ++ [Event.UpdateManagedCluster m err6]
    if err6.isSome then ⟨Result.zero, err6, t6, false⟩
    else ⟨Result.zero, none, t6, false⟩
  else ⟨Result.zero, none, t5, false⟩

/-- Lines 159-176: the owner is fetched.  When it is gone the target loses
the finalizer; when it is in deletion the teardown runs; otherwise the cycle
goes on with the finalizers. -/
def reconcileOwner (env : Env) (request : Request) (managedCluster : ManagedCluster)
    (managedClusterIsNotFound : Bool) (t : List Event) : Outcome :=
  let res := env.GetKlusterletAddonConfig t request.Namespace request.Name
  let t1 := t ++ [Event.GetKlusterletAddonConfig request.Namespace request.Name res]
  match res with
  | GetResult.failed e =>
    if IsNotFound (some e) then
      if !managedClusterIsNotFound
          && HasFinalizer managedCluster.Finalizers env.KlusterletAddonFinalizer then
        let m := { managedCluster with
          Finalizers := RemoveFinalizer managedCluster.Finalizers env.KlusterletAddonFinalizer }
        let err := env.UpdateManagedCluster t1 m
        let t2 := t1 ++ [Event.UpdateManagedCluster m err]
        if err.isSome then ⟨Result.zero, err, t2, false⟩
        else ⟨Result.zero, none, t2, false⟩
      else ⟨Result.zero, none, t1, false⟩
    else ⟨Result.zero, some e, t1, false⟩
  | GetResult.found klusterletAddonConfig =>
    if klusterletAddonConfig.DeletionTimestamp.isSome then
      reconcileDeletion env managedCluster managedClusterIsNotFound klusterletAddonConfig t1
    else
      reconcileTargetFinalizer env request managedCluster managedClusterIsNotFound
        klusterletAddonConfig t1

/-- Lines 144-157, and from there the whole cycle.  The target is fetched by
the name `request.Namespace`; when it is not found the in-memory target stays
the zero value and the cycle goes on. -/
def Reconcile (env : Env) (request : Request) : Outcome :=
  let res := env.GetManagedCluster [] request.Namespace
  let t := [Event.GetManagedCluster request.Namespace res]
  match res with
  | GetResult.failed e =>
    if IsNotFound (some e) then reconcileOwner env request ManagedCluster.zero true t
    else ⟨Result.zero, some e, t, false⟩
  | GetResult.found managedCluster => reconcileOwner env request managedCluster false t

/-! ## Example cycles -/

/-- An environment in which nothing is found and every write succeeds; the
examples below override single answers. -/
def baseEnv : Env :=
  { KlusterletAddonFinalizer := "agent.open-cluster-management.io/klusterletaddonconfig-cleanup"
    KlusterletAddonCRDsPostfix := "-klusterlet-addon-crds"
    KlusterletAddonOperatorPostfix := "-klusterlet-addon-operator"
    Getenv := fun _ => "default"
    GetManagedCluster := fun _ _ => GetResult.failed Err.notFound
    GetKlusterletAddonConfig := fun _ _ _ => GetResult.failed Err.notFound
    UpdateManagedCluster := fun _ _ => none
    UpdateKlusterletAddonConfig := fun _ _ => none
    DeleteKlusterletAddonConfig := fun _ _ => none
    deleteManifestWorkCRs := fun _ _ _ => (true, none)
    DeleteManifestWork := fun _ _ _ _ => some Err.notFound
    createManifestWorkCRD := fun _ _ _ => none
    createManifestWorkComponentOperator := fun _ _ => none
    syncManagedClusterAddonCRs := fun _ _ => none
    GetManifestWork := fun _ _ _ => (none, none)
    syncManifestWorkCRs := fun _ _ => none }

/-- The request key of the examples. -/
def exRequest : Request := ⟨"cluster1", "cluster1"⟩

/-- An available target that carries the finalizer and the policy label. -/
def exTarget : ManagedCluster :=
  ⟨"cluster1", some [(PolicyControllerLabel, "true")],
    ["agent.open-cluster-management.io/klusterletaddonconfig-cleanup"], none,
    ⟨[⟨ManagedClusterConditionAvailable, "True"⟩], ⟨"v1.19.0"⟩⟩⟩

/-- An owner that carries the finalizer and is not in deletion. -/
def exOwner : KlusterletAddonConfig :=
  ⟨"cluster1", "cluster1", none,
    ["agent.open-cluster-management.io/klusterletaddonconfig-cleanup"], none,
    ⟨"cluster1", "cluster1", "IfNotPresent", "", "", ⟨true⟩, ⟨true⟩⟩⟩

/-- The owner of the examples, in deletion. -/
def exOwnerDeleting : KlusterletAddonConfig :=
  { exOwner with DeletionTimestamp := some 1 }

/-- Target and owner exist, the owner is in deletion, every tier is already
gone and every write succeeds. -/
def envTeardownDone : Env :=
  { baseEnv with
    GetManagedCluster := fun _ _ => GetResult.found exTarget
    GetKlusterletAddonConfig := fun _ _ _ => GetResult.found exOwnerDeleting }

/-- As `envTeardownDone`, but the component CRs are not gone yet. -/
def envTeardownPending : Env :=
  { envTeardownDone with deleteManifestWorkCRs := fun _ _ _ => (false, none) }

/-! ## The paths through a cycle

Each relation below lists the ways one segment of `Reconcile` can run: one
constructor per return point, with the answers of the environment as
arguments.  The theorems `*_path` further down show that the segment always
runs along one of them. -/

/-- The ways `setManagedClusterPolicyControllerLabel` runs on target `mc` for
owner `k`: the target left in memory, the error, the events added. -/
inductive LabelStep (mc : ManagedCluster) (k : KlusterletAddonConfig) :
    ManagedCluster → Option Err → List Event → Prop
  | cleared (err : Option Err)
      (hk : (k.DeletionTimestamp.isSome || !k.Spec.PolicyController.Enabled) = true)
      (hl : (mc.Labels.find PolicyControllerLabel).isSome = true) :
      LabelStep mc k { mc with Labels := mc.Labels.delete PolicyControllerLabel } err
        [Event.UpdateManagedCluster
          { mc with Labels := mc.Labels.delete PolicyControllerLabel } err]
  | absent
      (hk : (k.DeletionTimestamp.isSome || !k.Spec.PolicyController.Enabled) = true)
      (hl : (mc.Labels.find PolicyControllerLabel).isSome = false) :
      LabelStep mc k mc none []
  | assigned (err : Option Err)
      (hk : (k.DeletionTimestamp.isSome || !k.Spec.PolicyController.Enabled) = false)
      (hl : (ToLower ((installLabels mc).Labels.get PolicyControllerLabel) != "true") = true) :
      LabelStep mc k
        { installLabels mc with
          Labels := (installLabels mc).Labels.set PolicyControllerLabel "true" } err
        [Event.UpdateManagedCluster
          { installLabels mc with
            Labels := (installLabels mc).Labels.set PolicyControllerLabel "true" } err]
  | kept
      (hk : (k.DeletionTimestamp.isSome || !k.Spec.PolicyController.Enabled) = false)
      (hl : (ToLower ((installLabels mc).Labels.get PolicyControllerLabel) != "true") = false) :
      LabelStep mc k (installLabels mc) none []

/-- The events of lines 283-298 when the three synchronizers succeed. -/
def syncedEvents (env : Env) (mc : ManagedCluster) (k : KlusterletAddonConfig) : List Event :=
  [Event.createManifestWorkCRD (fillDefaults env k) mc.Status.Version.Kubernetes none,
   Event.createManifestWorkComponentOperator (fillDefaults env k) none,
   Event.syncManagedClusterAddonCRs (fillDefaults env k) none]

/-- The event of the CRD-bundle status fetch of line 307. -/
def crdFetch (env : Env) (request : Request) (manifestWork : Option ManifestWork)
    (err : Option Err) : Event :=
  Event.GetManifestWork (request.Namespace ++ env.KlusterletAddonCRDsPostfix)
    request.Namespace manifestWork err

/-- The return points of lines 258-327. -/
inductive ActivePath (env : Env) (request : Request) (mc : ManagedCluster)
    (k : KlusterletAddonConfig) (t : List Event) : Outcome → Prop
  | ownerDeleteFailed (e : Err)
      (hd : (mc.DeletionTimestamp.isSome && k.DeletionTimestamp.isNone) = true) :
      ActivePath env request mc k t
        ⟨Result.zero, some e, t ++ [Event.DeleteKlusterletAddonConfig k (some e)], false⟩
  | ownerDeleted
      (hd : (mc.DeletionTimestamp.isSome && k.DeletionTimestamp.isNone) = true) :
      ActivePath env request mc k t
        ⟨Result.zero, none, t ++ [Event.DeleteKlusterletAddonConfig k none], false⟩
  | paused
      (hd : (mc.DeletionTimestamp.isSome && k.DeletionTimestamp.isNone) = false)
      (hp : isPaused k = true) :
      ActivePath env request mc k t ⟨Result.zero, none, t, false⟩
  | crdFailed (e : Err)
      (hd : (mc.DeletionTimestamp.isSome && k.DeletionTimestamp.isNone) = false)
      (hp : isPaused k = false) :
      ActivePath env request mc k t
        ⟨Result.zero, some e,
          t ++ [Event.createManifestWorkCRD (fillDefaults env k)
            mc.Status.Version.Kubernetes (some e)], false⟩
  | operatorFailed (e : Err)
      (hd : (mc.DeletionTimestamp.isSome && k.DeletionTimestamp.isNone) = false)
      (hp : isPaused k = false) :
      ActivePath env request mc k t
        ⟨Result.zero, some e,
          t ++ [Event.createManifestWorkCRD (fillDefaults env k)
              mc.Status.Version.Kubernetes none,
            Event.createManifestWorkComponentOperator (fillDefaults env k) (some e)], false⟩
  | addonsFailed (e : Err)
      (hd : (mc.DeletionTimestamp.isSome && k.DeletionTimestamp.isNone) = false)
      (hp : isPaused k = false) :
      ActivePath env request mc k t
        ⟨Result.zero, some e,
          t ++ [Event.createManifestWorkCRD (fillDefaults env k)
              mc.Status.Version.Kubernetes none,
            Event.createManifestWorkComponentOperator (fillDefaults env k) none,
            Event.syncManagedClusterAddonCRs (fillDefaults env k) (some e)], false⟩
  | labelFailed (m : ManagedCluster) (e : Err) (s : List Event)
      (hd : (mc.DeletionTimestamp.isSome && k.DeletionTimestamp.isNone) = false)
      (hp : isPaused k = false)
      (hl : LabelStep mc (fillDefaults env k) m (some e) s) :
      ActivePath env request mc k t
        ⟨Result.zero, some e, t ++ syncedEvents env mc k ++ s, false⟩
  | fetchFailed (m : ManagedCluster) (s : List Event) (w : Option ManifestWork) (e : Err)
      (hd : (mc.DeletionTimestamp.isSome && k.DeletionTimestamp.isNone) = false)
      (hp : isPaused k = false)
      (hl : LabelStep mc (fillDefaults env k) m none s) :
      ActivePath env request mc k t
        ⟨Result.zero, some e,
          t ++ syncedEvents env mc k ++ s ++ [crdFetch env request w (some e)], false⟩
  | crsFailed (m : ManagedCluster) (s : List Event) (w : ManifestWork) (e : Err)
      (hd : (mc.DeletionTimestamp.isSome && k.DeletionTimestamp.isNone) = false)
      (hp : isPaused k = false)
      (hl : LabelStep mc (fillDefaults env k) m none s)
      (hw : w.Status.Conditions.length > 0)
      (ha : IsCRDManfestWorkAvailable (some w) = some true) :
      ActivePath env request mc k t
        ⟨Result.zero, some e,
          t ++ syncedEvents env mc k ++ s ++ [crdFetch env request (some w) none,
            Event.syncManifestWorkCRs (fillDefaults env k) (some e)], false⟩
  | steady (m : ManagedCluster) (s : List Event) (w : ManifestWork)
      (hd : (mc.DeletionTimestamp.isSome && k.DeletionTimestamp.isNone) = false)
      (hp : isPaused k = false)
      (hl : LabelStep mc (fillDefaults env k) m none s)
      (hw : w.Status.Conditions.length > 0)
      (ha : IsCRDManfestWorkAvailable (some w) = some true) :
      ActivePath env request mc k t
        ⟨⟨true, 5 * Minute⟩, none,
          t ++ syncedEvents env mc k ++ s ++ [crdFetch env request (some w) none,
            Event.syncManifestWorkCRs (fillDefaults env k) none], false⟩
  | waitAvailable (m : ManagedCluster) (s : List Event) (w : ManifestWork)
      (hd : (mc.DeletionTimestamp.isSome && k.DeletionTimestamp.isNone) = false)
      (hp : isPaused k = false)
      (hl : LabelStep mc (fillDefaults env k) m none s)
      (hw : w.Status.Conditions.length > 0)
      (ha : IsCRDManfestWorkAvailable (some w) = some false) :
      ActivePath env request mc k t
        ⟨⟨true, 30 * Second⟩, none,
          t ++ syncedEvents env mc k ++ s ++ [crdFetch env request (some w) none], false⟩
  | waitApply (m : ManagedCluster) (s : List Event) (w : Option ManifestWork)
      (hd : (mc.DeletionTimestamp.isSome && k.DeletionTimestamp.isNone) = false)
      (hp : isPaused k = false)
      (hl : LabelStep mc (fillDefaults env k) m none s)
      (hw : ∀ x, w = some x → x.Status.Conditions = [])
      (hon : IsManagedClusterOnline (some m) = true) :
      ActivePath env request mc k t
        ⟨⟨true, 30 * Second⟩, none,
          t ++ syncedEvents env mc k ++ s ++ [crdFetch env request w none], false⟩
  | offline (m : ManagedCluster) (s : List Event) (w : Option ManifestWork)
      (hd : (mc.DeletionTimestamp.isSome && k.DeletionTimestamp.isNone) = false)
      (hp : isPaused k = false)
      (hl : LabelStep mc (fillDefaults env k) m none s)
      (hw : ∀ x, w = some x → x.Status.Conditions = [])
      (hon : IsManagedClusterOnline (some m) = false) :
      ActivePath env request mc k t
        ⟨⟨true, 5 * Minute⟩, none,
          t ++ syncedEvents env mc k ++ s ++ [crdFetch env request w none], false⟩

/-- The return points of lines 248-256, and the paths that go on. -/
inductive OwnerFinalizerPath (env : Env) (request : Request) (mc : ManagedCluster)
    (k : KlusterletAddonConfig) (t : List Event) : Outcome → Prop
  | conflict
      (hf : HasFinalizer k.Finalizers env.KlusterletAddonFinalizer = false) :
      OwnerFinalizerPath env request mc k t
        ⟨⟨true, 5 * Second⟩, none,
          t ++ [Event.UpdateKlusterletAddonConfig
            { k with Finalizers := AddFinalizer k.Finalizers env.KlusterletAddonFinalizer }
            (some Err.conflict)], false⟩
  | updateFailed (e : Err) (he : e ≠ Err.conflict)
      (hf : HasFinalizer k.Finalizers env.KlusterletAddonFinalizer = false) :
      OwnerFinalizerPath env request mc k t
        ⟨Result.zero, some e,
          t ++ [Event.UpdateKlusterletAddonConfig
            { k with Finalizers := AddFinalizer k.Finalizers env.KlusterletAddonFinalizer }
            (some e)], false⟩
  | added (o : Outcome)
      (hf : HasFinalizer k.Finalizers env.KlusterletAddonFinalizer = false)
      (ho : ActivePath env request mc
        { k with Finalizers := AddFinalizer k.Finalizers env.KlusterletAddonFinalizer }
        (t ++ [Event.UpdateKlusterletAddonConfig
          { k with Finalizers := AddFinalizer k.Finalizers env.KlusterletAddonFinalizer }
          none]) o) :
      OwnerFinalizerPath env request mc k t o
  | present (o : Outcome)
      (hf : HasFinalizer k.Finalizers env.KlusterletAddonFinalizer = true)
      (ho : ActivePath env request mc k t o) :
      OwnerFinalizerPath env request mc k t o

/-- The return points of lines 234-247, and the paths that go on. -/
inductive TargetFinalizerPath (env : Env) (request : Request) (mc : ManagedCluster)
    (nf : Bool) (k : KlusterletAddonConfig) (t : List Event) : Outcome → Prop
  | noTarget (hn : nf = true) :
      TargetFinalizerPath env request mc nf k t ⟨Result.zero, none, t, false⟩
  | conflict (hn : nf = false)
      (hf : HasFinalizer mc.Finalizers env.KlusterletAddonFinalizer = false) :
      TargetFinalizerPath env request mc nf k t
        ⟨⟨true, 5 * Second⟩, none,
          t ++ [Event.UpdateManagedCluster
            { mc with Finalizers := AddFinalizer mc.Finalizers env.KlusterletAddonFinalizer }
            (some Err.conflict)], false⟩
  | updateFailed (e : Err) (he : e ≠ Err.conflict) (hn : nf = false)
      (hf : HasFinalizer mc.Finalizers env.KlusterletAddonFinalizer = false) :
      TargetFinalizerPath env request mc nf k t
        ⟨Result.zero, some e,
          t ++ [Event.UpdateManagedCluster
            { mc with Finalizers := AddFinalizer mc.Finalizers env.KlusterletAddonFinalizer }
            (some e)], false⟩
  | added (o : Outcome) (hn : nf = false)
      (hf : HasFinalizer mc.Finalizers env.KlusterletAddonFinalizer = false)
      (ho : OwnerFinalizerPath env request
        { mc with Finalizers := AddFinalizer mc.Finalizers env.KlusterletAddonFinalizer } k
        (t ++ [Event.UpdateManagedCluster
          { mc with Finalizers := AddFinalizer mc.Finalizers env.KlusterletAddonFinalizer }
          none]) o) :
      TargetFinalizerPath env request mc nf k t o
  | present (o : Outcome) (hn : nf = false)
      (hf : HasFinalizer mc.Finalizers env.KlusterletAddonFinalizer = true)
      (ho : OwnerFinalizerPath env request mc k t o) :
      TargetFinalizerPath env request mc nf k t o

/-- The events of lines 180-212 when all three tiers report completed: the
component CRs, then the operator bundle, then the CRD bundle (a bundle delete
is completed when the store answers not-found). -/
def tornDownEvents (env : Env) (k : KlusterletAddonConfig) (rf : Bool) : List Event :=
  [Event.deleteManifestWorkCRs k rf true none,
   Event.DeleteManifestWork (k.Name ++ env.KlusterletAddonOperatorPostfix) k.Namespace rf
     (some Err.notFound),
   Event.DeleteManifestWork (k.Name ++ env.KlusterletAddonCRDsPostfix) k.Namespace rf
     (some Err.notFound)]

/-- The return points of lines 176-233; `rf` is the override of line 178. -/
inductive DeletionPath (env : Env) (mc : ManagedCluster) (nf : Bool)
    (k : KlusterletAddonConfig) (t : List Event) (rf : Bool) : Outcome → Prop
  | crsFailed (c : Bool) (e : Err) :
      DeletionPath env mc nf k t rf
        ⟨Result.zero, some e, t ++ [Event.deleteManifestWorkCRs k rf c (some e)], false⟩
  | crsPending :
      DeletionPath env mc nf k t rf
        ⟨⟨true, 5 * Second⟩, none, t ++ [Event.deleteManifestWorkCRs k rf false none], false⟩
  | operatorFailed (e : Err) (he : e ≠ Err.notFound) :
      DeletionPath env mc nf k t rf
        ⟨Result.zero, some e,
          t ++ [Event.deleteManifestWorkCRs k rf true none,
            Event.DeleteManifestWork (k.Name ++ env.KlusterletAddonOperatorPostfix)
              k.Namespace rf (some e)], false⟩
  | operatorPending :
      DeletionPath env mc nf k t rf
        ⟨⟨true, 5 * Second⟩, none,
          t ++ [Event.deleteManifestWorkCRs k rf true none,
            Event.DeleteManifestWork (k.Name ++ env.KlusterletAddonOperatorPostfix)
              k.Namespace rf none], false⟩
  | crdFailed (e : Err) (he : e ≠ Err.notFound) :
      DeletionPath env mc nf k t rf
        ⟨Result.zero, some e,
          t ++ [Event.deleteManifestWorkCRs k rf true none,
            Event.DeleteManifestWork (k.Name ++ env.KlusterletAddonOperatorPostfix)
              k.Namespace rf (some Err.notFound),
            Event.DeleteManifestWork (k.Name ++ env.KlusterletAddonCRDsPostfix)
              k.Namespace rf (some e)], false⟩
  | crdPending :
      DeletionPath env mc nf k t rf
        ⟨⟨true, 5 * Second⟩, none,
          t ++ [Event.deleteManifestWorkCRs k rf true none,
            Event.DeleteManifestWork (k.Name ++ env.KlusterletAddonOperatorPostfix)
              k.Namespace rf (some Err.notFound),
            Event.DeleteManifestWork (k.Name ++ env.KlusterletAddonCRDsPostfix)
              k.Namespace rf none], false⟩
  | labelFailed (m : ManagedCluster) (e : Err) (s : List Event)
      (hl : LabelStep mc k m (some e) s) :
      DeletionPath env mc nf k t rf
        ⟨Result.zero, some e, t ++ tornDownEvents env k rf ++ s, false⟩
  | ownerUpdateFailed (m : ManagedCluster) (s : List Event) (e : Err)
      (hl : LabelStep mc k m none s) :
      DeletionPath env mc nf k t rf
        ⟨Result.zero, some e,
          t ++ tornDownEvents env k rf ++ s ++ [Event.UpdateKlusterletAddonConfig
            { k with Finalizers := RemoveFinalizer k.Finalizers env.KlusterletAddonFinalizer }
            (some e)], false⟩
  | doneNoTarget (m : ManagedCluster) (s : List Event)
      (hl : LabelStep mc k m none s) (hn : nf = true) :
      DeletionPath env mc nf k t rf
        ⟨Result.zero, none,
          t ++ tornDownEvents env k rf ++ s ++ [Event.UpdateKlusterletAddonConfig
            { k with Finalizers := RemoveFinalizer k.Finalizers env.KlusterletAddonFinalizer }
            none], false⟩
  | targetUpdateFailed (m : ManagedCluster) (s : List Event) (e : Err)
      (hl : LabelStep mc k m none s) (hn : nf = false) :
      DeletionPath env mc nf k t rf
        ⟨Result.zero, some e,
          t ++ tornDownEvents env k rf ++ s ++ [Event.UpdateKlusterletAddonConfig
            { k with Finalizers := RemoveFinalizer k.Finalizers env.KlusterletAddonFinalizer }
            none,
            Event.UpdateManagedCluster
              { m with Finalizers := RemoveFinalizer m.Finalizers env.KlusterletAddonFinalizer }
              (some e)], false⟩
  | done (m : ManagedCluster) (s : List Event)
      (hl : LabelStep mc k m none s) (hn : nf = false) :
      DeletionPath env mc nf k t rf
        ⟨Result.zero, none,
          t ++ tornDownEvents env k rf ++ s ++ [Event.UpdateKlusterletAddonConfig
            { k with Finalizers := RemoveFinalizer k.Finalizers env.KlusterletAddonFinalizer }
            none,
            Event.UpdateManagedCluster
              { m with Finalizers := RemoveFinalizer m.Finalizers env.KlusterletAddonFinalizer }
              none], false⟩

/-- The return points of lines 159-176, and the paths that go on. -/
inductive OwnerPath (env : Env) (request : Request) (mc : ManagedCluster) (nf : Bool)
    (t : List Event) : Outcome → Prop
  | fetchFailed (e : Err) (he : e ≠ Err.notFound) :
      OwnerPath env request mc nf t
        ⟨Result.zero, some e,
          t ++ [Event.GetKlusterletAddonConfig request.Namespace request.Name
            (GetResult.failed e)], false⟩
  | goneReleaseFailed (e : Err) (hn : nf = false)
      (hf : HasFinalizer mc.Finalizers env.KlusterletAddonFinalizer = true) :
      OwnerPath env request mc nf t
        ⟨Result.zero, some e,
          t ++ [Event.GetKlusterletAddonConfig request.Namespace request.Name
              (GetResult.failed Err.notFound),
            Event.UpdateManagedCluster
              { mc with Finalizers := RemoveFinalizer mc.Finalizers env.KlusterletAddonFinalizer }
              (some e)], false⟩
  | goneReleased (hn : nf = false)
      (hf : HasFinalizer mc.Finalizers env.KlusterletAddonFinalizer = true) :
      OwnerPath env request mc nf t
        ⟨Result.zero, none,
          t ++ [Event.GetKlusterletAddonConfig request.Namespace request.Name
              (GetResult.failed Err.notFound),
            Event.UpdateManagedCluster
              { mc with Finalizers := RemoveFinalizer mc.Finalizers env.KlusterletAddonFinalizer }
              none], false⟩
  | gone
      (hf : (!nf && HasFinalizer mc.Finalizers env.KlusterletAddonFinalizer) = false) :
      OwnerPath env request mc nf t
        ⟨Result.zero, none,
          t ++ [Event.GetKlusterletAddonConfig request.Namespace request.Name
            (GetResult.failed Err.notFound)], false⟩
  | deleting (k : KlusterletAddonConfig) (o : Outcome)
      (hk : k.DeletionTimestamp.isSome = true)
      (ho : DeletionPath env mc nf k
        (t ++ [Event.GetKlusterletAddonConfig request.Namespace request.Name
          (GetResult.found k)])
        (nf || !IsManagedClusterOnline (some mc)) o) :
      OwnerPath env request mc nf t o
  | live (k : KlusterletAddonConfig) (o : Outcome)
      (hk : k.DeletionTimestamp.isSome = false)
      (ho : TargetFinalizerPath env request mc nf k
        (t ++ [Event.GetKlusterletAddonConfig request.Namespace request.Name
          (GetResult.found k)]) o) :
      OwnerPath env request mc nf t o

/-- The return points of lines 144-157, and the paths that go on: every way
a cycle of `Reconcile` can run. -/
inductive ReconcilePath (env : Env) (request : Request) : Outcome → Prop
  | targetFetchFailed (e : Err) (he : e ≠ Err.notFound) :
      ReconcilePath env request
        ⟨Result.zero, some e,
          [Event.GetManagedCluster request.Namespace (GetResult.failed e)], false⟩
  | targetAbsent (o : Outcome)
      (ho : OwnerPath env request ManagedCluster.zero true
        [Event.GetManagedCluster request.Namespace (GetResult.failed Err.notFound)] o) :
      ReconcilePath env request o
  | targetFound (mc : ManagedCluster) (o : Outcome)
      (ho : OwnerPath env request mc false
        [Event.GetManagedCluster request.Namespace (GetResult.found mc)] o) :
      ReconcilePath env request o

/-! ## Vocabulary for statements about traces -/

/-- The two fetches that open a cycle: the target and the owner. -/
def Event.isFetch : Event → Bool
  | Event.GetManagedCluster _ _ => true
  | Event.GetKlusterletAddonConfig _ _ _ => true
  | _ => false

/-- Every event of `l` that satisfies `q` comes after an event of `l` that
satisfies `p`. -/
def PrecededBy (p q : Event → Prop) (l : List Event) : Prop :=
  ∀ pre e post, l = pre ++ e :: post → q e → ∃ x, x ∈ pre ∧ p x

/-- The four dependent synchronization calls of lines 283-315. -/
def Event.isSync : Event → Bool
  | Event.createManifestWorkCRD _ _ _ => true
  | Event.createManifestWorkComponentOperator _ _ => true
  | Event.syncManagedClusterAddonCRs _ _ => true
  | Event.syncManifestWorkCRs _ _ => true
  | _ => false

/-- The target with the finalizer added (line 240); the target itself when
it carries the finalizer already. -/
def withTargetFinalizer (env : Env) (mc : ManagedCluster) : ManagedCluster :=
  { mc with Finalizers := AddFinalizer mc.Finalizers env.KlusterletAddonFinalizer }

/-- The owner with the finalizer added (line 249); the owner itself when it
carries the finalizer already. -/
def withOwnerFinalizer (env : Env) (k : KlusterletAddonConfig) : KlusterletAddonConfig :=
  { k with Finalizers := AddFinalizer k.Finalizers env.KlusterletAddonFinalizer }

/-- The event of lines 239-247 when the finalizer-add Update of the target
succeeds; no event when the target carries the finalizer already. -/
def targetFinalizerEvents (env : Env) (mc : ManagedCluster) : List Event :=
  if HasFinalizer mc.Finalizers env.KlusterletAddonFinalizer then []
  else [Event.UpdateManagedCluster (withTargetFinalizer env mc) none]

/-- The event of lines 248-256 when the finalizer-add Update of the owner
succeeds; no event when the owner carries the finalizer already. -/
def ownerFinalizerEvents (env : Env) (k : KlusterletAddonConfig) : List Event :=
  if HasFinalizer k.Finalizers env.KlusterletAddonFinalizer then []
  else [Event.UpdateKlusterletAddonConfig (withOwnerFinalizer env k) none]

/-- An owner paused by the annotation, in upper case, and not in deletion. -/
def exOwnerPaused : KlusterletAddonConfig :=
  { exOwner with Annotations := some [(KlusterletAddonConfigAnnotationPause, "TRUE")] }

/-- A paused owner that is in deletion. -/
def exOwnerPausedDeleting : KlusterletAddonConfig :=
  { exOwnerPaused with DeletionTimestamp := some 1 }

/-- The owner is paused and not in deletion; the target exists. -/
def envPaused : Env :=
  { envTeardownDone with
    GetKlusterletAddonConfig := fun _ _ _ => GetResult.found exOwnerPaused }

/-- The owner is paused and in deletion, and the component CRs are not gone
yet. -/
def envPausedDeleting : Env :=
  { envTeardownPending with
    GetKlusterletAddonConfig := fun _ _ _ => GetResult.found exOwnerPausedDeleting }

/-- An owner that is neither paused nor in deletion, with the target of the
examples; the CRD bundle has no status yet. -/
def envWaitApply : Env :=
  { envTeardownDone with
    GetKlusterletAddonConfig := fun _ _ _ => GetResult.found exOwner }

/-- A CRD bundle that reports the Available condition with status "True". -/
def exWorkAvailable : ManifestWork :=
  ⟨"cluster1-klusterlet-addon-crds", "cluster1", [], ⟨[⟨WorkAvailable, "True"⟩]⟩⟩

/-- As `envWaitApply`, with the CRD bundle available. -/
def envSteady : Env :=
  { envWaitApply with GetManifestWork := fun _ _ _ => (some exWorkAvailable, none) }

/-- A target without the finalizer. -/
def exTargetFresh : ManagedCluster := { exTarget with Finalizers := [] }

/-- The owner is live, the target lacks the finalizer, and the Update that
adds it meets a Conflict. -/
def envTargetConflict : Env :=
  { envWaitApply with
    GetManagedCluster := fun _ _ => GetResult.found exTargetFresh
    UpdateManagedCluster := fun _ _ => some Err.conflict }

/-- The owner is gone, the target still carries the finalizer, and the Update
that removes it meets a Conflict. -/
def envOwnerGoneConflict : Env :=
  { baseEnv with
    GetManagedCluster := fun _ _ => GetResult.found exTarget
    UpdateManagedCluster := fun _ _ => some Err.conflict }

/-- The Updates of the owner and of the target. -/
def Event.isUpdate : Event → Bool
  | Event.UpdateManagedCluster _ _ => true
  | Event.UpdateKlusterletAddonConfig _ _ => true
  | _ => false

/-- The owner is in deletion, every tier is gone, the target carries the
policy label, and the Update that clears the label fails. -/
def envLabelClearFails : Env :=
  { envTeardownDone with UpdateManagedCluster := fun _ _ => some (Err.other "boom") }

/-- The owner is gone and the target still carries the finalizer. -/
def envOwnerGone : Env :=
  { baseEnv with GetManagedCluster := fun _ _ => GetResult.found exTarget }

/-! ## The event admission filter -/

/-- A `runtime.Object` carried by a watch event, as far as the filter looks at
it: its identity. -/
structure RuntimeObject where
  Kind : String
  Namespace : String
  Name : String
  deriving DecidableEq, Repr

/-- The `event.CreateEvent` of controller-runtime; `none` is a nil object. -/
structure CreateEvent where
  Object : Option RuntimeObject
  deriving DecidableEq, Repr

/-- The `event.UpdateEvent` of controller-runtime. -/
structure UpdateEvent where
  ObjectOld : Option RuntimeObject
  ObjectNew : Option RuntimeObject
  deriving DecidableEq, Repr

/-- The `event.DeleteEvent` of controller-runtime. -/
structure DeleteEvent where
  Object : Option RuntimeObject
  DeleteStateUnknown : Bool
  deriving DecidableEq, Repr

/-- The `event.GenericEvent` of controller-runtime. -/
structure GenericEvent where
  Object : Option RuntimeObject
  deriving DecidableEq, Repr

/-- The `predicate.Funcs` of controller-runtime: four optional functions. -/
structure Funcs where
  CreateFunc : Option (CreateEvent → Bool)
  DeleteFunc : Option (DeleteEvent → Bool)
  UpdateFunc : Option (UpdateEvent → Bool)
  GenericFunc : Option (GenericEvent → Bool)

/-- The method `Funcs.Create`: the function when set, true otherwise. -/
def Funcs.Create (p : Funcs) (e : CreateEvent) : Bool :=
  match p.CreateFunc with
  | some f => f e
  | none => true

/-- The method `Funcs.Delete`. -/
def Funcs.Delete (p : Funcs) (e : DeleteEvent) : Bool :=
  match p.DeleteFunc with
  | some f => f e
  | none => true

/-- The method `Funcs.Update`. -/
def Funcs.Update (p : Funcs) (e : UpdateEvent) : Bool :=
  match p.UpdateFunc with
  | some f => f e
  | none => true

/-- The method `Funcs.Generic`. -/
def Funcs.Generic (p : Funcs) (e : GenericEvent) : Bool :=
  match p.GenericFunc with
  | some f => f e
  | none => true

/-- Lines 372-385. -/
def newManagedClusterAddonDeletionPredicate : Funcs :=
  { GenericFunc := some (fun _ => false)
    CreateFunc := some (fun _ => false)
    DeleteFunc := some (fun e => if e.Object.isNone then false else true)
    UpdateFunc := some (fun _ => false) }

/-! ## More vocabulary and examples -/

/-- A string that is "true" up to the case of its four letters. -/
def IsTrueIgnoringCase (v : String) : Bool :=
  match v.data with
  | [c1, c2, c3, c4] =>
    (c1 == 't' || c1 == 'T') && (c2 == 'r' || c2 == 'R')
      && (c3 == 'u' || c3 == 'U') && (c4 == 'e' || c4 == 'E')
  | _ => false

/-- An owner with the given annotations, for the examples of `isPaused`. -/
def exAnnotated (a : StrMap) : KlusterletAddonConfig :=
  { exOwner with Annotations := a }

/-- The owner value a dependent synchronization call was handed; `none` for
the other calls. -/
def Event.syncOwner : Event → Option KlusterletAddonConfig
  | Event.createManifestWorkCRD owner _ _ => some owner
  | Event.createManifestWorkComponentOperator owner _ => some owner
  | Event.syncManagedClusterAddonCRs owner _ => some owner
  | Event.syncManifestWorkCRs owner _ => some owner
  | _ => none

/-- A target that carries the finalizer and is in deletion. -/
def exTargetDeleting : ManagedCluster := { exTarget with DeletionTimestamp := some 1 }

/-- The target is in deletion; the owner is paused and not in deletion. -/
def envTargetDeleting : Env :=
  { envPaused with GetManagedCluster := fun _ _ => GetResult.found exTargetDeleting }

/-- The error a call was answered with; `none` when the call succeeded. -/
def Event.error : Event → Option Err
  | Event.GetManagedCluster _ res => res.err
  | Event.GetKlusterletAddonConfig _ _ res => res.err
  | Event.UpdateManagedCluster _ err => err
  | Event.UpdateKlusterletAddonConfig _ err => err
  | Event.DeleteKlusterletAddonConfig _ err => err
  | Event.deleteManifestWorkCRs _ _ _ err => err
  | Event.DeleteManifestWork _ _ _ err => err
  | Event.createManifestWorkCRD _ _ err => err
  | Event.createManifestWorkComponentOperator _ err => err
  | Event.syncManagedClusterAddonCRs _ err => err
  | Event.GetManifestWork _ _ _ err => err
  | Event.syncManifestWorkCRs _ err => err

/-- Every event of `l` that satisfies `p` is the last event of `l`, and `c`
holds when there is one. -/
def AbortsOn (p : Event → Prop) (c : Prop) (l : List Event) : Prop :=
  ∀ pre ev post, l = pre ++ ev :: post → p ev → post = [] ∧ c

/-! ## The object store between cycles -/

/-- The calls that write to the store: every Update, Delete, create and sync
call.  The three fetches only read. -/
def Event.isWrite : Event → Bool
  | Event.GetManagedCluster _ _ => false
  | Event.GetKlusterletAddonConfig _ _ _ => false
  | Event.GetManifestWork _ _ _ _ => false
  | _ => true

/-- The target and the owner of one request key as the object store holds
them between two cycles; `none` is an object the store does not have.  The
store is outside the controller: this is the environment a cycle reads from
and writes to. -/
structure Store where
  target : Option ManagedCluster
  owner : Option KlusterletAddonConfig
  deriving DecidableEq, Repr

/-- The answer of a Get of the target on a store. -/
def Store.readTarget (st : Store) : GetResult ManagedCluster :=
  match st.target with
  | some m => GetResult.found m
  | none => GetResult.failed Err.notFound

/-- The answer of a Get of the owner on a store. -/
def Store.readOwner (st : Store) : GetResult KlusterletAddonConfig :=
  match st.owner with
  | some k => GetResult.found k
  | none => GetResult.failed Err.notFound

/-- The effect of one call on the store.  A successful Update stores the
object it was given; an object in deletion is held back by its finalizers
only, so it is gone once an Update leaves it with none.  A successful Delete
of the owner puts the owner in deletion, or removes it when it has no
finalizer.  Failed calls and the other calls leave the pair as it is. -/
def Store.apply (st : Store) : Event → Store
  | Event.UpdateManagedCluster obj none =>
    { st with
      target := if obj.DeletionTimestamp.isSome && obj.Finalizers.isEmpty then none
        else some obj }
  | Event.UpdateKlusterletAddonConfig obj none =>
    { st with
      owner := if obj.DeletionTimestamp.isSome && obj.Finalizers.isEmpty then none
        else some obj }
  | Event.DeleteKlusterletAddonConfig _ none =>
    { st with
      owner := st.owner.bind (fun k =>
        if k.Finalizers.isEmpty then none
        else some { k with DeletionTimestamp := some (k.DeletionTimestamp.getD 0) }) }
  | _ => st

/-- The store after the calls of a cycle, oldest first. -/
def Store.after (st : Store) (trace : List Event) : Store :=
  trace.foldl Store.apply st

/-- An environment whose two Gets read the store; everything else is taken
from `base`. -/
def Store.env (st : Store) (base : Env) : Env :=
  { base with
    GetManagedCluster := fun _ _ => st.readTarget
    GetKlusterletAddonConfig := fun _ _ _ => st.readOwner }

/-- An owner in deletion that carries a second finalizer, of someone else. -/
def exOwnerShared : KlusterletAddonConfig :=
  { exOwnerDeleting with
    Finalizers := ["agent.open-cluster-management.io/klusterletaddonconfig-cleanup",
      "example.io/hold"] }

/-- The store holds the target of the examples and the owner `exOwnerShared`. -/
def exStoreShared : Store := ⟨some exTarget, some exOwnerShared⟩

/-- The store holds the target and the owner of `envTeardownDone`. -/
def exStore : Store := ⟨some exTarget, some exOwnerDeleting⟩

/-- A target that carries the finalizer and no label. -/
def exTargetPlain : ManagedCluster := { exTarget with Labels := none }

/-- The store holds the target `exTargetPlain` and the owner in deletion. -/
def exStorePlain : Store := ⟨some exTargetPlain, some exOwnerDeleting⟩

/-- Every tier is gone and the Update of the owner succeeds, but the Update
of the target meets a Conflict. -/
def envTargetReleaseFails : Env :=
  { baseEnv with UpdateManagedCluster := fun _ _ => some Err.conflict }

/-- A target whose policy label is set in upper case, among other labels. -/
def exTargetUpper : ManagedCluster :=
  { exTarget with Labels := some [("region", "east"), (PolicyControllerLabel, "TRUE")] }

/-- A target with no label map. -/
def exTargetNoLabels : ManagedCluster := { exTarget with Labels := none }

/-- An owner, not in deletion, with the policy controller disabled. -/
def exOwnerNoPolicy : KlusterletAddonConfig :=
  { exOwner with Spec := { exOwner.Spec with PolicyController := ⟨false⟩ } }

/-- The owner is live with the policy controller disabled, the target carries
the finalizer and the policy label, and the Update that clears the label meets
a Conflict. -/
def envLabelConflict : Env :=
  { envWaitApply with
    GetKlusterletAddonConfig := fun _ _ _ => GetResult.found exOwnerNoPolicy
    UpdateManagedCluster := fun _ _ => some Err.conflict }

/-! ## Every segment runs along one of its paths -/

theorem setManagedClusterPolicyControllerLabel_path (env : Env) (t : List Event)
    (mc : ManagedCluster) (k : KlusterletAddonConfig) :
    ∃ s, (setManagedClusterPolicyControllerLabel env t mc k).2.2 = t ++ s
      ∧ LabelStep mc k (setManagedClusterPolicyControllerLabel env t mc k).1
          (setManagedClusterPolicyControllerLabel env t mc k).2.1 s := by
  unfold setManagedClusterPolicyControllerLabel
  by_cases hk : (k.DeletionTimestamp.isSome || !k.Spec.PolicyController.Enabled) = true
  · by_cases hl : (mc.Labels.find PolicyControllerLabel).isSome = true
    · simp only [hk, hl, if_true]
      exact ⟨_, rfl, LabelStep.cleared _ hk hl⟩
    · simp only [hk, hl, if_true, if_false]
      exact ⟨[], by simp, LabelStep.absent hk (by simpa using hl)⟩
  · by_cases hl : (ToLower ((installLabels mc).Labels.get PolicyControllerLabel) != "true") = true
    · simp only [hk, hl, if_true, if_false]
      exact ⟨_, rfl, LabelStep.assigned _ (by simpa using hk) hl⟩
    · simp only [hk, hl, if_false]
      exact ⟨[], by simp, LabelStep.kept (by simpa using hk) (by simpa using hl)⟩

theorem reconcileActive_path (env : Env) (request : Request) (mc : ManagedCluster)
    (k : KlusterletAddonConfig) (t : List Event) :
    ActivePath env request mc k t (reconcileActive env request mc k t) := by
  unfold reconcileActive
  cases hd : (mc.DeletionTimestamp.isSome && k.DeletionTimestamp.isNone) with
  | true =>
    simp only [if_true]
    generalize env.DeleteKlusterletAddonConfig t k = err
    cases err with
    | none => simpa using ActivePath.ownerDeleted hd
    | some e => simpa using ActivePath.ownerDeleteFailed e hd
  | false =>
    cases hp : isPaused k with
    | true =>
      simp only [if_true, Bool.false_eq_true, if_false]
      exact ActivePath.paused hd hp
    | false =>
      simp only [Bool.false_eq_true, if_false]
      generalize env.createManifestWorkCRD t (fillDefaults env k)
        mc.Status.Version.Kubernetes = err1
      cases err1 with
      | some e => simpa using ActivePath.crdFailed e hd hp
      | none =>
        simp only [Option.isSome_none, Bool.false_eq_true, if_false]
        generalize env.createManifestWorkComponentOperator _ (fillDefaults env k) = err2
        cases err2 with
        | some e => simpa using ActivePath.operatorFailed e hd hp
        | none =>
          simp only [Option.isSome_none, Bool.false_eq_true, if_false]
          generalize env.syncManagedClusterAddonCRs _ (fillDefaults env k) = err3
          cases err3 with
          | some e => simpa using ActivePath.addonsFailed e hd hp
          | none =>
            simp only [Option.isSome_none, Bool.false_eq_true, if_false]
            obtain ⟨s, hs, hl⟩ := setManagedClusterPolicyControllerLabel_path env
              (t ++ [Event.createManifestWorkCRD (fillDefaults env k)
                  mc.Status.Version.Kubernetes none] ++
                [Event.createManifestWorkComponentOperator (fillDefaults env k) none] ++
                [Event.syncManagedClusterAddonCRs (fillDefaults env k) none])
              mc (fillDefaults env k)
            generalize setManagedClusterPolicyControllerLabel env _ mc (fillDefaults env k) = r4
              at hs hl ⊢
            obtain ⟨m, errL, t4⟩ := r4
            simp only at hs hl ⊢
            subst hs
            cases errL with
            | some e => simpa [syncedEvents] using ActivePath.labelFailed (t := t) m e s hd hp hl
            | none =>
              simp only [Option.isSome_none, Bool.false_eq_true, if_false]
              generalize env.GetManifestWork _ _ _ = r5
              obtain ⟨w, err5⟩ := r5
              cases err5 with
              | some e =>
                simpa [syncedEvents, crdFetch] using
                  ActivePath.fetchFailed (t := t) m s w e hd hp hl
              | none =>
                simp only [Option.isSome_none, Bool.false_eq_true, if_false]
                have hcond : (match w with
                    | none => false
                    | some x => decide (x.Status.Conditions.length > 0)) = false →
                    ∀ x, w = some x → x.Status.Conditions = [] := by
                  intro h x hx
                  subst hx
                  simpa using h
                cases hc : (match w with
                    | none => false
                    | some x => decide (x.Status.Conditions.length > 0)) with
                | false =>
                  simp only [Bool.false_eq_true, if_false]
                  cases hon : IsManagedClusterOnline (some m) with
                  | true =>
                    simpa [syncedEvents, crdFetch] using
                      ActivePath.waitApply (t := t) m s w hd hp hl (hcond hc) hon
                  | false =>
                    simpa [syncedEvents, crdFetch] using
                      ActivePath.offline (t := t) m s w hd hp hl (hcond hc) hon
                | true =>
                  simp only [if_true]
                  cases w with
                  | none => simp at hc
                  | some x =>
                    have hw : x.Status.Conditions.length > 0 := by simpa using hc
                    cases ha : (x.Status.Conditions.any (fun condition =>
                        condition.Type_ == WorkAvailable && condition.Status == "True")) with
                    | false =>
                      have ha' : IsCRDManfestWorkAvailable (some x) = some false := by
                        simp [IsCRDManfestWorkAvailable, ha]
                      simp only [ha']
                      simpa [syncedEvents, crdFetch] using
                        ActivePath.waitAvailable (t := t) m s x hd hp hl hw ha'
                    | true =>
                      have ha' : IsCRDManfestWorkAvailable (some x) = some true := by
                        simp [IsCRDManfestWorkAvailable, ha]
                      simp only [ha']
                      generalize env.syncManifestWorkCRs _ (fillDefaults env k) = err6
                      cases err6 with
                      | some e =>
                        simpa [syncedEvents, crdFetch] using
                          ActivePath.crsFailed (t := t) m s x e hd hp hl hw ha'
                      | none =>
                        simpa [syncedEvents, crdFetch] using
                          ActivePath.steady (t := t) m s x hd hp hl hw ha'

theorem reconcileOwnerFinalizer_path (env : Env) (request : Request) (mc : ManagedCluster)
    (k : KlusterletAddonConfig) (t : List Event) :
    OwnerFinalizerPath env request mc k t (reconcileOwnerFinalizer env request mc k t) := by
  unfold reconcileOwnerFinalizer
  cases hf : HasFinalizer k.Finalizers env.KlusterletAddonFinalizer with
  | true =>
    simp only [Bool.not_true, Bool.false_eq_true, if_false]
    exact OwnerFinalizerPath.present _ hf (reconcileActive_path env request mc k t)
  | false =>
    simp only [Bool.not_false, if_true]
    have hact := reconcileActive_path env request mc
      { k with Finalizers := AddFinalizer k.Finalizers env.KlusterletAddonFinalizer }
      (t ++ [Event.UpdateKlusterletAddonConfig
        { k with Finalizers := AddFinalizer k.Finalizers env.KlusterletAddonFinalizer } none])
    generalize env.UpdateKlusterletAddonConfig t _ = err
    cases err with
    | none =>
      simp only [Option.isSome_none, Bool.false_eq_true, Bool.false_and, if_false]
      exact OwnerFinalizerPath.added _ hf hact
    | some e =>
      cases e with
      | conflict => simpa [IsConflict] using @OwnerFinalizerPath.conflict env request mc k t hf
      | notFound =>
        simpa [IsConflict] using
          @OwnerFinalizerPath.updateFailed env request mc k t Err.notFound (by simp) hf
      | other msg =>
        simpa [IsConflict] using
          @OwnerFinalizerPath.updateFailed env request mc k t (Err.other msg) (by simp) hf

theorem reconcileTargetFinalizer_path (env : Env) (request : Request) (mc : ManagedCluster)
    (nf : Bool) (k : KlusterletAddonConfig) (t : List Event) :
    TargetFinalizerPath env request mc nf k t
      (reconcileTargetFinalizer env request mc nf k t) := by
  unfold reconcileTargetFinalizer
  cases hn : nf with
  | true =>
    simp only [if_true]
    exact TargetFinalizerPath.noTarget rfl
  | false =>
    simp only [Bool.false_eq_true, if_false]
    cases hf : HasFinalizer mc.Finalizers env.KlusterletAddonFinalizer with
    | true =>
      simp only [Bool.not_true, Bool.false_eq_true, if_false]
      exact TargetFinalizerPath.present _ rfl hf (reconcileOwnerFinalizer_path env request mc k t)
    | false =>
      simp only [Bool.not_false, if_true]
      have hnext := reconcileOwnerFinalizer_path env request
        { mc with Finalizers := AddFinalizer mc.Finalizers env.KlusterletAddonFinalizer } k
        (t ++ [Event.UpdateManagedCluster
          { mc with Finalizers := AddFinalizer mc.Finalizers env.KlusterletAddonFinalizer } none])
      generalize env.UpdateManagedCluster t _ = err
      cases err with
      | none =>
        simp only [Option.isSome_none, Bool.false_eq_true, Bool.false_and, if_false]
        exact TargetFinalizerPath.added _ rfl hf hnext
      | some e =>
        cases e with
        | conflict =>
          simpa [IsConflict] using
            @TargetFinalizerPath.conflict env request mc false k t rfl hf
        | notFound =>
          simpa [IsConflict] using
            @TargetFinalizerPath.updateFailed env request mc false k t
              Err.notFound (by simp) rfl hf
        | other msg =>
          simpa [IsConflict] using
            @TargetFinalizerPath.updateFailed env request mc false k t
              (Err.other msg) (by simp) rfl hf

theorem deleteManifestWorkHelper_eq (env : Env) (t : List Event) (name ns : String)
    (rf : Bool) :
    deleteManifestWorkHelper env t name ns rf
      = ((IsNotFound (env.DeleteManifestWork t name ns rf),
          if IsNotFound (env.DeleteManifestWork t name ns rf) then none
          else env.DeleteManifestWork t name ns rf),
         t ++ [Event.DeleteManifestWork name ns rf (env.DeleteManifestWork t name ns rf)]) := by
  unfold deleteManifestWorkHelper
  generalize env.DeleteManifestWork t name ns rf = err
  rcases err with _ | _ | _ | _ <;> simp [IsNotFound]

theorem reconcileDeletion_path (env : Env) (mc : ManagedCluster) (nf : Bool)
    (k : KlusterletAddonConfig) (t : List Event) :
    DeletionPath env mc nf k t (nf || !IsManagedClusterOnline (some mc))
      (reconcileDeletion env mc nf k t) := by
  unfold reconcileDeletion
  simp only [deleteManifestWorkHelper_eq]
  generalize (nf || !IsManagedClusterOnline (some mc)) = rf
  generalize env.deleteManifestWorkCRs t k rf = r1
  obtain ⟨c, err1⟩ := r1
  cases err1 with
  | some e => simpa using DeletionPath.crsFailed (t := t) (k := k) c e
  | none =>
    cases c with
    | false => simpa using DeletionPath.crsPending (t := t) (k := k)
    | true =>
      simp only [Option.isSome_none, Bool.false_eq_true, if_false, Bool.not_true]
      generalize env.DeleteManifestWork _ (k.Name ++ env.KlusterletAddonOperatorPostfix)
        k.Namespace rf = err2
      rcases err2 with _ | _ | _ | msg
      · simpa [IsNotFound] using @DeletionPath.operatorPending env mc nf k t rf
      · simp only [IsNotFound, if_true, Option.isSome_none, Bool.false_eq_true, if_false,
          Bool.not_true]
        generalize env.DeleteManifestWork _ (k.Name ++ env.KlusterletAddonCRDsPostfix)
          k.Namespace rf = err3
        rcases err3 with _ | _ | _ | msg
        · simpa [IsNotFound] using @DeletionPath.crdPending env mc nf k t rf
        · simp only [IsNotFound, if_true, Option.isSome_none, Bool.false_eq_true, if_false,
            Bool.not_true]
          obtain ⟨s, hs, hl⟩ := setManagedClusterPolicyControllerLabel_path env
            (t ++ [Event.deleteManifestWorkCRs k rf true none] ++
              [Event.DeleteManifestWork (k.Name ++ env.KlusterletAddonOperatorPostfix)
                k.Namespace rf (some Err.notFound)] ++
              [Event.DeleteManifestWork (k.Name ++ env.KlusterletAddonCRDsPostfix)
                k.Namespace rf (some Err.notFound)]) mc k
          generalize setManagedClusterPolicyControllerLabel env _ mc k = r4 at hs hl ⊢
          obtain ⟨m, errL, t4⟩ := r4
          simp only at hs hl ⊢
          subst hs
          cases errL with
          | some e =>
            simpa [tornDownEvents] using @DeletionPath.labelFailed env mc nf k t rf m e s hl
          | none =>
            simp only [Option.isSome_none, Bool.false_eq_true, if_false]
            generalize env.UpdateKlusterletAddonConfig _ _ = err5
            cases err5 with
            | some e =>
              simpa [tornDownEvents] using
                @DeletionPath.ownerUpdateFailed env mc nf k t rf m s e hl
            | none =>
              simp only [Option.isSome_none, Bool.false_eq_true, if_false]
              cases hn : nf with
              | true =>
                simpa [tornDownEvents] using
                  @DeletionPath.doneNoTarget env mc true k t rf m s hl rfl
              | false =>
                simp only [Bool.not_false, if_true]
                generalize env.UpdateManagedCluster _ _ = err6
                cases err6 with
                | some e =>
                  simpa [tornDownEvents] using
                    @DeletionPath.targetUpdateFailed env mc false k t rf m s e hl rfl
                | none =>
                  simpa [tornDownEvents] using
                    @DeletionPath.done env mc false k t rf m s hl rfl
        · simpa [IsNotFound] using
            @DeletionPath.crdFailed env mc nf k t rf Err.conflict (by simp)
        · simpa [IsNotFound] using
            @DeletionPath.crdFailed env mc nf k t rf (Err.other msg) (by simp)
      · simpa [IsNotFound] using
          @DeletionPath.operatorFailed env mc nf k t rf Err.conflict (by simp)
      · simpa [IsNotFound] using
          @DeletionPath.operatorFailed env mc nf k t rf (Err.other msg) (by simp)

theorem reconcileOwner_path (env : Env) (request : Request) (mc : ManagedCluster)
    (nf : Bool) (t : List Event) :
    OwnerPath env request mc nf t (reconcileOwner env request mc nf t) := by
  unfold reconcileOwner
  simp only
  have hdel := fun k => reconcileDeletion_path env mc nf k
    (t ++ [Event.GetKlusterletAddonConfig request.Namespace request.Name (GetResult.found k)])
  have hlive := fun k => reconcileTargetFinalizer_path env request mc nf k
    (t ++ [Event.GetKlusterletAddonConfig request.Namespace request.Name (GetResult.found k)])
  generalize env.GetKlusterletAddonConfig t request.Namespace request.Name = res
  cases res with
  | found k =>
    simp only
    cases hk : k.DeletionTimestamp.isSome with
    | true =>
      simp only [if_true]
      exact OwnerPath.deleting k _ hk (hdel k)
    | false =>
      simp only [Bool.false_eq_true, if_false]
      exact OwnerPath.live k _ hk (hlive k)
  | failed e =>
    simp only
    rcases e with _ | _ | msg
    · simp only [IsNotFound, if_true]
      cases hf : (!nf && HasFinalizer mc.Finalizers env.KlusterletAddonFinalizer) with
      | false =>
        simp only [Bool.false_eq_true, if_false]
        exact OwnerPath.gone hf
      | true =>
        simp only [if_true]
        have hn : nf = false := by
          cases nf <;> simp_all
        have hf2 : HasFinalizer mc.Finalizers env.KlusterletAddonFinalizer = true := by
          cases nf <;> simp_all
        generalize env.UpdateManagedCluster _ _ = err
        cases err with
        | some e => simpa using @OwnerPath.goneReleaseFailed env request mc nf t e hn hf2
        | none => simpa using @OwnerPath.goneReleased env request mc nf t hn hf2
    · simpa [IsNotFound] using @OwnerPath.fetchFailed env request mc nf t Err.conflict (by simp)
    · simpa [IsNotFound] using
        @OwnerPath.fetchFailed env request mc nf t (Err.other msg) (by simp)

theorem Reconcile_path (env : Env) (request : Request) :
    ReconcilePath env request (Reconcile env request) := by
  unfold Reconcile
  simp only
  have habsent := reconcileOwner_path env request ManagedCluster.zero true
    [Event.GetManagedCluster request.Namespace (GetResult.failed Err.notFound)]
  have hfound := fun mc => reconcileOwner_path env request mc false
    [Event.GetManagedCluster request.Namespace (GetResult.found mc)]
  generalize env.GetManagedCluster [] request.Namespace = res
  cases res with
  | found mc => exact ReconcilePath.targetFound mc _ (hfound mc)
  | failed e =>
    simp only
    rcases e with _ | _ | msg
    · simp only [IsNotFound, if_true]
      exact ReconcilePath.targetAbsent _ habsent
    · simpa [IsNotFound] using @ReconcilePath.targetFetchFailed env request Err.conflict (by simp)
    · simpa [IsNotFound] using
        @ReconcilePath.targetFetchFailed env request (Err.other msg) (by simp)

/-! ## What the paths add to the trace -/

theorem PrecededBy.nil (p q : Event → Prop) : PrecededBy p q [] := by
  intro pre e post h
  simp at h

theorem PrecededBy.cons_iff (p q : Event → Prop) (x : Event) (l : List Event) :
    PrecededBy p q (x :: l) ↔ ¬ q x ∧ (p x ∨ PrecededBy p q l) := by
  constructor
  · intro h
    refine ⟨fun hq => ?_, ?_⟩
    · obtain ⟨y, hy, _⟩ := h [] x l rfl hq
      simp at hy
    · by_cases hp : p x
      · exact Or.inl hp
      · refine Or.inr (fun pre e post hl hq => ?_)
        obtain ⟨y, hy, hpy⟩ := h (x :: pre) e post (by simp [hl]) hq
        rcases List.mem_cons.mp hy with rfl | hy
        · exact absurd hpy hp
        · exact ⟨y, hy, hpy⟩
  · rintro ⟨hq, h⟩ pre e post hl hqe
    cases pre with
    | nil =>
      simp at hl
      exact absurd (hl.1 ▸ hqe) hq
    | cons a pre =>
      simp at hl
      obtain ⟨rfl, hl⟩ := hl
      rcases h with hp | h
      · exact ⟨x, by simp, hp⟩
      · obtain ⟨y, hy, hpy⟩ := h pre e post hl hqe
        exact ⟨y, by simp [hy], hpy⟩

theorem LabelStep.events {mc : ManagedCluster} {k : KlusterletAddonConfig}
    {m : ManagedCluster} {err : Option Err} {s : List Event} (h : LabelStep mc k m err s) :
    (s = [] ∧ err = none) ∨ s = [Event.UpdateManagedCluster m err] := by
  cases h <;> simp

theorem ActivePath.trace_active {env : Env} {request : Request} {mc : ManagedCluster}
    {k : KlusterletAddonConfig} {t : List Event} {o : Outcome}
    (h : ActivePath env request mc k t o) :
    ∃ s, o.trace = t ++ s ∧ ∀ ev ∈ s, ev.isFetch = false := by
  cases h
  case paused => exact ⟨[], by simp, by simp⟩
  all_goals first
    | (rcases LabelStep.events ‹LabelStep _ _ _ _ _› with ⟨rfl, _⟩ | rfl) <;>
        exact ⟨_, by simp only [List.append_assoc]; rfl,
          by simp [syncedEvents, crdFetch, Event.isFetch]⟩
    | exact ⟨_, rfl, by simp [Event.isFetch]⟩

theorem suffix_after {tr t : List Event} {e : Event}
    (h : ∃ s, tr = (t ++ [e]) ++ s ∧ ∀ ev ∈ s, ev.isFetch = false) (he : e.isFetch = false) :
    ∃ s, tr = t ++ s ∧ ∀ ev ∈ s, ev.isFetch = false := by
  obtain ⟨s, hs, hev⟩ := h
  refine ⟨e :: s, by simp [hs], ?_⟩
  intro ev hmem
  rcases List.mem_cons.mp hmem with rfl | hmem
  · exact he
  · exact hev ev hmem

theorem OwnerFinalizerPath.trace_ownerFinalizer {env : Env} {request : Request} {mc : ManagedCluster}
    {k : KlusterletAddonConfig} {t : List Event} {o : Outcome}
    (h : OwnerFinalizerPath env request mc k t o) :
    ∃ s, o.trace = t ++ s ∧ ∀ ev ∈ s, ev.isFetch = false := by
  cases h with
  | conflict hf => exact ⟨_, rfl, by simp [Event.isFetch]⟩
  | updateFailed e he hf => exact ⟨_, rfl, by simp [Event.isFetch]⟩
  | added o hf ho =>
    exact suffix_after ho.trace_active rfl
  | present o hf ho => exact ho.trace_active

theorem TargetFinalizerPath.trace_targetFinalizer {env : Env} {request : Request} {mc : ManagedCluster}
    {nf : Bool} {k : KlusterletAddonConfig} {t : List Event} {o : Outcome}
    (h : TargetFinalizerPath env request mc nf k t o) :
    ∃ s, o.trace = t ++ s ∧ ∀ ev ∈ s, ev.isFetch = false := by
  cases h with
  | noTarget hn => exact ⟨[], by simp, by simp⟩
  | conflict hn hf => exact ⟨_, rfl, by simp [Event.isFetch]⟩
  | updateFailed e he hn hf => exact ⟨_, rfl, by simp [Event.isFetch]⟩
  | added o hn hf ho =>
    exact suffix_after ho.trace_ownerFinalizer rfl
  | present o hn hf ho => exact ho.trace_ownerFinalizer

theorem DeletionPath.trace_deletion {env : Env} {mc : ManagedCluster} {nf : Bool}
    {k : KlusterletAddonConfig} {t : List Event} {rf : Bool} {o : Outcome}
    (h : DeletionPath env mc nf k t rf o) :
    ∃ s, o.trace = t ++ s ∧ ∀ ev ∈ s, ev.isFetch = false := by
  cases h
  all_goals first
    | (rcases LabelStep.events ‹LabelStep _ _ _ _ _› with ⟨rfl, _⟩ | rfl) <;>
        exact ⟨_, by simp only [List.append_assoc]; rfl,
          by simp [tornDownEvents, Event.isFetch]⟩
    | exact ⟨_, rfl, by simp [Event.isFetch]⟩

/-- The cycle of a fetched owner: how the target was observed, and the path
taken from the owner fetch on. -/
theorem ReconcilePath.of_owner {env : Env} {request : Request} {o : Outcome}
    {owner : KlusterletAddonConfig} (h : ReconcilePath env request o)
    (hown : Event.GetKlusterletAddonConfig request.Namespace request.Name
      (GetResult.found owner) ∈ o.trace) :
    ∃ mc nf res,
      ((res = GetResult.found mc ∧ nf = false)
        ∨ (res = GetResult.failed Err.notFound ∧ mc = ManagedCluster.zero ∧ nf = true))
      ∧ ((owner.DeletionTimestamp.isSome = true
          ∧ DeletionPath env mc nf owner
              [Event.GetManagedCluster request.Namespace res,
               Event.GetKlusterletAddonConfig request.Namespace request.Name
                 (GetResult.found owner)]
              (nf || !IsManagedClusterOnline (some mc)) o)
        ∨ (owner.DeletionTimestamp.isSome = false
          ∧ TargetFinalizerPath env request mc nf owner
              [Event.GetManagedCluster request.Namespace res,
               Event.GetKlusterletAddonConfig request.Namespace request.Name
                 (GetResult.found owner)] o)) := by
  have key : ∀ mc nf res, OwnerPath env request mc nf
      [Event.GetManagedCluster request.Namespace res] o →
      ((owner.DeletionTimestamp.isSome = true
          ∧ DeletionPath env mc nf owner
              [Event.GetManagedCluster request.Namespace res,
               Event.GetKlusterletAddonConfig request.Namespace request.Name
                 (GetResult.found owner)]
              (nf || !IsManagedClusterOnline (some mc)) o)
        ∨ (owner.DeletionTimestamp.isSome = false
          ∧ TargetFinalizerPath env request mc nf owner
              [Event.GetManagedCluster request.Namespace res,
               Event.GetKlusterletAddonConfig request.Namespace request.Name
                 (GetResult.found owner)] o)) := by
    intro mc nf res ho
    cases ho with
    | fetchFailed e he => simp at hown
    | goneReleaseFailed e hn hf => simp at hown
    | goneReleased hn hf => simp at hown
    | gone hf => simp at hown
    | deleting k o hk ho =>
      obtain ⟨s, hs, hev⟩ := ho.trace_deletion
      have hko : k = owner := by
        rw [hs] at hown
        simp only [List.mem_append, List.mem_cons, List.mem_singleton, List.not_mem_nil,
          or_false, false_or, reduceCtorEq] at hown
        rcases hown with hown | hown
        · simpa using hown.symm
        · have := hev _ hown
          simp [Event.isFetch] at this
      subst hko
      exact Or.inl ⟨hk, ho⟩
    | live k o hk ho =>
      obtain ⟨s, hs, hev⟩ := ho.trace_targetFinalizer
      have hko : k = owner := by
        rw [hs] at hown
        simp only [List.mem_append, List.mem_cons, List.mem_singleton, List.not_mem_nil,
          or_false, false_or, reduceCtorEq] at hown
        rcases hown with hown | hown
        · simpa using hown.symm
        · have := hev _ hown
          simp [Event.isFetch] at this
      subst hko
      exact Or.inr ⟨hk, ho⟩
  cases h with
  | targetFetchFailed e he => simp at hown
  | targetAbsent o ho =>
    exact ⟨ManagedCluster.zero, true, _, Or.inr ⟨rfl, rfl, rfl⟩, key _ _ _ ho⟩
  | targetFound mc o ho =>
    exact ⟨mc, false, _, Or.inl ⟨rfl, rfl⟩, key _ _ _ ho⟩

theorem append_postfix_inj {s a b : String} : s ++ a = s ++ b ↔ a = b := by
  constructor
  · intro h
    have h2 := congrArg String.data h
    simp only [String.data_append] at h2
    exact String.ext (List.append_cancel_left h2)
  · rintro rfl
    rfl



/-- C1: in a cycle whose owner is in deletion the teardown is tier-ordered.
The operator-bundle delete comes only after the component-CR tier answered
completed without error; the CRD-bundle delete comes only after the
operator-bundle delete answered not-found (completed); and once a tier is
incomplete or failed no later tier is deleted in that cycle. -/
theorem C1_teardown_tier_order (env : Env) (request : Request) (owner : KlusterletAddonConfig)
    (hown : Event.GetKlusterletAddonConfig request.Namespace request.Name
      (GetResult.found owner) ∈ (Reconcile env request).trace)
    (hdel : owner.DeletionTimestamp.isSome = true)
    (hne : env.KlusterletAddonOperatorPostfix ≠ env.KlusterletAddonCRDsPostfix) :
    (∀ pre post ns rf err,
        (Reconcile env request).trace
          = pre ++ Event.DeleteManifestWork
              (owner.Name ++ env.KlusterletAddonOperatorPostfix) ns rf err :: post →
        ∃ rf0, Event.deleteManifestWorkCRs owner rf0 true none ∈ pre)
    ∧ (∀ pre post ns rf err,
        (Reconcile env request).trace
          = pre ++ Event.DeleteManifestWork
              (owner.Name ++ env.KlusterletAddonCRDsPostfix) ns rf err :: post →
        ∃ ns0 rf0, Event.DeleteManifestWork
          (owner.Name ++ env.KlusterletAddonOperatorPostfix) ns0 rf0 (some Err.notFound) ∈ pre)
    ∧ (∀ rf c err, Event.deleteManifestWorkCRs owner rf c err ∈ (Reconcile env request).trace →
        (c = false ∨ err ≠ none) →
        ∀ name ns rf0 err0,
          Event.DeleteManifestWork name ns rf0 err0 ∉ (Reconcile env request).trace)
    ∧ (∀ ns rf err,
        Event.DeleteManifestWork (owner.Name ++ env.KlusterletAddonOperatorPostfix) ns rf err
          ∈ (Reconcile env request).trace →
        err ≠ some Err.notFound →
        ∀ ns0 rf0 err0,
          Event.DeleteManifestWork (owner.Name ++ env.KlusterletAddonCRDsPostfix) ns0 rf0 err0
            ∉ (Reconcile env request).trace) := by
  obtain ⟨mc, nf, res, -, hpath⟩ := (Reconcile_path env request).of_owner hown
  rcases hpath with ⟨-, hp⟩ | ⟨hk, -⟩
  swap
  · simp [hdel] at hk
  have hne2 : ¬ env.KlusterletAddonCRDsPostfix = env.KlusterletAddonOperatorPostfix :=
    fun h => hne h.symm
  clear hown
  generalize Reconcile env request = o at hp ⊢
  have k1 : PrecededBy (fun x => ∃ rf0, x = Event.deleteManifestWorkCRs owner rf0 true none)
      (fun e => ∃ ns rf err, e = Event.DeleteManifestWork
        (owner.Name ++ env.KlusterletAddonOperatorPostfix) ns rf err) o.trace := by
    cases hp
    all_goals try rcases LabelStep.events ‹LabelStep _ _ _ _ _› with ⟨rfl, -⟩ | rfl
    all_goals
      simp only [List.cons_append, List.nil_append, List.append_assoc, tornDownEvents,
        PrecededBy.cons_iff, PrecededBy.nil]
    all_goals simp
  have k2 : PrecededBy (fun x => ∃ ns0 rf0, x = Event.DeleteManifestWork
        (owner.Name ++ env.KlusterletAddonOperatorPostfix) ns0 rf0 (some Err.notFound))
      (fun e => ∃ ns rf err, e = Event.DeleteManifestWork
        (owner.Name ++ env.KlusterletAddonCRDsPostfix) ns rf err) o.trace := by
    cases hp
    all_goals try rcases LabelStep.events ‹LabelStep _ _ _ _ _› with ⟨rfl, -⟩ | rfl
    all_goals
      simp only [List.cons_append, List.nil_append, List.append_assoc, tornDownEvents,
        PrecededBy.cons_iff, PrecededBy.nil]
    all_goals simp [append_postfix_inj, hne, hne2]
  refine ⟨fun pre post ns rf err h => ?_, fun pre post ns rf err h => ?_, ?_, ?_⟩
  · obtain ⟨x, hx, rf0, rfl⟩ := k1 pre _ post h ⟨ns, rf, err, rfl⟩
    exact ⟨rf0, hx⟩
  · obtain ⟨x, hx, ns0, rf0, rfl⟩ := k2 pre _ post h ⟨ns, rf, err, rfl⟩
    exact ⟨ns0, rf0, hx⟩
  · intro rf c err h1 h2 name ns rf0 err0 h3
    cases hp
    all_goals try rcases LabelStep.events ‹LabelStep _ _ _ _ _› with ⟨rfl, -⟩ | rfl
    all_goals
      simp only [List.cons_append, List.nil_append, List.append_assoc, tornDownEvents,
        List.mem_cons, List.mem_singleton, List.not_mem_nil, reduceCtorEq, false_or, or_false,
        Event.deleteManifestWorkCRs.injEq, Event.DeleteManifestWork.injEq] at h1 h3
    all_goals simp_all
  · intro ns rf err h1 h2 ns0 rf0 err0 h3
    cases hp
    all_goals try rcases LabelStep.events ‹LabelStep _ _ _ _ _› with ⟨rfl, -⟩ | rfl
    all_goals
      simp only [List.cons_append, List.nil_append, List.append_assoc, tornDownEvents,
        List.mem_cons, List.mem_singleton, List.not_mem_nil, reduceCtorEq, false_or, or_false,
        Event.DeleteManifestWork.injEq, append_postfix_inj] at h1 h3
    all_goals simp_all


theorem C1_teardown_tier_order_witness :
    Event.GetKlusterletAddonConfig exRequest.Namespace exRequest.Name
        (GetResult.found exOwnerDeleting) ∈ (Reconcile envTeardownDone exRequest).trace
    ∧ exOwnerDeleting.DeletionTimestamp.isSome = true
    ∧ envTeardownDone.KlusterletAddonOperatorPostfix
        ≠ envTeardownDone.KlusterletAddonCRDsPostfix
    ∧ ∃ rf0, Event.deleteManifestWorkCRs exOwnerDeleting rf0 true none
        ∈ (Reconcile envTeardownDone exRequest).trace.take 3 :=
  ⟨by decide, by decide, by decide,
    (C1_teardown_tier_order envTeardownDone exRequest exOwnerDeleting
      (by decide) (by decide) (by decide)).1
      ((Reconcile envTeardownDone exRequest).trace.take 3)
      ((Reconcile envTeardownDone exRequest).trace.drop 4) "cluster1" false
      (some Err.notFound) (by decide)⟩

/-- C2: in a cycle whose owner is in deletion, when a teardown tier answers
"not completed" without error (the component-CR tier answers false, or a
bundle delete succeeds so the bundle still existed), the cycle returns
requeue-after 5 seconds with a nil error and issues no Update of the owner or
of the target. -/
theorem C2_incomplete_tier_requeues (env : Env) (request : Request)
    (owner : KlusterletAddonConfig)
    (hown : Event.GetKlusterletAddonConfig request.Namespace request.Name
      (GetResult.found owner) ∈ (Reconcile env request).trace)
    (hdel : owner.DeletionTimestamp.isSome = true)
    (hinc : (∃ rf, Event.deleteManifestWorkCRs owner rf false none
          ∈ (Reconcile env request).trace)
      ∨ (∃ name ns rf, Event.DeleteManifestWork name ns rf none
          ∈ (Reconcile env request).trace)) :
    (Reconcile env request).result = ⟨true, 5 * Second⟩
    ∧ (Reconcile env request).err = none
    ∧ (Reconcile env request).panicked = false
    ∧ (∀ obj e, Event.UpdateManagedCluster obj e ∉ (Reconcile env request).trace)
    ∧ (∀ obj e, Event.UpdateKlusterletAddonConfig obj e ∉ (Reconcile env request).trace) := by
  obtain ⟨mc, nf, res, -, hpath⟩ := (Reconcile_path env request).of_owner hown
  rcases hpath with ⟨-, hp⟩ | ⟨hk, -⟩
  swap
  · simp [hdel] at hk
  clear hown
  generalize Reconcile env request = o at hp hinc ⊢
  cases hp
  all_goals try rcases LabelStep.events ‹LabelStep _ _ _ _ _› with ⟨rfl, -⟩ | rfl
  all_goals
    simp only [List.cons_append, List.nil_append, List.append_assoc, tornDownEvents,
      List.mem_cons, List.mem_singleton, List.not_mem_nil, reduceCtorEq, false_or, or_false,
      Event.deleteManifestWorkCRs.injEq, Event.DeleteManifestWork.injEq, and_false,
      exists_false, false_and, Bool.true_eq_false, Bool.false_eq_true] at hinc
  all_goals simp

theorem C2_incomplete_tier_requeues_witness :
    Event.GetKlusterletAddonConfig exRequest.Namespace exRequest.Name
        (GetResult.found exOwnerDeleting) ∈ (Reconcile envTeardownPending exRequest).trace
    ∧ exOwnerDeleting.DeletionTimestamp.isSome = true
    ∧ Event.deleteManifestWorkCRs exOwnerDeleting false false none
        ∈ (Reconcile envTeardownPending exRequest).trace
    ∧ (Reconcile envTeardownPending exRequest).result = ⟨true, 5 * Second⟩ :=
  ⟨by decide, by decide, by decide,
    (C2_incomplete_tier_requeues envTeardownPending exRequest exOwnerDeleting
      (by decide) (by decide) (Or.inl ⟨false, by decide⟩)).1⟩

theorem LabelStep.target {mc : ManagedCluster} {k : KlusterletAddonConfig}
    {m : ManagedCluster} {err : Option Err} {s : List Event} (h : LabelStep mc k m err s) :
    m = { mc with Labels := m.Labels } := by
  cases h <;> first | rfl | (unfold installLabels; split <;> rfl)

/-- C3: in a cycle whose owner is in deletion, when every teardown tier
answers completed and every Update succeeds, the cycle removes the finalizer
from the owner and updates the owner; it removes the finalizer from the target
and updates the target when the target was found, and issues no Update of the
target when it was not found; and it returns the zero Result with a nil
error. -/
theorem C3_teardown_done_releases (env : Env) (request : Request)
    (owner : KlusterletAddonConfig)
    (hown : Event.GetKlusterletAddonConfig request.Namespace request.Name
      (GetResult.found owner) ∈ (Reconcile env request).trace)
    (hdel : owner.DeletionTimestamp.isSome = true)
    (hcrs : ∀ rf c e, Event.deleteManifestWorkCRs owner rf c e ∈ (Reconcile env request).trace →
      c = true ∧ e = none)
    (hmw : ∀ name ns rf e, Event.DeleteManifestWork name ns rf e ∈ (Reconcile env request).trace →
      e = some Err.notFound)
    (hupdT : ∀ obj e, Event.UpdateManagedCluster obj e ∈ (Reconcile env request).trace →
      e = none)
    (hupdO : ∀ obj e, Event.UpdateKlusterletAddonConfig obj e ∈ (Reconcile env request).trace →
      e = none) :
    (Reconcile env request).result = Result.zero
    ∧ (Reconcile env request).err = none
    ∧ (Reconcile env request).panicked = false
    ∧ Event.UpdateKlusterletAddonConfig
        { owner with
          Finalizers := RemoveFinalizer owner.Finalizers env.KlusterletAddonFinalizer } none
        ∈ (Reconcile env request).trace
    ∧ (∀ m, Event.GetManagedCluster request.Namespace (GetResult.found m)
          ∈ (Reconcile env request).trace →
        ∃ labels, Event.UpdateManagedCluster
          { m with
            Labels := labels
            Finalizers := RemoveFinalizer m.Finalizers env.KlusterletAddonFinalizer } none
          ∈ (Reconcile env request).trace)
    ∧ (∀ e, Event.GetManagedCluster request.Namespace (GetResult.failed e)
          ∈ (Reconcile env request).trace →
        ∀ obj e0, Event.UpdateManagedCluster obj e0 ∉ (Reconcile env request).trace) := by
  obtain ⟨mc, nf, res, htar, hpath⟩ := (Reconcile_path env request).of_owner hown
  rcases hpath with ⟨-, hp⟩ | ⟨hk, -⟩
  swap
  · simp [hdel] at hk
  clear hown
  generalize Reconcile env request = o at hp hcrs hmw hupdT hupdO ⊢
  generalize (nf || !IsManagedClusterOnline (some mc)) = rf at hp
  cases hp
  case crsFailed c e => simpa using hcrs rf c (some e) (by simp)
  case crsPending => simpa using hcrs rf false none (by simp)
  case operatorFailed e he =>
    simpa [he] using hmw (owner.Name ++ env.KlusterletAddonOperatorPostfix) owner.Namespace rf
      (some e) (by simp)
  case operatorPending =>
    simpa using hmw (owner.Name ++ env.KlusterletAddonOperatorPostfix) owner.Namespace rf
      none (by simp)
  case crdFailed e he =>
    simpa [he] using hmw (owner.Name ++ env.KlusterletAddonCRDsPostfix) owner.Namespace rf
      (some e) (by simp)
  case crdPending =>
    simpa using hmw (owner.Name ++ env.KlusterletAddonCRDsPostfix) owner.Namespace rf
      none (by simp)
  case labelFailed m e s hl =>
    rcases hl.events with ⟨-, h⟩ | rfl
    · simp at h
    · simpa using hupdT m (some e) (by simp)
  case ownerUpdateFailed m s e hl =>
    simpa using hupdO { owner with
      Finalizers := RemoveFinalizer owner.Finalizers env.KlusterletAddonFinalizer }
      (some e) (by simp)
  case targetUpdateFailed m s e hl hn =>
    simpa using hupdT
      { m with Finalizers := RemoveFinalizer m.Finalizers env.KlusterletAddonFinalizer }
      (some e) (by simp)
  case doneNoTarget m s hl hn =>
    clear hcrs hmw hupdT hupdO
    subst hn
    have hres : res = GetResult.failed Err.notFound ∧ mc = ManagedCluster.zero := by
      rcases htar with ⟨-, h⟩ | ⟨h, h2, -⟩
      · simp at h
      · exact ⟨h, h2⟩
    obtain ⟨hres, hmc⟩ := hres
    subst hres hmc
    have hs : s = [] := by
      rcases hl.events with ⟨h, -⟩ | h
      · exact h
      · cases hl
        · rename_i h1 h2
          simp [ManagedCluster.zero, StrMap.find] at h2
        · rfl
        · rename_i h1 h2
          simp [hdel] at h1
        · rfl
    subst hs
    simp [tornDownEvents]
  case done m s hl hn =>
    clear hcrs hmw hupdT hupdO
    subst hn
    have hres : res = GetResult.found mc := by
      rcases htar with ⟨h, -⟩ | ⟨-, -, h⟩
      · exact h
      · simp at h
    subst hres
    have hm := hl.target
    refine ⟨rfl, rfl, rfl, by simp, ?_, ?_⟩
    swap
    · intro e h
      exfalso
      rcases hl.events with ⟨rfl, -⟩ | rfl <;> simp [tornDownEvents] at h
    intro m0 hm0
    have hmc : m0 = mc := by
      rcases hl.events with ⟨rfl, -⟩ | rfl <;> simpa [tornDownEvents, eq_comm] using hm0
    subst hmc
    refine ⟨m.Labels, ?_⟩
    rw [hm]
    simp

theorem envTeardownDone_trace :
    (Reconcile envTeardownDone exRequest).trace
      = [Event.GetManagedCluster "cluster1" (GetResult.found exTarget),
         Event.GetKlusterletAddonConfig "cluster1" "cluster1" (GetResult.found exOwnerDeleting),
         Event.deleteManifestWorkCRs exOwnerDeleting false true none,
         Event.DeleteManifestWork "cluster1-klusterlet-addon-operator" "cluster1" false
           (some Err.notFound),
         Event.DeleteManifestWork "cluster1-klusterlet-addon-crds" "cluster1" false
           (some Err.notFound),
         Event.UpdateManagedCluster { exTarget with Labels := some [] } none,
         Event.UpdateKlusterletAddonConfig { exOwnerDeleting with Finalizers := [] } none,
         Event.UpdateManagedCluster { exTarget with Labels := some [], Finalizers := [] }
           none] := by
  decide

theorem C3_teardown_done_releases_witness :
    exOwnerDeleting.DeletionTimestamp.isSome = true
    ∧ (Reconcile envTeardownDone exRequest).result = Result.zero
    ∧ (Reconcile envTeardownDone exRequest).err = none :=
  have h := C3_teardown_done_releases envTeardownDone exRequest exOwnerDeleting
    (by decide) (by decide)
    (by
      intro rf c e h
      rw [envTeardownDone_trace] at h
      simp at h
      exact ⟨h.2.1, h.2.2⟩)
    (by
      intro name ns rf e h
      rw [envTeardownDone_trace] at h
      simp at h
      rcases h with h | h <;> exact h.2.2.2)
    (by
      intro obj e h
      rw [envTeardownDone_trace] at h
      simp at h
      rcases h with h | h <;> exact h.2)
    (by
      intro obj e h
      rw [envTeardownDone_trace] at h
      simp at h
      exact h.2)
  ⟨by decide, h.1, h.2.1⟩

theorem IsManagedClusterOnline_iff (m : ManagedCluster) :
    IsManagedClusterOnline (some m) = true
      ↔ ∃ c ∈ m.Status.Conditions,
          c.Type_ = ManagedClusterConditionAvailable ∧ c.Status = "True" := by
  simp [IsManagedClusterOnline, List.any_eq_true]

/-- C4: in a cycle whose owner is in deletion, every teardown delete call
receives one and the same override.  It is the negation of
`IsManagedClusterOnline` of the target when the target was found and true
when the target was not found; so it is false exactly when the target exists
and reports the Available condition with status "True". -/
theorem C4_override_uniform (env : Env) (request : Request) (owner : KlusterletAddonConfig)
    (rf : Bool)
    (hown : Event.GetKlusterletAddonConfig request.Namespace request.Name
      (GetResult.found owner) ∈ (Reconcile env request).trace)
    (hdel : owner.DeletionTimestamp.isSome = true)
    (hcall : (∃ k c e, Event.deleteManifestWorkCRs k rf c e ∈ (Reconcile env request).trace)
      ∨ (∃ name ns e, Event.DeleteManifestWork name ns rf e
          ∈ (Reconcile env request).trace)) :
    (∀ m, Event.GetManagedCluster request.Namespace (GetResult.found m)
          ∈ (Reconcile env request).trace →
        rf = !IsManagedClusterOnline (some m))
    ∧ (∀ e, Event.GetManagedCluster request.Namespace (GetResult.failed e)
          ∈ (Reconcile env request).trace →
        rf = true)
    ∧ (rf = false ↔
        ∃ m, Event.GetManagedCluster request.Namespace (GetResult.found m)
            ∈ (Reconcile env request).trace
          ∧ ∃ c ∈ m.Status.Conditions,
              c.Type_ = ManagedClusterConditionAvailable ∧ c.Status = "True") := by
  obtain ⟨mc, nf, res, htar, hpath⟩ := (Reconcile_path env request).of_owner hown
  rcases hpath with ⟨-, hp⟩ | ⟨hk, -⟩
  swap
  · simp [hdel] at hk
  clear hown
  generalize Reconcile env request = o at hp hcall ⊢
  obtain ⟨s, hs, hev⟩ := hp.trace_deletion
  have hget : ∀ x, Event.GetManagedCluster request.Namespace x ∈ o.trace → x = res := by
    intro x hx
    rw [hs] at hx
    simp only [List.mem_append, List.mem_cons, List.mem_singleton, List.not_mem_nil,
      or_false, reduceCtorEq, Event.GetManagedCluster.injEq, true_and] at hx
    rcases hx with hx | hx
    · exact hx
    · have := hev _ hx
      simp [Event.isFetch] at this
  have hmem : Event.GetManagedCluster request.Namespace res ∈ o.trace := by
    rw [hs]
    simp
  have hrf : rf = (nf || !IsManagedClusterOnline (some mc)) := by
    clear hs hev hget hmem htar
    generalize (nf || !IsManagedClusterOnline (some mc)) = rf0 at hp ⊢
    rcases hcall with ⟨k, c, e, h⟩ | ⟨name, ns, e, h⟩
    all_goals cases hp
    all_goals try rcases LabelStep.events ‹LabelStep _ _ _ _ _› with ⟨rfl, -⟩ | rfl
    all_goals
      simp only [List.cons_append, List.nil_append, List.append_assoc, tornDownEvents,
        List.mem_cons, List.mem_singleton, List.not_mem_nil, reduceCtorEq, false_or, or_false,
        Event.deleteManifestWorkCRs.injEq, Event.DeleteManifestWork.injEq] at h
    all_goals
      first
        | exact h.2.1
        | exact h.2.2.1
        | (rcases h with h | h <;> exact h.2.2.1)
  clear hp hs hev
  rcases htar with ⟨rfl, rfl⟩ | ⟨rfl, rfl, rfl⟩
  · simp only [Bool.false_or] at hrf
    refine ⟨?_, ?_, ?_⟩
    · intro m hm
      have := hget _ hm
      simp only [GetResult.found.injEq] at this
      rw [this, hrf]
    · intro e he
      have := hget _ he
      simp at this
    · constructor
      · intro h
        refine ⟨mc, hmem, (IsManagedClusterOnline_iff mc).mp ?_⟩
        rw [h] at hrf
        simpa using hrf.symm
      · rintro ⟨m, hm, hc⟩
        have := hget _ hm
        simp only [GetResult.found.injEq] at this
        subst this
        rw [hrf, (IsManagedClusterOnline_iff m).mpr hc]
        rfl
  · simp only [Bool.true_or] at hrf
    refine ⟨?_, ?_, ?_⟩
    · intro m hm
      have := hget _ hm
      simp at this
    · intro e he
      exact hrf
    · constructor
      · intro h
        rw [h] at hrf
        simp at hrf
      · rintro ⟨m, hm, -⟩
        have := hget _ hm
        simp at this

theorem C4_override_uniform_witness :
    exOwnerDeleting.DeletionTimestamp.isSome = true
    ∧ Event.deleteManifestWorkCRs exOwnerDeleting false true none
        ∈ (Reconcile envTeardownDone exRequest).trace
    ∧ false = !IsManagedClusterOnline (some exTarget) :=
  ⟨by decide, by decide,
    (C4_override_uniform envTeardownDone exRequest exOwnerDeleting false
      (by decide) (by decide)
      (Or.inl ⟨exOwnerDeleting, true, none, by decide⟩)).1 exTarget (by decide)⟩

/-! ## Cycles of an owner that is not in deletion -/

theorem withTargetFinalizer_of_has {env : Env} {mc : ManagedCluster}
    (h : HasFinalizer mc.Finalizers env.KlusterletAddonFinalizer = true) :
    withTargetFinalizer env mc = mc := by
  unfold HasFinalizer at h
  unfold withTargetFinalizer AddFinalizer
  rw [if_pos h]

theorem withOwnerFinalizer_of_has {env : Env} {k : KlusterletAddonConfig}
    (h : HasFinalizer k.Finalizers env.KlusterletAddonFinalizer = true) :
    withOwnerFinalizer env k = k := by
  unfold HasFinalizer at h
  unfold withOwnerFinalizer AddFinalizer
  rw [if_pos h]

/-- The finalizer steps of lines 234-256 laid flat: the return points before
the active segment, and the active segment entered with both finalizers in
place. -/
theorem TargetFinalizerPath.flatten {env : Env} {request : Request} {mc : ManagedCluster}
    {nf : Bool} {k : KlusterletAddonConfig} {t : List Event} {o : Outcome}
    (h : TargetFinalizerPath env request mc nf k t o) :
    (nf = true ∧ o = ⟨Result.zero, none, t, false⟩)
    ∨ (nf = false ∧ HasFinalizer mc.Finalizers env.KlusterletAddonFinalizer = false
        ∧ o = ⟨⟨true, 5 * Second⟩, none,
            t ++ [Event.UpdateManagedCluster (withTargetFinalizer env mc) (some Err.conflict)],
            false⟩)
    ∨ (nf = false ∧ HasFinalizer mc.Finalizers env.KlusterletAddonFinalizer = false
        ∧ ∃ e, e ≠ Err.conflict ∧ o = ⟨Result.zero, some e,
            t ++ [Event.UpdateManagedCluster (withTargetFinalizer env mc) (some e)], false⟩)
    ∨ (nf = false ∧ HasFinalizer k.Finalizers env.KlusterletAddonFinalizer = false
        ∧ o = ⟨⟨true, 5 * Second⟩, none,
            t ++ targetFinalizerEvents env mc
              ++ [Event.UpdateKlusterletAddonConfig (withOwnerFinalizer env k)
                (some Err.conflict)], false⟩)
    ∨ (nf = false ∧ HasFinalizer k.Finalizers env.KlusterletAddonFinalizer = false
        ∧ ∃ e, e ≠ Err.conflict ∧ o = ⟨Result.zero, some e,
            t ++ targetFinalizerEvents env mc
              ++ [Event.UpdateKlusterletAddonConfig (withOwnerFinalizer env k) (some e)],
            false⟩)
    ∨ (nf = false
        ∧ ActivePath env request (withTargetFinalizer env mc) (withOwnerFinalizer env k)
            (t ++ targetFinalizerEvents env mc ++ ownerFinalizerEvents env k) o) := by
  have owner_step : ∀ (mc0 : ManagedCluster) (t0 : List Event),
      OwnerFinalizerPath env request mc0 k t0 o →
      (HasFinalizer k.Finalizers env.KlusterletAddonFinalizer = false
        ∧ o = ⟨⟨true, 5 * Second⟩, none,
            t0 ++ [Event.UpdateKlusterletAddonConfig (withOwnerFinalizer env k)
                (some Err.conflict)], false⟩)
      ∨ (HasFinalizer k.Finalizers env.KlusterletAddonFinalizer = false
        ∧ ∃ e, e ≠ Err.conflict ∧ o = ⟨Result.zero, some e,
            t0 ++ [Event.UpdateKlusterletAddonConfig (withOwnerFinalizer env k) (some e)],
            false⟩)
      ∨ ActivePath env request mc0 (withOwnerFinalizer env k)
            (t0 ++ ownerFinalizerEvents env k) o := by
    intro mc0 t0 ho
    cases ho with
    | conflict hf => exact Or.inl ⟨hf, rfl⟩
    | updateFailed e he hf => exact Or.inr (Or.inl ⟨hf, e, he, rfl⟩)
    | added o hf ho =>
      refine Or.inr (Or.inr ?_)
      simpa [ownerFinalizerEvents, hf, withOwnerFinalizer] using ho
    | present o hf ho =>
      refine Or.inr (Or.inr ?_)
      simpa [ownerFinalizerEvents, hf, withOwnerFinalizer_of_has hf] using ho
  cases h with
  | noTarget hn => exact Or.inl ⟨hn, rfl⟩
  | conflict hn hf => exact Or.inr (Or.inl ⟨hn, hf, rfl⟩)
  | updateFailed e he hn hf => exact Or.inr (Or.inr (Or.inl ⟨hn, hf, e, he, rfl⟩))
  | added o hn hf ho =>
    have hev : t ++ targetFinalizerEvents env mc
        = t ++ [Event.UpdateManagedCluster (withTargetFinalizer env mc) none] := by
      simp [targetFinalizerEvents, hf]
    rw [hev]
    rcases owner_step _ _ ho with h1 | h1 | h1
    · exact Or.inr (Or.inr (Or.inr (Or.inl ⟨hn, h1.1, h1.2⟩)))
    · exact Or.inr (Or.inr (Or.inr (Or.inr (Or.inl ⟨hn, h1.1, h1.2⟩))))
    · exact Or.inr (Or.inr (Or.inr (Or.inr (Or.inr ⟨hn, h1⟩))))
  | present o hn hf ho =>
    have hev : t ++ targetFinalizerEvents env mc = t := by
      simp [targetFinalizerEvents, hf]
    rw [hev, withTargetFinalizer_of_has hf]
    rcases owner_step _ _ ho with h1 | h1 | h1
    · exact Or.inr (Or.inr (Or.inr (Or.inl ⟨hn, h1.1, h1.2⟩)))
    · exact Or.inr (Or.inr (Or.inr (Or.inr (Or.inl ⟨hn, h1.1, h1.2⟩))))
    · exact Or.inr (Or.inr (Or.inr (Or.inr (Or.inr ⟨hn, h1⟩))))

theorem targetFinalizerEvents_cases (env : Env) (mc : ManagedCluster) :
    targetFinalizerEvents env mc = []
    ∨ targetFinalizerEvents env mc
        = [Event.UpdateManagedCluster (withTargetFinalizer env mc) none] := by
  unfold targetFinalizerEvents
  split
  · exact Or.inl rfl
  · exact Or.inr rfl

theorem ownerFinalizerEvents_cases (env : Env) (k : KlusterletAddonConfig) :
    ownerFinalizerEvents env k = []
    ∨ ownerFinalizerEvents env k
        = [Event.UpdateKlusterletAddonConfig (withOwnerFinalizer env k) none] := by
  unfold ownerFinalizerEvents
  split
  · exact Or.inl rfl
  · exact Or.inr rfl

theorem isPaused_withOwnerFinalizer (env : Env) (k : KlusterletAddonConfig) :
    isPaused (withOwnerFinalizer env k) = isPaused k := rfl

/-- C5, the claim as stated fails: a paused owner that is in deletion, with
the component CRs still there, gets requeue-after 5 seconds, not "done". -/
theorem C5_paused_not_always_done :
    isPaused exOwnerPausedDeleting = true
    ∧ Event.GetKlusterletAddonConfig exRequest.Namespace exRequest.Name
        (GetResult.found exOwnerPausedDeleting) ∈ (Reconcile envPausedDeleting exRequest).trace
    ∧ (Reconcile envPausedDeleting exRequest).result = ⟨true, 5 * Second⟩
    ∧ (Reconcile envPausedDeleting exRequest).result ≠ Result.zero := by
  decide

/-- C5, amended: a cycle whose owner carries the pause annotation "true" (in
any letter case) makes no dependent synchronization call; and when that owner
is not in deletion and every Update and Delete the cycle issues succeeds, the
cycle returns the zero Result with a nil error. -/
theorem C5_paused_no_sync (env : Env) (request : Request) (owner : KlusterletAddonConfig)
    (hown : Event.GetKlusterletAddonConfig request.Namespace request.Name
      (GetResult.found owner) ∈ (Reconcile env request).trace)
    (hpause : isPaused owner = true) :
    (∀ ev ∈ (Reconcile env request).trace, ev.isSync = false)
    ∧ (owner.DeletionTimestamp.isSome = false →
        (∀ obj e, Event.UpdateManagedCluster obj e ∈ (Reconcile env request).trace →
          e = none) →
        (∀ obj e, Event.UpdateKlusterletAddonConfig obj e ∈ (Reconcile env request).trace →
          e = none) →
        (∀ obj e, Event.DeleteKlusterletAddonConfig obj e ∈ (Reconcile env request).trace →
          e = none) →
        (Reconcile env request).result = Result.zero
        ∧ (Reconcile env request).err = none
        ∧ (Reconcile env request).panicked = false) := by
  obtain ⟨mc, nf, res, -, hpath⟩ := (Reconcile_path env request).of_owner hown
  clear hown
  generalize Reconcile env request = o at hpath ⊢
  rcases hpath with ⟨hdel, hp⟩ | ⟨hlive, hp⟩
  · refine ⟨?_, fun h => by simp [hdel] at h⟩
    cases hp
    all_goals try rcases LabelStep.events ‹LabelStep _ _ _ _ _› with ⟨rfl, -⟩ | rfl
    all_goals simp [tornDownEvents, Event.isSync]
  · have hpause2 := isPaused_withOwnerFinalizer env owner
    rw [hpause] at hpause2
    rcases hp.flatten with ⟨-, rfl⟩ | ⟨-, -, rfl⟩ | ⟨-, -, e, -, rfl⟩ | ⟨-, -, rfl⟩
      | ⟨-, -, e, -, rfl⟩ | ⟨-, hact⟩
    · simp [Event.isSync]
    · refine ⟨by simp [Event.isSync], fun _ h1 _ _ => ?_⟩
      simpa using h1 (withTargetFinalizer env mc) (some Err.conflict) (by simp)
    · refine ⟨by simp [Event.isSync], fun _ h1 _ _ => ?_⟩
      simpa using h1 (withTargetFinalizer env mc) (some e) (by simp)
    · refine ⟨?_, fun _ _ h2 _ => ?_⟩
      · rcases targetFinalizerEvents_cases env mc with h | h <;> rw [h] <;>
          simp [Event.isSync]
      · simpa using h2 (withOwnerFinalizer env owner) (some Err.conflict) (by simp)
    · refine ⟨?_, fun _ _ h2 _ => ?_⟩
      · rcases targetFinalizerEvents_cases env mc with h | h <;> rw [h] <;>
          simp [Event.isSync]
      · simpa using h2 (withOwnerFinalizer env owner) (some e) (by simp)
    · have hfin : ∀ ev ∈ [Event.GetManagedCluster request.Namespace res,
            Event.GetKlusterletAddonConfig request.Namespace request.Name
              (GetResult.found owner)]
          ++ targetFinalizerEvents env mc ++ ownerFinalizerEvents env owner,
          ev.isSync = false := by
        rcases targetFinalizerEvents_cases env mc with h | h <;>
          rcases ownerFinalizerEvents_cases env owner with h' | h' <;>
          rw [h, h'] <;> simp [Event.isSync]
      generalize [Event.GetManagedCluster request.Namespace res,
            Event.GetKlusterletAddonConfig request.Namespace request.Name
              (GetResult.found owner)]
          ++ targetFinalizerEvents env mc ++ ownerFinalizerEvents env owner = t at hact hfin
      cases hact
      case ownerDeleteFailed e hd =>
        refine ⟨?_, fun _ _ _ h3 => ?_⟩
        · intro ev hev
          rcases List.mem_append.mp hev with hev | hev
          · exact hfin ev hev
          · rw [List.mem_singleton.mp hev]
            rfl
        · simpa using h3 (withOwnerFinalizer env owner) (some e) (by simp)
      case ownerDeleted hd =>
        refine ⟨?_, fun _ _ _ _ => ⟨rfl, rfl, rfl⟩⟩
        intro ev hev
        rcases List.mem_append.mp hev with hev | hev
        · exact hfin ev hev
        · rw [List.mem_singleton.mp hev]
          rfl
      case paused hd hp2 => exact ⟨hfin, fun _ _ _ _ => ⟨rfl, rfl, rfl⟩⟩
      all_goals
        exact absurd (hpause2.symm.trans ‹isPaused (withOwnerFinalizer env owner) = false›)
          (by decide)

theorem C5_paused_no_sync_witness :
    isPaused exOwnerPaused = true
    ∧ Event.GetKlusterletAddonConfig exRequest.Namespace exRequest.Name
        (GetResult.found exOwnerPaused) ∈ (Reconcile envPaused exRequest).trace
    ∧ ∀ ev ∈ (Reconcile envPaused exRequest).trace, ev.isSync = false :=
  ⟨by decide, by decide,
    (C5_paused_no_sync envPaused exRequest exOwnerPaused (by decide) (by decide)).1⟩

theorem LabelStep.online {mc : ManagedCluster} {k : KlusterletAddonConfig}
    {m : ManagedCluster} {err : Option Err} {s : List Event} (h : LabelStep mc k m err s) :
    IsManagedClusterOnline (some m) = IsManagedClusterOnline (some mc) := by
  rw [h.target]
  rfl

theorem IsManagedClusterOnline_withTargetFinalizer (env : Env) (mc : ManagedCluster) :
    IsManagedClusterOnline (some (withTargetFinalizer env mc))
      = IsManagedClusterOnline (some mc) := rfl

/-- The events before the active segment: the two fetches and the successful
finalizer-add Updates. -/
theorem opening_events (env : Env) (request : Request) (res : GetResult ManagedCluster)
    (mc : ManagedCluster) (owner : KlusterletAddonConfig) :
    ∀ ev ∈ [Event.GetManagedCluster request.Namespace res,
          Event.GetKlusterletAddonConfig request.Namespace request.Name
            (GetResult.found owner)]
        ++ targetFinalizerEvents env mc ++ ownerFinalizerEvents env owner,
      ev = Event.GetManagedCluster request.Namespace res
      ∨ ev = Event.GetKlusterletAddonConfig request.Namespace request.Name
          (GetResult.found owner)
      ∨ ev = Event.UpdateManagedCluster (withTargetFinalizer env mc) none
      ∨ ev = Event.UpdateKlusterletAddonConfig (withOwnerFinalizer env owner) none := by
  intro ev hev
  rcases targetFinalizerEvents_cases env mc with h | h <;>
    rcases ownerFinalizerEvents_cases env owner with h' | h' <;>
    rw [h, h'] at hev <;> simp at hev <;> tauto

/-- C6: in a cycle that reaches the CRD-bundle status fetch, the fetch
succeeding: when the bundle is absent or has no condition yet, the cycle
returns requeue-after 30 seconds if the target is online and requeue-after
5 minutes if it is not; when the bundle has a condition but is not available
the cycle returns requeue-after 30 seconds.  In all three cases the error is
nil and `syncManifestWorkCRs` is not called. -/
theorem C6_waiting_requeue (env : Env) (request : Request) (owner : KlusterletAddonConfig)
    (target : ManagedCluster) (name ns : String) (w : Option ManifestWork)
    (hown : Event.GetKlusterletAddonConfig request.Namespace request.Name
      (GetResult.found owner) ∈ (Reconcile env request).trace)
    (htar : Event.GetManagedCluster request.Namespace (GetResult.found target)
      ∈ (Reconcile env request).trace)
    (hfetch : Event.GetManifestWork name ns w none ∈ (Reconcile env request).trace) :
    ((∀ x, w = some x → x.Status.Conditions = []) →
        IsManagedClusterOnline (some target) = true →
        (Reconcile env request).result = ⟨true, 30 * Second⟩
        ∧ (Reconcile env request).err = none
        ∧ ∀ k e, Event.syncManifestWorkCRs k e ∉ (Reconcile env request).trace)
    ∧ ((∀ x, w = some x → x.Status.Conditions = []) →
        IsManagedClusterOnline (some target) = false →
        (Reconcile env request).result = ⟨true, 5 * Minute⟩
        ∧ (Reconcile env request).err = none
        ∧ ∀ k e, Event.syncManifestWorkCRs k e ∉ (Reconcile env request).trace)
    ∧ (∀ x, w = some x → x.Status.Conditions ≠ [] →
        IsCRDManfestWorkAvailable (some x) = some false →
        (Reconcile env request).result = ⟨true, 30 * Second⟩
        ∧ (Reconcile env request).err = none
        ∧ ∀ k e, Event.syncManifestWorkCRs k e ∉ (Reconcile env request).trace) := by
  obtain ⟨mc, nf, res, hres, hpath⟩ := (Reconcile_path env request).of_owner hown
  clear hown
  generalize Reconcile env request = o at hpath htar hfetch ⊢
  rcases hpath with ⟨-, hp⟩ | ⟨-, hp⟩
  · exfalso
    clear htar
    cases hp
    all_goals try rcases LabelStep.events ‹LabelStep _ _ _ _ _› with ⟨rfl, -⟩ | rfl
    all_goals simp [tornDownEvents] at hfetch
  · have hopen := opening_events env request res mc owner
    have hflat := hp.flatten
    clear hp
    rcases hflat with ⟨-, rfl⟩ | ⟨-, -, rfl⟩ | ⟨-, -, e, -, rfl⟩ | ⟨-, -, rfl⟩
      | ⟨-, -, e, -, rfl⟩ | ⟨-, hact⟩
    · simp at hfetch
    · simp at hfetch
    · simp at hfetch
    · exfalso
      rcases targetFinalizerEvents_cases env mc with h | h <;> rw [h] at hfetch <;>
        simp at hfetch
    · exfalso
      rcases targetFinalizerEvents_cases env mc with h | h <;> rw [h] at hfetch <;>
        simp at hfetch
    · have hmc : target = mc ∧ res = GetResult.found mc := by
        obtain ⟨s, hs, hev⟩ := hact.trace_active
        rw [hs] at htar
        rcases List.mem_append.mp htar with h | h
        · rcases hopen _ h with h | h | h | h
          · simp only [Event.GetManagedCluster.injEq, true_and] at h
            rcases hres with ⟨h1, -⟩ | ⟨h1, -, -⟩
            · rw [h1] at h
              simp only [GetResult.found.injEq] at h
              exact ⟨h, h1⟩
            · rw [h1] at h
              simp at h
          · simp at h
          · simp at h
          · simp at h
        · have := hev _ h
          simp [Event.isFetch] at this
      obtain ⟨rfl, -⟩ := hmc
      clear htar hres
      have hnot : ∀ a b c d, Event.GetManifestWork a b c d ∉
          [Event.GetManagedCluster request.Namespace res,
            Event.GetKlusterletAddonConfig request.Namespace request.Name
              (GetResult.found owner)]
          ++ targetFinalizerEvents env target ++ ownerFinalizerEvents env owner := by
        intro a b c d h
        rcases hopen _ h with h | h | h | h <;> simp at h
      have hnot2 : ∀ k e, Event.syncManifestWorkCRs k e ∉
          [Event.GetManagedCluster request.Namespace res,
            Event.GetKlusterletAddonConfig request.Namespace request.Name
              (GetResult.found owner)]
          ++ targetFinalizerEvents env target ++ ownerFinalizerEvents env owner := by
        intro k e h
        rcases hopen _ h with h | h | h | h <;> simp at h
      clear hopen
      generalize [Event.GetManagedCluster request.Namespace res,
            Event.GetKlusterletAddonConfig request.Namespace request.Name
              (GetResult.found owner)]
          ++ targetFinalizerEvents env target ++ ownerFinalizerEvents env owner = t
        at hact hnot hnot2
      cases hact
      all_goals try
        (have honl := (LabelStep.online ‹LabelStep _ _ _ _ _›).trans
           (IsManagedClusterOnline_withTargetFinalizer env target)
         rcases LabelStep.events ‹LabelStep _ _ _ _ _› with ⟨rfl, -⟩ | rfl)
      all_goals
        simp only [List.mem_append, List.mem_cons, List.mem_singleton, List.not_mem_nil,
          reduceCtorEq, or_false, false_or, hnot, syncedEvents, crdFetch,
          Event.GetManifestWork.injEq, and_false, false_and] at hfetch
      all_goals
        obtain ⟨-, -, rfl, -⟩ := hfetch
      all_goals try clear ‹LabelStep _ _ _ _ _›
      all_goals try clear ‹isPaused _ = false›
      all_goals try clear ‹(_ && _) = false›
      all_goals clear hnot
      all_goals
        simp_all [syncedEvents, crdFetch, List.length_pos]

theorem C6_waiting_requeue_witness :
    Event.GetManifestWork "cluster1-klusterlet-addon-crds" "cluster1" none none
        ∈ (Reconcile envWaitApply exRequest).trace
    ∧ IsManagedClusterOnline (some exTarget) = true
    ∧ (Reconcile envWaitApply exRequest).result = ⟨true, 30 * Second⟩ :=
  ⟨by decide, by decide,
    ((C6_waiting_requeue envWaitApply exRequest exOwner exTarget
      "cluster1-klusterlet-addon-crds" "cluster1" none
      (by decide) (by decide) (by decide)).1 (by simp) (by decide)).1⟩

/-- A cycle that calls a dependent synchronizer has fetched its owner. -/
theorem ReconcilePath.owner_of_sync {env : Env} {request : Request} {o : Outcome}
    (h : ReconcilePath env request o) (ev : Event) (hev : ev ∈ o.trace)
    (hsync : ev.isSync = true) :
    ∃ owner, Event.GetKlusterletAddonConfig request.Namespace request.Name
      (GetResult.found owner) ∈ o.trace := by
  have key : ∀ mc nf res, OwnerPath env request mc nf
      [Event.GetManagedCluster request.Namespace res] o →
      ∃ owner, Event.GetKlusterletAddonConfig request.Namespace request.Name
        (GetResult.found owner) ∈ o.trace := by
    intro mc nf res ho
    cases ho with
    | fetchFailed e he =>
      simp at hev
      rcases hev with rfl | rfl <;> simp [Event.isSync] at hsync
    | goneReleaseFailed e hn hf =>
      simp at hev
      rcases hev with rfl | rfl | rfl <;> simp [Event.isSync] at hsync
    | goneReleased hn hf =>
      simp at hev
      rcases hev with rfl | rfl | rfl <;> simp [Event.isSync] at hsync
    | gone hf =>
      simp at hev
      rcases hev with rfl | rfl <;> simp [Event.isSync] at hsync
    | deleting k o hk ho =>
      obtain ⟨s, hs, -⟩ := ho.trace_deletion
      exact ⟨k, by rw [hs]; simp⟩
    | live k o hk ho =>
      obtain ⟨s, hs, -⟩ := ho.trace_targetFinalizer
      exact ⟨k, by rw [hs]; simp⟩
  cases h with
  | targetFetchFailed e he =>
    simp at hev
    rw [hev] at hsync
    simp [Event.isSync] at hsync
  | targetAbsent o ho => exact key _ _ _ ho
  | targetFound mc o ho => exact key _ _ _ ho

/-- C7: in a cycle that reaches the CRD-bundle status fetch, when the bundle
has a condition and is available, `syncManifestWorkCRs` is called exactly
once, as the last call of the cycle, with the owner (finalizer in place,
defaults filled in), and when it succeeds the cycle returns requeue-after
5 minutes with a nil error.  In no other situation is it called. -/
theorem C7_sync_component_crs (env : Env) (request : Request) :
    (∀ owner name ns x,
        Event.GetKlusterletAddonConfig request.Namespace request.Name
          (GetResult.found owner) ∈ (Reconcile env request).trace →
        Event.GetManifestWork name ns (some x) none ∈ (Reconcile env request).trace →
        x.Status.Conditions ≠ [] →
        IsCRDManfestWorkAvailable (some x) = some true →
        ∃ pre err,
          (Reconcile env request).trace
            = pre ++ [Event.syncManifestWorkCRs
                (fillDefaults env (withOwnerFinalizer env owner)) err]
          ∧ (∀ k e, Event.syncManifestWorkCRs k e ∉ pre)
          ∧ (err = none →
              (Reconcile env request).result = ⟨true, 5 * Minute⟩
              ∧ (Reconcile env request).err = none))
    ∧ (∀ k e, Event.syncManifestWorkCRs k e ∈ (Reconcile env request).trace →
        ∃ name ns x,
          Event.GetManifestWork name ns (some x) none ∈ (Reconcile env request).trace
          ∧ x.Status.Conditions ≠ []
          ∧ IsCRDManfestWorkAvailable (some x) = some true) := by
  have main : ∀ owner,
      Event.GetKlusterletAddonConfig request.Namespace request.Name
        (GetResult.found owner) ∈ (Reconcile env request).trace →
      (∀ name ns x,
        Event.GetManifestWork name ns (some x) none ∈ (Reconcile env request).trace →
        x.Status.Conditions ≠ [] →
        IsCRDManfestWorkAvailable (some x) = some true →
        ∃ pre err,
          (Reconcile env request).trace
            = pre ++ [Event.syncManifestWorkCRs
                (fillDefaults env (withOwnerFinalizer env owner)) err]
          ∧ (∀ k e, Event.syncManifestWorkCRs k e ∉ pre)
          ∧ (err = none →
              (Reconcile env request).result = ⟨true, 5 * Minute⟩
              ∧ (Reconcile env request).err = none))
      ∧ (∀ k e, Event.syncManifestWorkCRs k e ∈ (Reconcile env request).trace →
        ∃ name ns x,
          Event.GetManifestWork name ns (some x) none ∈ (Reconcile env request).trace
          ∧ x.Status.Conditions ≠ []
          ∧ IsCRDManfestWorkAvailable (some x) = some true) := by
    intro owner hown
    obtain ⟨mc, nf, res, -, hpath⟩ := (Reconcile_path env request).of_owner hown
    clear hown
    generalize Reconcile env request = o at hpath ⊢
    rcases hpath with ⟨-, hp⟩ | ⟨-, hp⟩
    · constructor
      · intro name ns x hfetch
        exfalso
        cases hp
        all_goals try rcases LabelStep.events ‹LabelStep _ _ _ _ _› with ⟨rfl, -⟩ | rfl
        all_goals simp [tornDownEvents] at hfetch
      · intro k e hsync
        exfalso
        cases hp
        all_goals try rcases LabelStep.events ‹LabelStep _ _ _ _ _› with ⟨rfl, -⟩ | rfl
        all_goals simp [tornDownEvents] at hsync
    · have hopen := opening_events env request res mc owner
      have hflat := hp.flatten
      clear hp
      have hnot : ∀ a b c d, Event.GetManifestWork a b c d ∉
          [Event.GetManagedCluster request.Namespace res,
            Event.GetKlusterletAddonConfig request.Namespace request.Name
              (GetResult.found owner)]
          ++ targetFinalizerEvents env mc ++ ownerFinalizerEvents env owner := by
        intro a b c d h
        rcases hopen _ h with h | h | h | h <;> simp at h
      have hnot2 : ∀ k e, Event.syncManifestWorkCRs k e ∉
          [Event.GetManagedCluster request.Namespace res,
            Event.GetKlusterletAddonConfig request.Namespace request.Name
              (GetResult.found owner)]
          ++ targetFinalizerEvents env mc ++ ownerFinalizerEvents env owner := by
        intro k e h
        rcases hopen _ h with h | h | h | h <;> simp at h
      clear hopen
      rcases hflat with ⟨-, rfl⟩ | ⟨-, -, rfl⟩ | ⟨-, -, e, -, rfl⟩ | ⟨-, -, rfl⟩
        | ⟨-, -, e, -, rfl⟩ | ⟨-, hact⟩
      · simp
      · simp
      · simp
      · have h1 := hnot
        have h2 := hnot2
        rcases targetFinalizerEvents_cases env mc with h | h <;> rw [h] at h1 h2 ⊢ <;>
          simp at h1 h2 ⊢
      · have h1 := hnot
        have h2 := hnot2
        rcases targetFinalizerEvents_cases env mc with h | h <;> rw [h] at h1 h2 ⊢ <;>
          simp at h1 h2 ⊢
      · generalize [Event.GetManagedCluster request.Namespace res,
              Event.GetKlusterletAddonConfig request.Namespace request.Name
                (GetResult.found owner)]
            ++ targetFinalizerEvents env mc ++ ownerFinalizerEvents env owner = t
          at hact hnot hnot2
        cases hact
        case crsFailed m s w e hd hp hl hw ha =>
          have hs : ∀ k e, Event.syncManifestWorkCRs k e ∉ s := by
            intro k e h
            rcases hl.events with ⟨rfl, -⟩ | rfl <;> simp at h
          have hs2 : ∀ a b c d, Event.GetManifestWork a b c d ∉ s := by
            intro a b c d h
            rcases hl.events with ⟨rfl, -⟩ | rfl <;> simp at h
          refine ⟨fun name ns x hfetch hx ha2 => ?_, fun k e hsync => ?_⟩
          · refine ⟨t ++ syncedEvents env (withTargetFinalizer env mc)
                (withOwnerFinalizer env owner) ++ s ++ [crdFetch env request (some w) none],
              some e, by simp, ?_, by simp⟩
            intro k e0
            simp [hnot2, hs, syncedEvents, crdFetch]
          · exact ⟨request.Namespace ++ env.KlusterletAddonCRDsPostfix, request.Namespace, w,
              by simp [crdFetch], List.length_pos.mp hw, ha⟩
        case steady m s w hd hp hl hw ha =>
          have hs : ∀ k e, Event.syncManifestWorkCRs k e ∉ s := by
            intro k e h
            rcases hl.events with ⟨rfl, -⟩ | rfl <;> simp at h
          refine ⟨fun name ns x hfetch hx ha2 => ?_, fun k e hsync => ?_⟩
          · refine ⟨t ++ syncedEvents env (withTargetFinalizer env mc)
                (withOwnerFinalizer env owner) ++ s ++ [crdFetch env request (some w) none],
              none, by simp, ?_, by simp⟩
            intro k e0
            simp [hnot2, hs, syncedEvents, crdFetch]
          · exact ⟨request.Namespace ++ env.KlusterletAddonCRDsPostfix, request.Namespace, w,
              by simp [crdFetch], List.length_pos.mp hw, ha⟩
        all_goals try rcases LabelStep.events ‹LabelStep _ _ _ _ _› with ⟨rfl, -⟩ | rfl
        all_goals try clear ‹LabelStep _ _ _ _ _›
        all_goals try clear ‹isPaused _ = false›
        all_goals try clear ‹(_ && _) = false›
        all_goals refine ⟨fun name ns x hfetch hx ha2 => ?_, fun k e hsync => ?_⟩
        any_goals
          simp only [List.mem_append, List.mem_cons, List.mem_singleton, List.not_mem_nil,
            reduceCtorEq, or_false, false_or, hnot, syncedEvents, crdFetch,
            Event.GetManifestWork.injEq, and_false, false_and] at hfetch
        any_goals
          simp only [List.mem_append, List.mem_cons, List.mem_singleton, List.not_mem_nil,
            reduceCtorEq, or_false, false_or, hnot2, syncedEvents, crdFetch,
            Event.syncManifestWorkCRs.injEq, and_false, false_and] at hsync
        all_goals clear hnot hnot2
        all_goals simp_all [List.length_pos]
  refine ⟨fun owner name ns x hown => (main owner hown).1 name ns x, ?_⟩
  intro k e hsync
  obtain ⟨owner, hown⟩ := (Reconcile_path env request).owner_of_sync _ hsync rfl
  exact (main owner hown).2 k e hsync

/-- An Update issued by the label step carries a label map that differs from
the one the step started with. -/
theorem LabelStep.changed {mc : ManagedCluster} {k : KlusterletAddonConfig}
    {m : ManagedCluster} {err : Option Err} {s : List Event} (h : LabelStep mc k m err s)
    (obj : ManagedCluster) (e : Option Err) (hmem : Event.UpdateManagedCluster obj e ∈ s) :
    obj.Labels ≠ mc.Labels := by
  cases h with
  | cleared err hk hl =>
    simp only [List.mem_singleton, Event.UpdateManagedCluster.injEq] at hmem
    rw [hmem.1]
    intro heq
    simp only at heq
    cases hlab : mc.Labels with
    | none => simp [hlab, StrMap.find] at hl
    | some l =>
      rw [hlab] at heq hl
      simp only [StrMap.delete, Option.some.injEq, List.filter_eq_self] at heq
      simp only [StrMap.find, List.lookup_isSome_iff] at hl
      obtain ⟨p, hp, hpk⟩ := hl
      have := heq p hp
      simp only [bne_iff_ne, ne_eq] at this
      exact this (beq_iff_eq.mp hpk).symm
  | absent hk hl => simp at hmem
  | assigned err hk hl =>
    simp only [List.mem_singleton, Event.UpdateManagedCluster.injEq] at hmem
    rw [hmem.1]
    intro heq
    simp only at heq
    cases hlab : mc.Labels with
    | none => simp [hlab, installLabels, StrMap.set] at heq
    | some l =>
      have hinst : installLabels mc = mc := by
        simp [installLabels, hlab]
      rw [hinst, hlab] at heq hl
      simp only [StrMap.set, Option.some.injEq] at heq
      have hget : StrMap.get (some l) PolicyControllerLabel = "true" := by
        rw [← heq]
        simp [StrMap.get, StrMap.find]
      rw [hget] at hl
      exact absurd hl (by decide)
  | kept hk hl => simp at hmem

/-- In the active segment no Update of the owner is issued; an Update of the
target is the label Update, which changes the label map; and when that Update
fails the segment returns its error with the zero Result. -/
theorem ActivePath.updates {env : Env} {request : Request} {mc : ManagedCluster}
    {k : KlusterletAddonConfig} {t : List Event} {o : Outcome}
    (h : ActivePath env request mc k t o) :
    ∃ s, o.trace = t ++ s
      ∧ (∀ obj e, Event.UpdateKlusterletAddonConfig obj e ∉ s)
      ∧ (∀ obj e, Event.UpdateManagedCluster obj e ∈ s → obj.Labels ≠ mc.Labels)
      ∧ (∀ obj e, Event.UpdateManagedCluster obj (some e) ∈ s →
          o.result = Result.zero ∧ o.err = some e) := by
  cases h
  case paused => exact ⟨[], by simp, by simp, by simp, by simp⟩
  case labelFailed m e s hd hp hl =>
    refine ⟨syncedEvents env mc k ++ s, by simp, ?_, ?_, ?_⟩
    · intro obj e0 hmem
      rcases hl.events with ⟨rfl, -⟩ | rfl <;> simp [syncedEvents] at hmem
    · intro obj e0 hmem
      refine hl.changed obj e0 ?_
      simpa [syncedEvents] using hmem
    · intro obj e0 hmem
      rcases hl.events with ⟨rfl, h⟩ | rfl
      · simp at h
      · simp only [syncedEvents, List.mem_append, List.mem_cons, List.mem_singleton,
          List.not_mem_nil, reduceCtorEq, or_false, false_or,
          Event.UpdateManagedCluster.injEq, Option.some.injEq] at hmem
        exact ⟨rfl, by rw [hmem.2]⟩
  all_goals first
    | (have hch := LabelStep.changed ‹LabelStep _ _ _ _ _›
       have hevs := LabelStep.events ‹LabelStep _ _ _ _ _›
       refine ⟨_, by simp only [List.append_assoc]; rfl, ?_, ?_, ?_⟩
       · intro obj e0 hmem
         rcases hevs with ⟨rfl, -⟩ | rfl <;> simp [syncedEvents, crdFetch] at hmem
       · intro obj e0 hmem
         refine hch obj e0 ?_
         simpa [syncedEvents, crdFetch] using hmem
       · intro obj e0 hmem
         rcases hevs with ⟨rfl, -⟩ | rfl <;> simp [syncedEvents, crdFetch] at hmem)
    | exact ⟨_, rfl, by simp, by simp, by simp⟩

/-- What a Conflict on an Update does to a cycle whose owner is not in
deletion and whose target was found. -/
theorem live_conflict_cases (env : Env) (request : Request)
    (owner : KlusterletAddonConfig) (target : ManagedCluster) (ev : Event)
    (hown : Event.GetKlusterletAddonConfig request.Namespace request.Name
      (GetResult.found owner) ∈ (Reconcile env request).trace)
    (hlive : owner.DeletionTimestamp.isSome = false)
    (htar : Event.GetManagedCluster request.Namespace (GetResult.found target)
      ∈ (Reconcile env request).trace)
    (hev : ev ∈ (Reconcile env request).trace)
    (hc : (∃ obj, ev = Event.UpdateManagedCluster obj (some Err.conflict))
      ∨ (∃ obj, ev = Event.UpdateKlusterletAddonConfig obj (some Err.conflict))) :
    (((ev = Event.UpdateManagedCluster (withTargetFinalizer env target) (some Err.conflict)
          ∧ HasFinalizer target.Finalizers env.KlusterletAddonFinalizer = false)
        ∨ (ev = Event.UpdateKlusterletAddonConfig (withOwnerFinalizer env owner)
              (some Err.conflict)
          ∧ HasFinalizer owner.Finalizers env.KlusterletAddonFinalizer = false))
      ∧ (Reconcile env request).result = ⟨true, 5 * Second⟩
      ∧ (Reconcile env request).err = none
      ∧ (Reconcile env request).panicked = false
      ∧ (∃ pre, (Reconcile env request).trace = pre ++ [ev])
      ∧ (∀ obj e, Event.DeleteKlusterletAddonConfig obj e ∉ (Reconcile env request).trace)
      ∧ (∀ x ∈ (Reconcile env request).trace, x.isSync = false))
    ∨ ((∃ obj, ev = Event.UpdateManagedCluster obj (some Err.conflict)
          ∧ obj.Labels ≠ target.Labels)
      ∧ (Reconcile env request).result = Result.zero
      ∧ (Reconcile env request).err = some Err.conflict) := by
  obtain ⟨mc, nf, res, hres, hpath⟩ := (Reconcile_path env request).of_owner hown
  clear hown
  generalize Reconcile env request = o at hpath htar hev ⊢
  rcases hpath with ⟨hdel, -⟩ | ⟨-, hp⟩
  · simp [hlive] at hdel
  have hopen := opening_events env request res mc owner
  have hmc : res = GetResult.found target ∧ mc = target := by
    obtain ⟨s, hs, hevs⟩ := hp.trace_targetFinalizer
    rw [hs] at htar
    rcases List.mem_append.mp htar with h | h
    · simp only [List.mem_cons, List.mem_singleton, List.not_mem_nil, or_false,
        reduceCtorEq, Event.GetManagedCluster.injEq, true_and] at h
      rcases hres with ⟨h1, -⟩ | ⟨h1, -, -⟩
      · rw [h1] at h
        simp only [GetResult.found.injEq] at h
        exact ⟨by rw [h1, h], h.symm⟩
      · rw [h1] at h
        simp at h
    · have := hevs _ h
      simp [Event.isFetch] at this
  obtain ⟨rfl, rfl⟩ := hmc
  clear htar hres
  have hflat := hp.flatten
  clear hp
  have hopen2 : ∀ x ∈ [Event.GetManagedCluster request.Namespace (GetResult.found mc),
        Event.GetKlusterletAddonConfig request.Namespace request.Name
          (GetResult.found owner)] ++ targetFinalizerEvents env mc,
      x ≠ ev := by
    intro x hx hxe
    subst hxe
    have := hopen x (List.mem_append_left _ hx)
    rcases hc with ⟨obj, rfl⟩ | ⟨obj, rfl⟩ <;> simp at this
  rcases hflat with ⟨-, rfl⟩ | ⟨-, hf, rfl⟩ | ⟨-, -, e, he, rfl⟩ | ⟨-, hf, rfl⟩
    | ⟨-, -, e, he, rfl⟩ | ⟨-, hact⟩
  · exfalso
    rcases hc with ⟨obj, rfl⟩ | ⟨obj, rfl⟩ <;> simp at hev
  · left
    have hev2 : ev = Event.UpdateManagedCluster (withTargetFinalizer env mc)
        (some Err.conflict) := by
      rcases hc with ⟨obj, rfl⟩ | ⟨obj, rfl⟩
      · simpa using hev
      · simp at hev
    subst hev2
    exact ⟨Or.inl ⟨rfl, hf⟩, rfl, rfl, rfl, ⟨_, rfl⟩, by simp, by simp [Event.isSync]⟩
  · exfalso
    rcases hc with ⟨obj, rfl⟩ | ⟨obj, rfl⟩ <;> simp at hev
    exact he hev.2.symm
  · left
    have hev2 : ev = Event.UpdateKlusterletAddonConfig (withOwnerFinalizer env owner)
        (some Err.conflict) := by
      simp only [List.mem_append, List.mem_singleton] at hev
      rcases hev with hev | hev
      · exact absurd rfl (hopen2 ev (List.mem_append.mpr hev))
      · exact hev
    subst hev2
    refine ⟨Or.inr ⟨rfl, hf⟩, rfl, rfl, rfl, ⟨_, rfl⟩, ?_, ?_⟩
    · intro obj e
      rcases targetFinalizerEvents_cases env mc with h | h <;> rw [h] <;> simp
    · rcases targetFinalizerEvents_cases env mc with h | h <;> rw [h] <;>
        simp [Event.isSync]
  · exfalso
    simp only [List.mem_append, List.mem_singleton] at hev
    rcases hev with hev | hev
    · exact absurd rfl (hopen2 ev (List.mem_append.mpr hev))
    · subst hev
      rcases hc with ⟨obj, h⟩ | ⟨obj, h⟩
      · simp at h
      · simp only [Event.UpdateKlusterletAddonConfig.injEq, Option.some.injEq] at h
        exact he h.2
  · right
    obtain ⟨s, hs, hs1, hs2, hs3⟩ := hact.updates
    rw [hs] at hev
    rcases List.mem_append.mp hev with h | h
    · exfalso
      have := hopen _ h
      rcases hc with ⟨obj, rfl⟩ | ⟨obj, rfl⟩ <;> simp at this
    · rcases hc with ⟨obj, rfl⟩ | ⟨obj, rfl⟩
      · exact ⟨⟨obj, rfl, hs2 _ _ h⟩, hs3 _ _ h⟩
      · exact absurd h (hs1 _ _)

/-- C8: in a cycle with the owner present and not in deletion and the target
present, when the Update that adds the finalizer to the target, or the one
that adds it to the owner, answers Conflict, the cycle returns requeue-after
5 seconds with a nil error, that Update is its last call, and it neither
deletes the owner nor calls a dependent synchronizer. -/
theorem C8_finalizer_conflict_requeues (env : Env) (request : Request)
    (owner : KlusterletAddonConfig) (target : ManagedCluster)
    (hown : Event.GetKlusterletAddonConfig request.Namespace request.Name
      (GetResult.found owner) ∈ (Reconcile env request).trace)
    (hlive : owner.DeletionTimestamp.isSome = false)
    (htar : Event.GetManagedCluster request.Namespace (GetResult.found target)
      ∈ (Reconcile env request).trace)
    (hconf : (HasFinalizer target.Finalizers env.KlusterletAddonFinalizer = false
        ∧ Event.UpdateManagedCluster (withTargetFinalizer env target) (some Err.conflict)
          ∈ (Reconcile env request).trace)
      ∨ (HasFinalizer owner.Finalizers env.KlusterletAddonFinalizer = false
        ∧ Event.UpdateKlusterletAddonConfig (withOwnerFinalizer env owner) (some Err.conflict)
          ∈ (Reconcile env request).trace)) :
    (Reconcile env request).result = ⟨true, 5 * Second⟩
    ∧ (Reconcile env request).err = none
    ∧ (Reconcile env request).panicked = false
    ∧ ((∃ pre, (Reconcile env request).trace
          = pre ++ [Event.UpdateManagedCluster (withTargetFinalizer env target)
              (some Err.conflict)])
        ∨ (∃ pre, (Reconcile env request).trace
          = pre ++ [Event.UpdateKlusterletAddonConfig (withOwnerFinalizer env owner)
              (some Err.conflict)]))
    ∧ (∀ obj e, Event.DeleteKlusterletAddonConfig obj e ∉ (Reconcile env request).trace)
    ∧ (∀ ev ∈ (Reconcile env request).trace, ev.isSync = false) := by
  rcases hconf with ⟨-, hmem⟩ | ⟨-, hmem⟩
  · rcases live_conflict_cases env request owner target _ hown hlive htar hmem
        (Or.inl ⟨_, rfl⟩) with ⟨-, h1, h2, h3, h4, h5, h6⟩ | ⟨⟨obj, hobj, hlab⟩, -, -⟩
    · exact ⟨h1, h2, h3, Or.inl h4, h5, h6⟩
    · simp only [Event.UpdateManagedCluster.injEq, and_true] at hobj
      rw [← hobj] at hlab
      exact absurd rfl hlab
  · rcases live_conflict_cases env request owner target _ hown hlive htar hmem
        (Or.inr ⟨_, rfl⟩) with ⟨-, h1, h2, h3, h4, h5, h6⟩ | ⟨⟨obj, hobj, -⟩, -, -⟩
    · exact ⟨h1, h2, h3, Or.inr h4, h5, h6⟩
    · simp at hobj

theorem C8_finalizer_conflict_requeues_witness :
    exOwner.DeletionTimestamp.isSome = false
    ∧ HasFinalizer exTargetFresh.Finalizers envTargetConflict.KlusterletAddonFinalizer = false
    ∧ Event.UpdateManagedCluster (withTargetFinalizer envTargetConflict exTargetFresh)
        (some Err.conflict) ∈ (Reconcile envTargetConflict exRequest).trace
    ∧ (Reconcile envTargetConflict exRequest).result = ⟨true, 5 * Second⟩
    ∧ (Reconcile envTargetConflict exRequest).err = none :=
  have h := C8_finalizer_conflict_requeues envTargetConflict exRequest exOwner exTargetFresh
    (by decide) (by decide) (by decide) (Or.inl ⟨by decide, by decide⟩)
  ⟨by decide, by decide, by decide, h.1, h.2.1⟩

/-- C9, the claim as stated fails: with the owner gone, a Conflict on the
Update that removes the finalizer from the target is returned as the error of
the cycle, with the zero Result; there is no requeue-after 5 seconds. -/
theorem C9_conflict_on_removal_is_error :
    Event.UpdateManagedCluster { exTarget with Finalizers := [] } (some Err.conflict)
        ∈ (Reconcile envOwnerGoneConflict exRequest).trace
    ∧ (Reconcile envOwnerGoneConflict exRequest).result = Result.zero
    ∧ (Reconcile envOwnerGoneConflict exRequest).err = some Err.conflict
    ∧ ¬ ((Reconcile envOwnerGoneConflict exRequest).result = ⟨true, 5 * Second⟩
        ∧ (Reconcile envOwnerGoneConflict exRequest).err = none) := by
  decide

/-- In a teardown a Conflict on an Update ends the cycle with that error. -/
theorem DeletionPath.conflict {env : Env} {mc : ManagedCluster} {nf : Bool}
    {k : KlusterletAddonConfig} {t : List Event} {rf : Bool} {o : Outcome}
    (h : DeletionPath env mc nf k t rf o) (ev : Event) (hev : ev ∈ o.trace)
    (ht : ev ∉ t)
    (hc : (∃ obj, ev = Event.UpdateManagedCluster obj (some Err.conflict))
      ∨ (∃ obj, ev = Event.UpdateKlusterletAddonConfig obj (some Err.conflict))) :
    o.result = Result.zero ∧ o.err = some Err.conflict := by
  cases h
  all_goals try rcases LabelStep.events ‹LabelStep _ _ _ _ _› with ⟨rfl, hnone⟩ | rfl
  all_goals try clear ‹LabelStep _ _ _ _ _›
  all_goals
    simp only [List.mem_append, ht, false_or, tornDownEvents, List.mem_cons,
      List.mem_singleton, List.not_mem_nil, or_false] at hev
  all_goals
    rcases hc with ⟨obj, rfl⟩ | ⟨obj, rfl⟩
  all_goals
    simp only [reduceCtorEq, false_or, or_false, Event.UpdateManagedCluster.injEq,
      Event.UpdateKlusterletAddonConfig.injEq, Option.some.injEq, and_false, or_self] at hev
  all_goals exact ⟨rfl, by rw [hev.2]⟩

/-- The three shapes of a cycle: only fetches were made; or the owner was
gone and the finalizer was removed from the target; or an owner was found. -/
theorem ReconcilePath.owner_cases {env : Env} {request : Request} {o : Outcome}
    (h : ReconcilePath env request o) :
    (∀ x ∈ o.trace, x.isFetch = true)
    ∨ (∃ target e, o = ⟨Result.zero, e,
        [Event.GetManagedCluster request.Namespace (GetResult.found target),
         Event.GetKlusterletAddonConfig request.Namespace request.Name
           (GetResult.failed Err.notFound),
         Event.UpdateManagedCluster
           { target with
             Finalizers := RemoveFinalizer target.Finalizers env.KlusterletAddonFinalizer }
           e], false⟩)
    ∨ (∃ owner, Event.GetKlusterletAddonConfig request.Namespace request.Name
        (GetResult.found owner) ∈ o.trace) := by
  have key : ∀ mc nf res,
      ((res = GetResult.found mc ∧ nf = false) ∨ nf = true) →
      OwnerPath env request mc nf [Event.GetManagedCluster request.Namespace res] o →
      (∀ x ∈ o.trace, x.isFetch = true)
      ∨ (∃ target e, o = ⟨Result.zero, e,
          [Event.GetManagedCluster request.Namespace (GetResult.found target),
           Event.GetKlusterletAddonConfig request.Namespace request.Name
             (GetResult.failed Err.notFound),
           Event.UpdateManagedCluster
             { target with
               Finalizers := RemoveFinalizer target.Finalizers env.KlusterletAddonFinalizer }
             e], false⟩)
      ∨ (∃ owner, Event.GetKlusterletAddonConfig request.Namespace request.Name
          (GetResult.found owner) ∈ o.trace) := by
    intro mc nf res hres ho
    cases ho with
    | fetchFailed e he => exact Or.inl (by simp [Event.isFetch])
    | goneReleaseFailed e hn hf =>
      rcases hres with ⟨rfl, -⟩ | h
      · exact Or.inr (Or.inl ⟨mc, some e, rfl⟩)
      · rw [h] at hn
        simp at hn
    | goneReleased hn hf =>
      rcases hres with ⟨rfl, -⟩ | h
      · exact Or.inr (Or.inl ⟨mc, none, rfl⟩)
      · rw [h] at hn
        simp at hn
    | gone hf => exact Or.inl (by simp [Event.isFetch])
    | deleting k o hk ho =>
      obtain ⟨s, hs, -⟩ := ho.trace_deletion
      exact Or.inr (Or.inr ⟨k, by rw [hs]; simp⟩)
    | live k o hk ho =>
      obtain ⟨s, hs, -⟩ := ho.trace_targetFinalizer
      exact Or.inr (Or.inr ⟨k, by rw [hs]; simp⟩)
  cases h with
  | targetFetchFailed e he => exact Or.inl (by simp [Event.isFetch])
  | targetAbsent o ho => exact key _ _ _ (Or.inr rfl) ho
  | targetFound mc o ho => exact key _ _ _ (Or.inl ⟨rfl, rfl⟩) ho

/-- C9, amended: a Conflict on an Update of the owner or the target has one
of two outcomes, by the Update it meets.  When it is the Update that adds the
finalizer to the fetched target or to the fetched owner (owner not in
deletion, target found), the cycle returns requeue-after 5 seconds with a nil
error.  When the owner is gone (the Update removes the finalizer from the
target), or the owner is in deletion (the Updates of the teardown), or the
Update carries a label map other than that of the fetched target (the Update
of the policy-controller label), the cycle returns the zero Result with the
Conflict as its error.  Every Conflict on an Update is in one of these four
situations. -/
theorem C9_conflict_outcomes (env : Env) (request : Request) (ev : Event)
    (hev : ev ∈ (Reconcile env request).trace)
    (hc : (∃ obj, ev = Event.UpdateManagedCluster obj (some Err.conflict))
      ∨ (∃ obj, ev = Event.UpdateKlusterletAddonConfig obj (some Err.conflict))) :
    (∀ owner target,
        Event.GetKlusterletAddonConfig request.Namespace request.Name
          (GetResult.found owner) ∈ (Reconcile env request).trace →
        owner.DeletionTimestamp.isSome = false →
        Event.GetManagedCluster request.Namespace (GetResult.found target)
          ∈ (Reconcile env request).trace →
        ((ev = Event.UpdateManagedCluster (withTargetFinalizer env target)
              (some Err.conflict)
            ∧ HasFinalizer target.Finalizers env.KlusterletAddonFinalizer = false)
          ∨ (ev = Event.UpdateKlusterletAddonConfig (withOwnerFinalizer env owner)
              (some Err.conflict)
            ∧ HasFinalizer owner.Finalizers env.KlusterletAddonFinalizer = false)) →
        (Reconcile env request).result = ⟨true, 5 * Second⟩
        ∧ (Reconcile env request).err = none)
    ∧ (Event.GetKlusterletAddonConfig request.Namespace request.Name
          (GetResult.failed Err.notFound) ∈ (Reconcile env request).trace →
        (Reconcile env request).result = Result.zero
        ∧ (Reconcile env request).err = some Err.conflict)
    ∧ (∀ owner,
        Event.GetKlusterletAddonConfig request.Namespace request.Name
          (GetResult.found owner) ∈ (Reconcile env request).trace →
        owner.DeletionTimestamp.isSome = true →
        (Reconcile env request).result = Result.zero
        ∧ (Reconcile env request).err = some Err.conflict)
    ∧ (∀ target obj,
        Event.GetManagedCluster request.Namespace (GetResult.found target)
          ∈ (Reconcile env request).trace →
        ev = Event.UpdateManagedCluster obj (some Err.conflict) →
        obj.Labels ≠ target.Labels →
        (Reconcile env request).result = Result.zero
        ∧ (Reconcile env request).err = some Err.conflict)
    ∧ ((∃ owner target,
          Event.GetKlusterletAddonConfig request.Namespace request.Name
            (GetResult.found owner) ∈ (Reconcile env request).trace
          ∧ owner.DeletionTimestamp.isSome = false
          ∧ Event.GetManagedCluster request.Namespace (GetResult.found target)
            ∈ (Reconcile env request).trace
          ∧ ((ev = Event.UpdateManagedCluster (withTargetFinalizer env target)
                (some Err.conflict)
              ∧ HasFinalizer target.Finalizers env.KlusterletAddonFinalizer = false)
            ∨ (ev = Event.UpdateKlusterletAddonConfig (withOwnerFinalizer env owner)
                (some Err.conflict)
              ∧ HasFinalizer owner.Finalizers env.KlusterletAddonFinalizer = false)))
      ∨ (∃ target : ManagedCluster,
          Event.GetManagedCluster request.Namespace (GetResult.found target)
            ∈ (Reconcile env request).trace
          ∧ Event.GetKlusterletAddonConfig request.Namespace request.Name
            (GetResult.failed Err.notFound) ∈ (Reconcile env request).trace
          ∧ ev = Event.UpdateManagedCluster
              { target with
                Finalizers := RemoveFinalizer target.Finalizers env.KlusterletAddonFinalizer }
              (some Err.conflict))
      ∨ (∃ owner,
          Event.GetKlusterletAddonConfig request.Namespace request.Name
            (GetResult.found owner) ∈ (Reconcile env request).trace
          ∧ owner.DeletionTimestamp.isSome = true)
      ∨ (∃ owner target obj,
          Event.GetKlusterletAddonConfig request.Namespace request.Name
            (GetResult.found owner) ∈ (Reconcile env request).trace
          ∧ owner.DeletionTimestamp.isSome = false
          ∧ Event.GetManagedCluster request.Namespace (GetResult.found target)
            ∈ (Reconcile env request).trace
          ∧ ev = Event.UpdateManagedCluster obj (some Err.conflict)
          ∧ obj.Labels ≠ target.Labels)) := by
  have hfetch : ev.isFetch = false := by
    rcases hc with ⟨obj, rfl⟩ | ⟨obj, rfl⟩ <;> rfl
  -- the owner is gone: the one Update is the removal from the target
  have hgone : ∀ (target : ManagedCluster) (e : Option Err),
      Reconcile env request = ⟨Result.zero, e,
        [Event.GetManagedCluster request.Namespace (GetResult.found target),
         Event.GetKlusterletAddonConfig request.Namespace request.Name
           (GetResult.failed Err.notFound),
         Event.UpdateManagedCluster
           { target with
             Finalizers := RemoveFinalizer target.Finalizers env.KlusterletAddonFinalizer }
           e], false⟩ →
      e = some Err.conflict
      ∧ ev = Event.UpdateManagedCluster
          { target with
            Finalizers := RemoveFinalizer target.Finalizers env.KlusterletAddonFinalizer }
          (some Err.conflict) := by
    intro target e h
    rw [h] at hev
    simp only [List.mem_cons, List.mem_singleton, List.not_mem_nil, or_false] at hev
    rcases hev with rfl | rfl | rfl
    · simp [Event.isFetch] at hfetch
    · simp [Event.isFetch] at hfetch
    · have he : e = some Err.conflict := by
        rcases hc with ⟨obj, h⟩ | ⟨obj, h⟩
        · simp only [Event.UpdateManagedCluster.injEq] at h
          exact h.2
        · simp at h
      subst he
      exact ⟨rfl, rfl⟩
  -- the owner is in deletion
  have hdeleting : ∀ owner,
      Event.GetKlusterletAddonConfig request.Namespace request.Name
        (GetResult.found owner) ∈ (Reconcile env request).trace →
      owner.DeletionTimestamp.isSome = true →
      (Reconcile env request).result = Result.zero
      ∧ (Reconcile env request).err = some Err.conflict := by
    intro owner hown hdel
    obtain ⟨mc, nf, res, -, hpath⟩ := (Reconcile_path env request).of_owner hown
    have hnotin : ev ∉ [Event.GetManagedCluster request.Namespace res,
        Event.GetKlusterletAddonConfig request.Namespace request.Name
          (GetResult.found owner)] := by
      intro hmem
      simp only [List.mem_cons, List.mem_singleton, List.not_mem_nil, or_false] at hmem
      rcases hmem with rfl | rfl <;> simp [Event.isFetch] at hfetch
    rcases hpath with ⟨-, hp⟩ | ⟨hlive, -⟩
    · exact hp.conflict ev hev hnotin hc
    · rw [hdel] at hlive
      exact absurd hlive (by decide)
  -- a fetched owner is the only answer of the owner fetch
  have hfound : ∀ owner,
      Event.GetKlusterletAddonConfig request.Namespace request.Name
        (GetResult.found owner) ∈ (Reconcile env request).trace →
      Event.GetKlusterletAddonConfig request.Namespace request.Name
        (GetResult.failed Err.notFound) ∉ (Reconcile env request).trace := by
    intro owner hown hnf
    obtain ⟨mc, nf, res, -, hpath⟩ := (Reconcile_path env request).of_owner hown
    have hsuf : ∃ s, (Reconcile env request).trace
        = [Event.GetManagedCluster request.Namespace res,
          Event.GetKlusterletAddonConfig request.Namespace request.Name
            (GetResult.found owner)] ++ s ∧ ∀ x ∈ s, x.isFetch = false := by
      rcases hpath with ⟨-, hp⟩ | ⟨-, hp⟩
      · exact hp.trace_deletion
      · exact hp.trace_targetFinalizer
    obtain ⟨s, hs, hsev⟩ := hsuf
    rw [hs] at hnf
    simp only [List.mem_append, List.mem_cons, List.mem_singleton, List.not_mem_nil,
      or_false, reduceCtorEq, false_or, Event.GetKlusterletAddonConfig.injEq, and_false]
      at hnf
    have := hsev _ hnf
    simp [Event.isFetch] at this
  -- an owner not in deletion: the target was found
  have hlivetarget : ∀ owner,
      Event.GetKlusterletAddonConfig request.Namespace request.Name
        (GetResult.found owner) ∈ (Reconcile env request).trace →
      owner.DeletionTimestamp.isSome = false →
      ∃ target, Event.GetManagedCluster request.Namespace (GetResult.found target)
        ∈ (Reconcile env request).trace := by
    intro owner hown hlive
    obtain ⟨mc, nf, res, hres, hpath⟩ := (Reconcile_path env request).of_owner hown
    rcases hpath with ⟨hdel, -⟩ | ⟨-, hp⟩
    · rw [hlive] at hdel
      exact absurd hdel (by decide)
    rcases hres with ⟨rfl, rfl⟩ | ⟨rfl, rfl, rfl⟩
    · obtain ⟨s, hs, -⟩ := hp.trace_targetFinalizer
      exact ⟨mc, by rw [hs]; simp⟩
    · exfalso
      rcases hp.flatten with ⟨-, h⟩ | ⟨h, -⟩ | ⟨h, -⟩ | ⟨h, -⟩ | ⟨h, -⟩ | ⟨h, -⟩
      · rw [h] at hev
        simp only [List.mem_cons, List.mem_singleton, List.not_mem_nil, or_false] at hev
        rcases hev with rfl | rfl <;> simp [Event.isFetch] at hfetch
      all_goals simp at h
  refine ⟨?_, ?_, hdeleting, ?_, ?_⟩
  · intro owner target hown hlive htar hshape
    rcases live_conflict_cases env request owner target ev hown hlive htar hev hc with
      ⟨-, h2, h3, -⟩ | ⟨⟨obj, h1, h2⟩, -, -⟩
    · exact ⟨h2, h3⟩
    · exfalso
      rcases hshape with ⟨h, -⟩ | ⟨h, -⟩
      · rw [h] at h1
        simp only [Event.UpdateManagedCluster.injEq, and_true] at h1
        apply h2
        rw [← h1]
        rfl
      · rw [h] at h1
        simp at h1
  · intro hnf
    rcases (Reconcile_path env request).owner_cases with h | ⟨target, e, h⟩ | ⟨owner, hown⟩
    · rw [h ev hev] at hfetch
      simp at hfetch
    · obtain ⟨he, -⟩ := hgone target e h
      rw [h, he]
      exact ⟨rfl, rfl⟩
    · exact absurd hnf (hfound owner hown)
  · intro target obj htar hevobj hlab
    rcases (Reconcile_path env request).owner_cases with h | ⟨target0, e, h⟩ | ⟨owner, hown⟩
    · rw [h ev hev] at hfetch
      simp at hfetch
    · obtain ⟨he, -⟩ := hgone target0 e h
      rw [h, he]
      exact ⟨rfl, rfl⟩
    · cases hdel : owner.DeletionTimestamp.isSome with
      | true => exact hdeleting owner hown hdel
      | false =>
        rcases live_conflict_cases env request owner target ev hown hdel htar hev hc with
          ⟨h1, -⟩ | ⟨-, h3, h4⟩
        · exfalso
          rcases h1 with ⟨h, -⟩ | ⟨h, -⟩
          · rw [h] at hevobj
            simp only [Event.UpdateManagedCluster.injEq, and_true] at hevobj
            apply hlab
            rw [← hevobj]
            rfl
          · rw [h] at hevobj
            simp at hevobj
        · exact ⟨h3, h4⟩
  · rcases (Reconcile_path env request).owner_cases with h | ⟨target, e, h⟩ | ⟨owner, hown⟩
    · rw [h ev hev] at hfetch
      simp at hfetch
    · obtain ⟨-, hshape⟩ := hgone target e h
      refine Or.inr (Or.inl ⟨target, ?_, ?_, hshape⟩)
      · rw [h]
        simp
      · rw [h]
        simp
    · cases hdel : owner.DeletionTimestamp.isSome with
      | true => exact Or.inr (Or.inr (Or.inl ⟨owner, hown, hdel⟩))
      | false =>
        obtain ⟨target, htar⟩ := hlivetarget owner hown hdel
        rcases live_conflict_cases env request owner target ev hown hdel htar hev hc with
          ⟨h1, -⟩ | ⟨⟨obj, h1, h2⟩, -, -⟩
        · exact Or.inl ⟨owner, target, hown, hdel, htar, h1⟩
        · exact Or.inr (Or.inr (Or.inr ⟨owner, target, obj, hown, hdel, htar, h1, h2⟩))

theorem C9_conflict_outcomes_witness :
    (Event.UpdateManagedCluster (withTargetFinalizer envTargetConflict exTargetFresh)
        (some Err.conflict) ∈ (Reconcile envTargetConflict exRequest).trace
      ∧ (Reconcile envTargetConflict exRequest).result = ⟨true, 5 * Second⟩
      ∧ (Reconcile envTargetConflict exRequest).err = none)
    ∧ (Event.UpdateManagedCluster { exTarget with Labels := some [] } (some Err.conflict)
        ∈ (Reconcile envLabelConflict exRequest).trace
      ∧ (Reconcile envLabelConflict exRequest).result = Result.zero
      ∧ (Reconcile envLabelConflict exRequest).err = some Err.conflict) :=
  ⟨⟨by decide,
      (C9_conflict_outcomes envTargetConflict exRequest
        (Event.UpdateManagedCluster (withTargetFinalizer envTargetConflict exTargetFresh)
          (some Err.conflict))
        (by decide) (Or.inl ⟨_, rfl⟩)).1 exOwner exTargetFresh (by decide) (by decide)
        (by decide) (Or.inl ⟨rfl, by decide⟩)⟩,
    ⟨by decide,
      (C9_conflict_outcomes envLabelConflict exRequest
        (Event.UpdateManagedCluster { exTarget with Labels := some [] } (some Err.conflict))
        (by decide) (Or.inl ⟨_, rfl⟩)).2.2.2.1 exTarget { exTarget with Labels := some [] }
        (by decide) rfl (by decide)⟩⟩

/-- C10, the claim as stated fails: when the Update that clears the policy
label fails, the cycle returns that error and stops; the owner is not updated,
so its finalizer is not removed. -/
theorem C10_label_error_not_ignored :
    (Reconcile envLabelClearFails exRequest).trace
      = [Event.GetManagedCluster "cluster1" (GetResult.found exTarget),
         Event.GetKlusterletAddonConfig "cluster1" "cluster1" (GetResult.found exOwnerDeleting),
         Event.deleteManifestWorkCRs exOwnerDeleting false true none,
         Event.DeleteManifestWork "cluster1-klusterlet-addon-operator" "cluster1" false
           (some Err.notFound),
         Event.DeleteManifestWork "cluster1-klusterlet-addon-crds" "cluster1" false
           (some Err.notFound),
         Event.UpdateManagedCluster { exTarget with Labels := some [] }
           (some (Err.other "boom"))]
    ∧ (Reconcile envLabelClearFails exRequest).result = Result.zero
    ∧ (Reconcile envLabelClearFails exRequest).err = some (Err.other "boom")
    ∧ (Reconcile envLabelClearFails exRequest).err ≠ none := by
  decide

/-- C10, amended: in a cycle whose owner is in deletion, when the first Update
the cycle issues is an Update of the target and it fails (this is the Update
that clears the policy label, issued once all three tiers are completed), the
cycle returns that error with the zero Result and issues no Update of the
owner. -/
theorem C10_label_error_returned (env : Env) (request : Request)
    (owner : KlusterletAddonConfig) (obj : ManagedCluster) (e : Err)
    (hown : Event.GetKlusterletAddonConfig request.Namespace request.Name
      (GetResult.found owner) ∈ (Reconcile env request).trace)
    (hdel : owner.DeletionTimestamp.isSome = true)
    (hfirst : (Reconcile env request).trace.find? Event.isUpdate
      = some (Event.UpdateManagedCluster obj (some e))) :
    (Reconcile env request).result = Result.zero
    ∧ (Reconcile env request).err = some e
    ∧ (Reconcile env request).panicked = false
    ∧ (∀ k e0, Event.UpdateKlusterletAddonConfig k e0 ∉ (Reconcile env request).trace)
    ∧ (∃ rf, ∀ x ∈ tornDownEvents env owner rf, x ∈ (Reconcile env request).trace)
    ∧ (∃ target, Event.GetManagedCluster request.Namespace (GetResult.found target)
          ∈ (Reconcile env request).trace
        ∧ obj = { target with Labels := target.Labels.delete PolicyControllerLabel }) := by
  obtain ⟨mc, nf, res, hres, hpath⟩ := (Reconcile_path env request).of_owner hown
  rcases hpath with ⟨-, hp⟩ | ⟨hk, -⟩
  swap
  · simp [hdel] at hk
  clear hown
  generalize Reconcile env request = o at hp hfirst ⊢
  generalize (nf || !IsManagedClusterOnline (some mc)) = rf at hp
  cases hp
  case labelFailed m e0 s hl =>
    cases hl with
    | cleared err hk hl =>
      simp only [tornDownEvents, List.cons_append, List.nil_append, List.find?,
        Event.isUpdate, Option.some.injEq, Event.UpdateManagedCluster.injEq] at hfirst
      obtain ⟨rfl, rfl⟩ := hfirst
      refine ⟨rfl, rfl, rfl, by simp [tornDownEvents], ⟨rf, by simp [tornDownEvents]⟩, ?_⟩
      rcases hres with ⟨rfl, -⟩ | ⟨-, rfl, -⟩
      · exact ⟨mc, by simp, rfl⟩
      · simp [ManagedCluster.zero, StrMap.find] at hl
    | assigned err hk hl => simp [hdel] at hk
  all_goals try rcases LabelStep.events ‹LabelStep _ _ _ _ _› with ⟨rfl, -⟩ | rfl
  all_goals
    simp [tornDownEvents, List.find?, Event.isUpdate] at hfirst

theorem C10_label_error_returned_witness :
    exOwnerDeleting.DeletionTimestamp.isSome = true
    ∧ (Reconcile envLabelClearFails exRequest).trace.find? Event.isUpdate
        = some (Event.UpdateManagedCluster { exTarget with Labels := some [] }
            (some (Err.other "boom")))
    ∧ (Reconcile envLabelClearFails exRequest).err = some (Err.other "boom") :=
  ⟨by decide, by decide,
    (C10_label_error_returned envLabelClearFails exRequest exOwnerDeleting
      { exTarget with Labels := some [] } (Err.other "boom")
      (by decide) (by decide) (by decide)).2.1⟩

/-- The cycle of an owner that is not found: how the target was observed and
which of the two return points of lines 162-170 was taken. -/
theorem ReconcilePath.of_owner_gone {env : Env} {request : Request} {o : Outcome}
    (h : ReconcilePath env request o)
    (hgone : Event.GetKlusterletAddonConfig request.Namespace request.Name
      (GetResult.failed Err.notFound) ∈ o.trace) :
    ∃ mc nf res,
      ((res = GetResult.found mc ∧ nf = false)
        ∨ (res = GetResult.failed Err.notFound ∧ mc = ManagedCluster.zero ∧ nf = true))
      ∧ ((nf = false ∧ HasFinalizer mc.Finalizers env.KlusterletAddonFinalizer = true
          ∧ ∃ e, o = ⟨Result.zero, e,
              [Event.GetManagedCluster request.Namespace res,
               Event.GetKlusterletAddonConfig request.Namespace request.Name
                 (GetResult.failed Err.notFound),
               Event.UpdateManagedCluster
                 { mc with
                   Finalizers := RemoveFinalizer mc.Finalizers env.KlusterletAddonFinalizer }
                 e], false⟩)
        ∨ ((!nf && HasFinalizer mc.Finalizers env.KlusterletAddonFinalizer) = false
          ∧ o = ⟨Result.zero, none,
              [Event.GetManagedCluster request.Namespace res,
               Event.GetKlusterletAddonConfig request.Namespace request.Name
                 (GetResult.failed Err.notFound)], false⟩)) := by
  have key : ∀ mc nf res, OwnerPath env request mc nf
      [Event.GetManagedCluster request.Namespace res] o →
      ((nf = false ∧ HasFinalizer mc.Finalizers env.KlusterletAddonFinalizer = true
          ∧ ∃ e, o = ⟨Result.zero, e,
              [Event.GetManagedCluster request.Namespace res,
               Event.GetKlusterletAddonConfig request.Namespace request.Name
                 (GetResult.failed Err.notFound),
               Event.UpdateManagedCluster
                 { mc with
                   Finalizers := RemoveFinalizer mc.Finalizers env.KlusterletAddonFinalizer }
                 e], false⟩)
        ∨ ((!nf && HasFinalizer mc.Finalizers env.KlusterletAddonFinalizer) = false
          ∧ o = ⟨Result.zero, none,
              [Event.GetManagedCluster request.Namespace res,
               Event.GetKlusterletAddonConfig request.Namespace request.Name
                 (GetResult.failed Err.notFound)], false⟩)) := by
    intro mc nf res ho
    cases ho with
    | fetchFailed e he =>
      simp at hgone
      exact absurd hgone.symm he
    | goneReleaseFailed e hn hf => exact Or.inl ⟨hn, hf, some e, rfl⟩
    | goneReleased hn hf => exact Or.inl ⟨hn, hf, none, rfl⟩
    | gone hf => exact Or.inr ⟨hf, rfl⟩
    | deleting k o hk ho =>
      exfalso
      obtain ⟨s, hs, hev⟩ := ho.trace_deletion
      rw [hs] at hgone
      simp only [List.mem_append, List.mem_cons, List.mem_singleton, List.not_mem_nil,
        or_false, false_or, reduceCtorEq, Event.GetKlusterletAddonConfig.injEq,
        and_false] at hgone
      have := hev _ hgone
      simp [Event.isFetch] at this
    | live k o hk ho =>
      exfalso
      obtain ⟨s, hs, hev⟩ := ho.trace_targetFinalizer
      rw [hs] at hgone
      simp only [List.mem_append, List.mem_cons, List.mem_singleton, List.not_mem_nil,
        or_false, false_or, reduceCtorEq, Event.GetKlusterletAddonConfig.injEq,
        and_false] at hgone
      have := hev _ hgone
      simp [Event.isFetch] at this
  cases h with
  | targetFetchFailed e he => simp at hgone
  | targetAbsent o ho =>
    exact ⟨ManagedCluster.zero, true, _, Or.inr ⟨rfl, rfl, rfl⟩, key _ _ _ ho⟩
  | targetFound mc o ho => exact ⟨mc, false, _, Or.inl ⟨rfl, rfl⟩, key _ _ _ ho⟩

/-- C12: in a cycle in which the owner is not found, when the target exists
and carries the finalizer the cycle issues one Update, of the target with the
finalizer removed, as its only write, and returns the zero Result with the
error of that Update (nil when it succeeds); when the target is absent or
does not carry the finalizer the cycle makes the two fetches only and returns
the zero Result with a nil error. -/
theorem C12_owner_gone_releases_target (env : Env) (request : Request)
    (hgone : Event.GetKlusterletAddonConfig request.Namespace request.Name
      (GetResult.failed Err.notFound) ∈ (Reconcile env request).trace) :
    (∀ target,
        Event.GetManagedCluster request.Namespace (GetResult.found target)
          ∈ (Reconcile env request).trace →
        HasFinalizer target.Finalizers env.KlusterletAddonFinalizer = true →
        ∃ e,
          (Reconcile env request).trace
            = [Event.GetManagedCluster request.Namespace (GetResult.found target),
               Event.GetKlusterletAddonConfig request.Namespace request.Name
                 (GetResult.failed Err.notFound),
               Event.UpdateManagedCluster
                 { target with
                   Finalizers :=
                     RemoveFinalizer target.Finalizers env.KlusterletAddonFinalizer }
                 e]
          ∧ (Reconcile env request).result = Result.zero
          ∧ (Reconcile env request).err = e
          ∧ (Reconcile env request).panicked = false)
    ∧ ((∀ target,
          Event.GetManagedCluster request.Namespace (GetResult.found target)
            ∈ (Reconcile env request).trace →
          HasFinalizer target.Finalizers env.KlusterletAddonFinalizer = false) →
        (∀ ev ∈ (Reconcile env request).trace, ev.isFetch = true)
        ∧ (Reconcile env request).result = Result.zero
        ∧ (Reconcile env request).err = none
        ∧ (Reconcile env request).panicked = false) := by
  obtain ⟨mc, nf, res, hres, hcase⟩ := (Reconcile_path env request).of_owner_gone hgone
  clear hgone
  generalize Reconcile env request = o at hcase ⊢
  rcases hcase with ⟨hn, hf, e, rfl⟩ | ⟨hf, rfl⟩
  · subst hn
    have hres2 : res = GetResult.found mc := by
      rcases hres with ⟨h, -⟩ | ⟨-, -, h⟩
      · exact h
      · simp at h
    subst hres2
    constructor
    · intro target htar _
      simp only [List.mem_cons, List.mem_singleton, List.not_mem_nil, or_false,
        reduceCtorEq, Event.GetManagedCluster.injEq, GetResult.found.injEq, true_and] at htar
      subst htar
      exact ⟨e, rfl, rfl, rfl, rfl⟩
    · intro hno
      have := hno mc (by simp)
      rw [hf] at this
      simp at this
  · constructor
    · intro target htar hhas
      exfalso
      simp only [List.mem_cons, List.mem_singleton, List.not_mem_nil, or_false,
        reduceCtorEq, Event.GetManagedCluster.injEq, true_and] at htar
      rcases hres with ⟨h, hn⟩ | ⟨h, -, -⟩
      · rw [h] at htar
        simp only [GetResult.found.injEq] at htar
        subst htar hn
        simp [hhas] at hf
      · rw [h] at htar
        simp at htar
    · intro _
      exact ⟨by simp [Event.isFetch], rfl, rfl, rfl⟩

theorem C12_owner_gone_releases_target_witness :
    Event.GetKlusterletAddonConfig exRequest.Namespace exRequest.Name
        (GetResult.failed Err.notFound) ∈ (Reconcile envOwnerGone exRequest).trace
    ∧ HasFinalizer exTarget.Finalizers envOwnerGone.KlusterletAddonFinalizer = true
    ∧ ∃ e, (Reconcile envOwnerGone exRequest).trace
        = [Event.GetManagedCluster exRequest.Namespace (GetResult.found exTarget),
           Event.GetKlusterletAddonConfig exRequest.Namespace exRequest.Name
             (GetResult.failed Err.notFound),
           Event.UpdateManagedCluster
             { exTarget with
               Finalizers :=
                 RemoveFinalizer exTarget.Finalizers envOwnerGone.KlusterletAddonFinalizer }
             e] :=
  ⟨by decide, by decide,
    ((C12_owner_gone_releases_target envOwnerGone exRequest (by decide)).1 exTarget
      (by decide) (by decide)).imp (fun _ h => h.1)⟩

/-! ## The helpers on their own -/

theorem IsCRDManfestWorkAvailable_iff (w : ManifestWork) :
    IsCRDManfestWorkAvailable (some w) = some true
      ↔ ∃ c ∈ w.Status.Conditions, c.Type_ = WorkAvailable ∧ c.Status = "True" := by
  simp [IsCRDManfestWorkAvailable, List.any_eq_true]

/-- C14: `IsManagedClusterOnline` of a cluster is true exactly when its
condition list has an entry of type `ManagedClusterConditionAvailable` with
status "True", and `IsCRDManfestWorkAvailable` of a work is true exactly when
its list has an entry of type `WorkAvailable` with status "True" (and false
otherwise).  Both are false on the empty list, on lists with other types
only, and on the statuses "False", "Unknown" and "true". -/
theorem C14_condition_evaluators :
    (∀ m : ManagedCluster, IsManagedClusterOnline (some m) = true
        ↔ ∃ c ∈ m.Status.Conditions,
            c.Type_ = ManagedClusterConditionAvailable ∧ c.Status = "True")
    ∧ (∀ w : ManifestWork, IsCRDManfestWorkAvailable (some w) = some true
        ↔ ∃ c ∈ w.Status.Conditions, c.Type_ = WorkAvailable ∧ c.Status = "True")
    ∧ (∀ w : ManifestWork, IsCRDManfestWorkAvailable (some w) = some false
        ↔ ¬ ∃ c ∈ w.Status.Conditions, c.Type_ = WorkAvailable ∧ c.Status = "True")
    ∧ (∀ m : ManagedCluster, m.Status.Conditions = [] →
        IsManagedClusterOnline (some m) = false)
    ∧ (∀ w : ManifestWork, w.Status.Conditions = [] →
        IsCRDManfestWorkAvailable (some w) = some false)
    ∧ (∀ m : ManagedCluster,
        (∀ c ∈ m.Status.Conditions, c.Type_ ≠ ManagedClusterConditionAvailable
          ∨ c.Status = "False" ∨ c.Status = "Unknown" ∨ c.Status = "true") →
        IsManagedClusterOnline (some m) = false)
    ∧ (∀ w : ManifestWork,
        (∀ c ∈ w.Status.Conditions, c.Type_ ≠ WorkAvailable
          ∨ c.Status = "False" ∨ c.Status = "Unknown" ∨ c.Status = "true") →
        IsCRDManfestWorkAvailable (some w) = some false) := by
  have hfalse : ∀ w : ManifestWork, IsCRDManfestWorkAvailable (some w) = some false
      ↔ ¬ ∃ c ∈ w.Status.Conditions, c.Type_ = WorkAvailable ∧ c.Status = "True" := by
    intro w
    rw [← IsCRDManfestWorkAvailable_iff]
    cases h : w.Status.Conditions.any (fun condition =>
        condition.Type_ == WorkAvailable && condition.Status == "True") <;>
      simp [IsCRDManfestWorkAvailable, h]
  have hstatus : ∀ s : String, s = "False" ∨ s = "Unknown" ∨ s = "true" → s ≠ "True" := by
    rintro s (rfl | rfl | rfl) <;> decide
  refine ⟨IsManagedClusterOnline_iff, IsCRDManfestWorkAvailable_iff, hfalse, ?_, ?_, ?_, ?_⟩
  · intro m hm
    simp [IsManagedClusterOnline, hm]
  · intro w hw
    simp [IsCRDManfestWorkAvailable, hw]
  · intro m hm
    rw [Bool.eq_false_iff, ne_eq, IsManagedClusterOnline_iff]
    rintro ⟨c, hc, ht, hs⟩
    rcases hm c hc with h | h
    · exact h ht
    · exact hstatus _ h hs
  · intro w hw
    rw [hfalse]
    rintro ⟨c, hc, ht, hs⟩
    rcases hw c hc with h | h
    · exact h ht
    · exact hstatus _ h hs

/-- C15, at the failing input: on a nil reference `IsManagedClusterOnline`
answers false, while `IsCRDManfestWorkAvailable` dereferences the nil pointer
and gives no answer (the Go runtime panics). -/
theorem C15_nil_reference :
    IsManagedClusterOnline none = false
    ∧ IsCRDManfestWorkAvailable none = none
    ∧ IsCRDManfestWorkAvailable none ≠ some false := by
  decide

/-- C19: the predicate admits a delete event exactly when the event carries
an object, and rejects every create, update and generic event. -/
theorem C19_deletion_predicate :
    (∀ e : DeleteEvent,
        newManagedClusterAddonDeletionPredicate.Delete e = true ↔ e.Object ≠ none)
    ∧ (∀ e : CreateEvent, newManagedClusterAddonDeletionPredicate.Create e = false)
    ∧ (∀ e : UpdateEvent, newManagedClusterAddonDeletionPredicate.Update e = false)
    ∧ (∀ e : GenericEvent, newManagedClusterAddonDeletionPredicate.Generic e = false) := by
  refine ⟨?_, fun _ => rfl, fun _ => rfl, fun _ => rfl⟩
  intro e
  cases h : e.Object <;>
    simp [newManagedClusterAddonDeletionPredicate, Funcs.Delete, h]

/-- C20: `deleteManifestWorkHelper` answers (true, nil) exactly when the
underlying delete answers NotFound, (false, nil) when the delete succeeds,
and (false, err) on any other error; it never answers true together with an
error.  It makes the one delete call, with the override it was given. -/
theorem C20_delete_helper (env : Env) (t : List Event) (name ns : String) (rf : Bool) :
    ((deleteManifestWorkHelper env t name ns rf).1 = (true, none)
        ↔ env.DeleteManifestWork t name ns rf = some Err.notFound)
    ∧ (env.DeleteManifestWork t name ns rf = none →
        (deleteManifestWorkHelper env t name ns rf).1 = (false, none))
    ∧ (∀ e, env.DeleteManifestWork t name ns rf = some e → e ≠ Err.notFound →
        (deleteManifestWorkHelper env t name ns rf).1 = (false, some e))
    ∧ ¬ ((deleteManifestWorkHelper env t name ns rf).1.1 = true
        ∧ (deleteManifestWorkHelper env t name ns rf).1.2 ≠ none)
    ∧ (deleteManifestWorkHelper env t name ns rf).2
        = t ++ [Event.DeleteManifestWork name ns rf (env.DeleteManifestWork t name ns rf)] := by
  rw [deleteManifestWorkHelper_eq]
  generalize env.DeleteManifestWork t name ns rf = err
  rcases err with _ | _ | _ | msg <;> simp [IsNotFound]

theorem runeEqualFold_lower (a b : Char) (hb : 97 ≤ b.toNat ∧ b.toNat ≤ 122) :
    runeEqualFold a b = true ↔ a = b ∨ a.toNat + 32 = b.toNat := by
  unfold runeEqualFold
  by_cases h : b.toNat < a.toNat
  · have hne : ¬ a.toNat + 32 = b.toNat := by omega
    by_cases hab : a = b
    · simp [hab]
    · have : ¬ (65 ≤ b.toNat ∧ b.toNat ≤ 90 ∧ a.toNat = b.toNat + 32) := by omega
      simp [h, hab, hne, this]
  · by_cases hab : a = b
    · simp [hab]
    · have hba : ¬ b = a := fun e => hab e.symm
      have h128 : b.toNat < 128 := by omega
      have : (65 ≤ a.toNat ∧ a.toNat ≤ 90 ∧ b.toNat = a.toNat + 32)
          ↔ a.toNat + 32 = b.toNat := by omega
      simp [h, hab, hba, h128, this]

theorem toNat_add_32 (a : Char) (n : Nat) (h : a.toNat + 32 = n + 32) :
    a = Char.ofNat n := by
  have : a.toNat = n := by omega
  rw [← this, Char.ofNat_toNat]

theorem runeEqualFold_t (a : Char) : runeEqualFold a 't' = true ↔ a = 't' ∨ a = 'T' := by
  rw [runeEqualFold_lower a 't' (by decide)]
  constructor
  · rintro (h | h)
    · exact Or.inl h
    · exact Or.inr (toNat_add_32 a 84 h)
  · rintro (rfl | rfl)
    · exact Or.inl rfl
    · exact Or.inr (by decide)

theorem runeEqualFold_r (a : Char) : runeEqualFold a 'r' = true ↔ a = 'r' ∨ a = 'R' := by
  rw [runeEqualFold_lower a 'r' (by decide)]
  constructor
  · rintro (h | h)
    · exact Or.inl h
    · exact Or.inr (toNat_add_32 a 82 h)
  · rintro (rfl | rfl)
    · exact Or.inl rfl
    · exact Or.inr (by decide)

theorem runeEqualFold_u (a : Char) : runeEqualFold a 'u' = true ↔ a = 'u' ∨ a = 'U' := by
  rw [runeEqualFold_lower a 'u' (by decide)]
  constructor
  · rintro (h | h)
    · exact Or.inl h
    · exact Or.inr (toNat_add_32 a 85 h)
  · rintro (rfl | rfl)
    · exact Or.inl rfl
    · exact Or.inr (by decide)

theorem runeEqualFold_e (a : Char) : runeEqualFold a 'e' = true ↔ a = 'e' ∨ a = 'E' := by
  rw [runeEqualFold_lower a 'e' (by decide)]
  constructor
  · rintro (h | h)
    · exact Or.inl h
    · exact Or.inr (toNat_add_32 a 69 h)
  · rintro (rfl | rfl)
    · exact Or.inl rfl
    · exact Or.inr (by decide)

theorem EqualFold_true_iff (v : String) :
    EqualFold v "true" = true ↔ IsTrueIgnoringCase v = true := by
  unfold EqualFold IsTrueIgnoringCase
  have hd : ("true" : String).data = ['t', 'r', 'u', 'e'] := rfl
  rw [hd]
  rcases v.data with _ | ⟨c1, _ | ⟨c2, _ | ⟨c3, _ | ⟨c4, _ | ⟨c5, l⟩⟩⟩⟩⟩
  · simp [equalFoldRunes]
  · simp [equalFoldRunes]
  · simp [equalFoldRunes]
  · simp [equalFoldRunes]
  · simp only [equalFoldRunes, Bool.and_true, Bool.and_eq_true, Bool.or_eq_true, beq_iff_eq,
      runeEqualFold_t, runeEqualFold_r, runeEqualFold_u, runeEqualFold_e, and_assoc]
  · simp [equalFoldRunes]

theorem IsTrueIgnoringCase.ne_empty {v : String} (h : IsTrueIgnoringCase v = true) :
    v ≠ "" := by
  rintro rfl
  exact absurd h (by decide)

/-- C18: `isPaused` is true exactly when the annotations hold the key
"klusterletaddonconfig-pause" with a value that is "true" up to letter case,
as for "true", "TRUE" and "True"; it is false for the nil map, for a missing
key, for the empty value and for other values. -/
theorem C18_isPaused_iff :
    KlusterletAddonConfigAnnotationPause = "klusterletaddonconfig-pause"
    ∧ (∀ k : KlusterletAddonConfig, isPaused k = true
        ↔ ∃ v, k.Annotations.find KlusterletAddonConfigAnnotationPause = some v
            ∧ IsTrueIgnoringCase v = true)
    ∧ (∀ k : KlusterletAddonConfig, k.Annotations = none → isPaused k = false)
    ∧ (∀ k : KlusterletAddonConfig,
        k.Annotations.find KlusterletAddonConfigAnnotationPause = none →
        isPaused k = false)
    ∧ (∀ k : KlusterletAddonConfig,
        k.Annotations.find KlusterletAddonConfigAnnotationPause = some "" →
        isPaused k = false)
    ∧ isPaused (exAnnotated (some [(KlusterletAddonConfigAnnotationPause, "true")])) = true
    ∧ isPaused (exAnnotated (some [(KlusterletAddonConfigAnnotationPause, "TRUE")])) = true
    ∧ isPaused (exAnnotated (some [(KlusterletAddonConfigAnnotationPause, "True")])) = true
    ∧ isPaused (exAnnotated (some [(KlusterletAddonConfigAnnotationPause, "false")])) = false
    ∧ isPaused (exAnnotated (some [(KlusterletAddonConfigAnnotationPause, "yes")])) = false
    ∧ isPaused (exAnnotated (some [(KlusterletAddonConfigAnnotationPause, " true")])) = false
    ∧ isPaused (exAnnotated (some [("other-key", "true")])) = false := by
  have hiff : ∀ k : KlusterletAddonConfig, isPaused k = true
      ↔ ∃ v, k.Annotations.find KlusterletAddonConfigAnnotationPause = some v
          ∧ IsTrueIgnoringCase v = true := by
    intro k
    unfold isPaused StrMap.get
    cases ha : k.Annotations with
    | none => simp [StrMap.find]
    | some l =>
      dsimp only
      generalize StrMap.find (some l) KlusterletAddonConfigAnnotationPause = r
      cases r with
      | none => simp
      | some v =>
        simp only [Option.isNone_some, Bool.false_eq_true, if_false, Option.getD_some,
          Option.some.injEq, exists_eq_left']
        rw [← EqualFold_true_iff]
        constructor
        · intro h
          by_cases he : EqualFold v "true" = true
          · exact he
          · simp [he] at h
        · intro h
          have hne : v ≠ "" := IsTrueIgnoringCase.ne_empty ((EqualFold_true_iff v).1 h)
          simp [h, hne]
  have hnot : ∀ k : KlusterletAddonConfig,
      (¬ ∃ v, k.Annotations.find KlusterletAddonConfigAnnotationPause = some v
          ∧ IsTrueIgnoringCase v = true) → isPaused k = false := by
    intro k h
    rw [← hiff] at h
    simpa using h
  refine ⟨rfl, hiff, ?_, ?_, ?_, by decide, by decide, by decide, by decide, by decide,
    by decide, by decide⟩
  · intro k hk
    apply hnot
    simp [hk, StrMap.find]
  · intro k hk
    apply hnot
    simp [hk]
  · intro k hk
    apply hnot
    rw [hk]
    rintro ⟨v, hv, ht⟩
    cases hv
    exact IsTrueIgnoringCase.ne_empty ht rfl

/-! ## Cycles that saw both the owner and the target -/

/-- The cycle of a fetched owner and a fetched target: the path taken from
the owner fetch on. -/
theorem ReconcilePath.of_owner_target {env : Env} {request : Request} {o : Outcome}
    {owner : KlusterletAddonConfig} {target : ManagedCluster}
    (h : ReconcilePath env request o)
    (hown : Event.GetKlusterletAddonConfig request.Namespace request.Name
      (GetResult.found owner) ∈ o.trace)
    (htar : Event.GetManagedCluster request.Namespace (GetResult.found target) ∈ o.trace) :
    (owner.DeletionTimestamp.isSome = true
      ∧ DeletionPath env target false owner
          [Event.GetManagedCluster request.Namespace (GetResult.found target),
           Event.GetKlusterletAddonConfig request.Namespace request.Name
             (GetResult.found owner)]
          (false || !IsManagedClusterOnline (some target)) o)
    ∨ (owner.DeletionTimestamp.isSome = false
      ∧ TargetFinalizerPath env request target false owner
          [Event.GetManagedCluster request.Namespace (GetResult.found target),
           Event.GetKlusterletAddonConfig request.Namespace request.Name
             (GetResult.found owner)] o) := by
  obtain ⟨mc, nf, res, hres, hpath⟩ := h.of_owner hown
  have hsuf : ∃ s, o.trace = [Event.GetManagedCluster request.Namespace res,
        Event.GetKlusterletAddonConfig request.Namespace request.Name
          (GetResult.found owner)] ++ s ∧ ∀ ev ∈ s, ev.isFetch = false := by
    rcases hpath with ⟨-, hp⟩ | ⟨-, hp⟩
    · exact hp.trace_deletion
    · exact hp.trace_targetFinalizer
  obtain ⟨s, hs, hev⟩ := hsuf
  have hmc : res = GetResult.found target := by
    rw [hs] at htar
    simp only [List.mem_append, List.mem_cons, List.mem_singleton, List.not_mem_nil,
      or_false, reduceCtorEq, false_or, Event.GetManagedCluster.injEq, true_and] at htar
    rcases htar with htar | htar
    · exact htar.symm
    · have := hev _ htar
      simp [Event.isFetch] at this
  subst hmc
  rcases hres with ⟨h1, rfl⟩ | ⟨h1, -, -⟩
  · simp only [GetResult.found.injEq] at h1
    subst h1
    exact hpath
  · simp at h1

/-- C16: in a cycle that saw both the owner and the target, the owner not in
deletion and the target in deletion, with the finalizer-add Updates (if any)
succeeding: the cycle issues the Delete of the owner as its last call, after
fetches and Updates only, and makes no dependent synchronization call; it
returns the zero Result with the answer of the Delete as its error, so a nil
error when the Delete succeeds.  The pause annotation plays no part. -/
theorem C16_target_deleting_deletes_owner (env : Env) (request : Request)
    (owner : KlusterletAddonConfig) (target : ManagedCluster)
    (hown : Event.GetKlusterletAddonConfig request.Namespace request.Name
      (GetResult.found owner) ∈ (Reconcile env request).trace)
    (htar : Event.GetManagedCluster request.Namespace (GetResult.found target)
      ∈ (Reconcile env request).trace)
    (hlive : owner.DeletionTimestamp.isSome = false)
    (htdel : target.DeletionTimestamp.isSome = true)
    (hupdT : ∀ obj e, Event.UpdateManagedCluster obj e ∈ (Reconcile env request).trace →
      e = none)
    (hupdO : ∀ obj e, Event.UpdateKlusterletAddonConfig obj e
      ∈ (Reconcile env request).trace → e = none) :
    ∃ pre e,
      (Reconcile env request).trace
        = pre ++ [Event.DeleteKlusterletAddonConfig (withOwnerFinalizer env owner) e]
      ∧ (∀ ev ∈ pre, ev.isFetch = true ∨ ev.isUpdate = true)
      ∧ (∀ ev ∈ (Reconcile env request).trace, ev.isSync = false)
      ∧ (Reconcile env request).result = Result.zero
      ∧ (Reconcile env request).err = e
      ∧ (Reconcile env request).panicked = false
      ∧ (e = none → (Reconcile env request).result = Result.zero
          ∧ (Reconcile env request).err = none) := by
  have hpath := (Reconcile_path env request).of_owner_target hown htar
  clear hown htar
  generalize Reconcile env request = o at hpath hupdT hupdO ⊢
  rcases hpath with ⟨hdel, -⟩ | ⟨-, hp⟩
  · rw [hlive] at hdel
    exact absurd hdel (by decide)
  have hopen := opening_events env request (GetResult.found target) target owner
  have hflat := hp.flatten
  clear hp
  rcases hflat with ⟨hn, -⟩ | ⟨-, -, rfl⟩ | ⟨-, -, e, -, rfl⟩ | ⟨-, -, rfl⟩
    | ⟨-, -, e, -, rfl⟩ | ⟨-, hact⟩
  · exact absurd hn (by decide)
  · exact absurd (hupdT (withTargetFinalizer env target) (some Err.conflict) (by simp))
      (by simp)
  · exact absurd (hupdT (withTargetFinalizer env target) (some e) (by simp)) (by simp)
  · exact absurd (hupdO (withOwnerFinalizer env owner) (some Err.conflict) (by simp))
      (by simp)
  · exact absurd (hupdO (withOwnerFinalizer env owner) (some e) (by simp)) (by simp)
  clear hupdT hupdO
  have hpre : ∀ ev ∈ [Event.GetManagedCluster request.Namespace (GetResult.found target),
        Event.GetKlusterletAddonConfig request.Namespace request.Name
          (GetResult.found owner)]
      ++ targetFinalizerEvents env target ++ ownerFinalizerEvents env owner,
      (ev.isFetch = true ∨ ev.isUpdate = true) ∧ ev.isSync = false := by
    intro ev hev
    rcases hopen ev hev with rfl | rfl | rfl | rfl <;> simp [Event.isFetch, Event.isUpdate,
      Event.isSync]
  clear hopen
  have hd2 : ((withTargetFinalizer env target).DeletionTimestamp.isSome
      && (withOwnerFinalizer env owner).DeletionTimestamp.isNone) = true := by
    have h1 : (withTargetFinalizer env target).DeletionTimestamp
        = target.DeletionTimestamp := rfl
    have h2 : (withOwnerFinalizer env owner).DeletionTimestamp
        = owner.DeletionTimestamp := rfl
    rw [h1, h2, htdel]
    cases h : owner.DeletionTimestamp with
    | none => rfl
    | some x => simp [h] at hlive
  generalize [Event.GetManagedCluster request.Namespace (GetResult.found target),
        Event.GetKlusterletAddonConfig request.Namespace request.Name
          (GetResult.found owner)]
      ++ targetFinalizerEvents env target ++ ownerFinalizerEvents env owner = t
    at hact hpre
  have hsync : ∀ e, ∀ ev ∈ t ++ [Event.DeleteKlusterletAddonConfig
      (withOwnerFinalizer env owner) e], ev.isSync = false := by
    intro e ev hev
    rcases List.mem_append.mp hev with hev | hev
    · exact (hpre ev hev).2
    · rw [List.mem_singleton.mp hev]
      rfl
  cases hact
  case ownerDeleteFailed e hd =>
    exact ⟨t, some e, rfl, fun ev hev => (hpre ev hev).1, hsync _, rfl, rfl, rfl,
      fun h => by simp at h⟩
  case ownerDeleted hd =>
    exact ⟨t, none, rfl, fun ev hev => (hpre ev hev).1, hsync _, rfl, rfl, rfl,
      fun _ => ⟨rfl, rfl⟩⟩
  all_goals
    exact absurd (hd2.symm.trans ‹(_ && _) = false›) (by decide)

theorem C16_target_deleting_deletes_owner_witness :
    isPaused exOwnerPaused = true
    ∧ ∃ pre e,
      (Reconcile envTargetDeleting exRequest).trace
        = pre ++ [Event.DeleteKlusterletAddonConfig
            (withOwnerFinalizer envTargetDeleting exOwnerPaused) e]
      ∧ (∀ ev ∈ pre, ev.isFetch = true ∨ ev.isUpdate = true)
      ∧ (∀ ev ∈ (Reconcile envTargetDeleting exRequest).trace, ev.isSync = false)
      ∧ (Reconcile envTargetDeleting exRequest).result = Result.zero
      ∧ (Reconcile envTargetDeleting exRequest).err = e
      ∧ (Reconcile envTargetDeleting exRequest).panicked = false
      ∧ (e = none → (Reconcile envTargetDeleting exRequest).result = Result.zero
          ∧ (Reconcile envTargetDeleting exRequest).err = none) :=
  ⟨by decide,
    C16_target_deleting_deletes_owner envTargetDeleting exRequest exOwnerPaused
      exTargetDeleting (by decide) (by decide) (by decide) (by decide)
      (fun obj e h => by
        have ht : (Reconcile envTargetDeleting exRequest).trace
            = [Event.GetManagedCluster "cluster1" (GetResult.found exTargetDeleting),
               Event.GetKlusterletAddonConfig "cluster1" "cluster1"
                 (GetResult.found exOwnerPaused),
               Event.DeleteKlusterletAddonConfig exOwnerPaused none] := by decide
        rw [ht] at h
        simp at h)
      (fun obj e h => by
        have ht : (Reconcile envTargetDeleting exRequest).trace
            = [Event.GetManagedCluster "cluster1" (GetResult.found exTargetDeleting),
               Event.GetKlusterletAddonConfig "cluster1" "cluster1"
                 (GetResult.found exOwnerPaused),
               Event.DeleteKlusterletAddonConfig exOwnerPaused none] := by decide
        rw [ht] at h
        simp at h)⟩

theorem fillDefaults_fields (env : Env) (k : KlusterletAddonConfig) :
    (fillDefaults env k).Spec.ImagePullSecret
        = (if k.Spec.ImagePullSecret = "" then env.Getenv "DEFAULT_IMAGE_PULL_SECRET"
            else k.Spec.ImagePullSecret)
    ∧ (fillDefaults env k).Spec.ImageRegistry
        = (if k.Spec.ImageRegistry = "" then env.Getenv "DEFAULT_IMAGE_REGISTRY"
            else k.Spec.ImageRegistry)
    ∧ (fillDefaults env k).Spec.ClusterName = k.Spec.ClusterName
    ∧ (fillDefaults env k).Spec.ClusterNamespace = k.Spec.ClusterNamespace
    ∧ (fillDefaults env k).Spec.ImagePullPolicy = k.Spec.ImagePullPolicy
    ∧ (fillDefaults env k).Spec.SearchCollectorConfig = k.Spec.SearchCollectorConfig
    ∧ (fillDefaults env k).Spec.PolicyController = k.Spec.PolicyController
    ∧ (fillDefaults env k).Name = k.Name
    ∧ (fillDefaults env k).Namespace = k.Namespace
    ∧ (fillDefaults env k).Annotations = k.Annotations
    ∧ (fillDefaults env k).Finalizers = k.Finalizers
    ∧ (fillDefaults env k).DeletionTimestamp = k.DeletionTimestamp := by
  unfold fillDefaults
  by_cases h1 : k.Spec.ImagePullSecret = "" <;> by_cases h2 : k.Spec.ImageRegistry = "" <;>
    simp [h1, h2]

/-- C17: in a cycle of a fetched owner, every dependent synchronization call
is handed the owner with `Spec.ImagePullSecret` set to the environment value
of DEFAULT_IMAGE_PULL_SECRET when the field was empty and left as it was
otherwise, likewise `Spec.ImageRegistry` with DEFAULT_IMAGE_REGISTRY, and
with every other spec field as fetched. -/
theorem C17_backfill_defaults (env : Env) (request : Request)
    (owner : KlusterletAddonConfig)
    (hown : Event.GetKlusterletAddonConfig request.Namespace request.Name
      (GetResult.found owner) ∈ (Reconcile env request).trace) :
    ∀ ev ∈ (Reconcile env request).trace, ∀ k, ev.syncOwner = some k →
      k = fillDefaults env (withOwnerFinalizer env owner)
      ∧ k.Spec.ImagePullSecret
          = (if owner.Spec.ImagePullSecret = "" then env.Getenv "DEFAULT_IMAGE_PULL_SECRET"
              else owner.Spec.ImagePullSecret)
      ∧ k.Spec.ImageRegistry
          = (if owner.Spec.ImageRegistry = "" then env.Getenv "DEFAULT_IMAGE_REGISTRY"
              else owner.Spec.ImageRegistry)
      ∧ k.Spec.ClusterName = owner.Spec.ClusterName
      ∧ k.Spec.ClusterNamespace = owner.Spec.ClusterNamespace
      ∧ k.Spec.ImagePullPolicy = owner.Spec.ImagePullPolicy
      ∧ k.Spec.SearchCollectorConfig = owner.Spec.SearchCollectorConfig
      ∧ k.Spec.PolicyController = owner.Spec.PolicyController := by
  have hfields : ∀ k, k = fillDefaults env (withOwnerFinalizer env owner) →
      k = fillDefaults env (withOwnerFinalizer env owner)
      ∧ k.Spec.ImagePullSecret
          = (if owner.Spec.ImagePullSecret = "" then env.Getenv "DEFAULT_IMAGE_PULL_SECRET"
              else owner.Spec.ImagePullSecret)
      ∧ k.Spec.ImageRegistry
          = (if owner.Spec.ImageRegistry = "" then env.Getenv "DEFAULT_IMAGE_REGISTRY"
              else owner.Spec.ImageRegistry)
      ∧ k.Spec.ClusterName = owner.Spec.ClusterName
      ∧ k.Spec.ClusterNamespace = owner.Spec.ClusterNamespace
      ∧ k.Spec.ImagePullPolicy = owner.Spec.ImagePullPolicy
      ∧ k.Spec.SearchCollectorConfig = owner.Spec.SearchCollectorConfig
      ∧ k.Spec.PolicyController = owner.Spec.PolicyController := by
    rintro k rfl
    obtain ⟨h1, h2, h3, h4, h5, h6, h7, -⟩ :=
      fillDefaults_fields env (withOwnerFinalizer env owner)
    exact ⟨rfl, h1, h2, h3, h4, h5, h6, h7⟩
  suffices h : ∀ ev ∈ (Reconcile env request).trace,
      ev.syncOwner = none
      ∨ ev.syncOwner = some (fillDefaults env (withOwnerFinalizer env owner)) by
    intro ev hev k hk
    apply hfields
    rcases h ev hev with h | h
    · rw [h] at hk
      simp at hk
    · rw [h] at hk
      simpa using hk.symm
  clear hfields
  obtain ⟨mc, nf, res, -, hpath⟩ := (Reconcile_path env request).of_owner hown
  clear hown
  generalize Reconcile env request = o at hpath ⊢
  rcases hpath with ⟨-, hp⟩ | ⟨-, hp⟩
  · cases hp
    all_goals try rcases LabelStep.events ‹LabelStep _ _ _ _ _› with ⟨rfl, -⟩ | rfl
    all_goals simp [tornDownEvents, Event.syncOwner]
  · have hopen := opening_events env request res mc owner
    have hflat := hp.flatten
    clear hp
    rcases hflat with ⟨-, rfl⟩ | ⟨-, -, rfl⟩ | ⟨-, -, e, -, rfl⟩ | ⟨-, -, rfl⟩
      | ⟨-, -, e, -, rfl⟩ | ⟨-, hact⟩
    · simp [Event.syncOwner]
    · simp [Event.syncOwner]
    · simp [Event.syncOwner]
    · rcases targetFinalizerEvents_cases env mc with h | h <;> rw [h] <;>
        simp [Event.syncOwner]
    · rcases targetFinalizerEvents_cases env mc with h | h <;> rw [h] <;>
        simp [Event.syncOwner]
    · have hpre : ∀ ev ∈ [Event.GetManagedCluster request.Namespace res,
            Event.GetKlusterletAddonConfig request.Namespace request.Name
              (GetResult.found owner)]
          ++ targetFinalizerEvents env mc ++ ownerFinalizerEvents env owner,
          ev.syncOwner = none
          ∨ ev.syncOwner = some (fillDefaults env (withOwnerFinalizer env owner)) := by
        intro ev hev
        rcases hopen ev hev with rfl | rfl | rfl | rfl <;> exact Or.inl rfl
      clear hopen
      generalize [Event.GetManagedCluster request.Namespace res,
            Event.GetKlusterletAddonConfig request.Namespace request.Name
              (GetResult.found owner)]
          ++ targetFinalizerEvents env mc ++ ownerFinalizerEvents env owner = t
        at hact hpre
      cases hact
      all_goals try rcases LabelStep.events ‹LabelStep _ _ _ _ _› with ⟨rfl, -⟩ | rfl
      all_goals
        simp only [List.forall_mem_append, List.forall_mem_cons, List.forall_mem_singleton,
          syncedEvents, crdFetch, Event.syncOwner, List.not_mem_nil, false_implies,
          implies_true, or_true, true_or, and_true, true_and]
      all_goals exact hpre

theorem C17_backfill_defaults_witness :
    Event.createManifestWorkCRD (fillDefaults envSteady exOwner) "v1.19.0" none
        ∈ (Reconcile envSteady exRequest).trace
    ∧ exOwner.Spec.ImagePullSecret = ""
    ∧ (fillDefaults envSteady exOwner).Spec.ImagePullSecret
        = envSteady.Getenv "DEFAULT_IMAGE_PULL_SECRET" :=
  ⟨by decide, rfl,
    (C17_backfill_defaults envSteady exRequest exOwner (by decide)
      (Event.createManifestWorkCRD (fillDefaults envSteady exOwner) "v1.19.0" none)
      (by decide) (fillDefaults envSteady exOwner) rfl).2.1⟩

/-! ## Errors that are neither NotFound nor Conflict -/

theorem GetResult.err_found {α : Type} (x : α) : (GetResult.found x).err = none := rfl

theorem GetResult.err_failed {α : Type} (e : Err) :
    (GetResult.failed e : GetResult α).err = some e := rfl

theorem AbortsOn.nil_aborts (p : Event → Prop) (c : Prop) : AbortsOn p c [] := by
  intro pre ev post h
  simp at h

theorem AbortsOn.cons_aborts (p : Event → Prop) (c : Prop) (x : Event) (l : List Event) :
    AbortsOn p c (x :: l) ↔ (p x → l = [] ∧ c) ∧ AbortsOn p c l := by
  constructor
  · intro h
    refine ⟨fun hp => h [] x l rfl hp, ?_⟩
    intro pre ev post hl hp
    exact h (x :: pre) ev post (by simp [hl]) hp
  · rintro ⟨hx, h⟩ pre ev post hl hp
    cases pre with
    | nil =>
      simp only [List.nil_append, List.cons.injEq] at hl
      obtain ⟨rfl, rfl⟩ := hl
      exact hx hp
    | cons a pre =>
      simp only [List.cons_append, List.cons.injEq] at hl
      exact h pre ev post hl.2 hp

theorem AbortsOn.of_clean {p : Event → Prop} {c : Prop} {t s : List Event}
    (ht : ∀ x ∈ t, ¬ p x) (hs : AbortsOn p c s) : AbortsOn p c (t ++ s) := by
  induction t with
  | nil => simpa using hs
  | cons a t ih =>
    rw [List.cons_append, AbortsOn.cons_aborts]
    refine ⟨fun hp => absurd hp (ht a (by simp)), ih ?_⟩
    intro x hx
    exact ht x (by simp [hx])

theorem ActivePath.aborts_active {env : Env} {request : Request} {mc : ManagedCluster}
    {k : KlusterletAddonConfig} {t : List Event} {o : Outcome} (msg : String)
    (h : ActivePath env request mc k t o)
    (ht : ∀ x ∈ t, ¬ x.error = some (Err.other msg)) :
    AbortsOn (fun ev => ev.error = some (Err.other msg))
      (o.result = Result.zero ∧ o.err = some (Err.other msg) ∧ o.panicked = false)
      o.trace := by
  cases h
  case paused => simpa using AbortsOn.of_clean ht (AbortsOn.nil_aborts _ _)
  all_goals try rcases LabelStep.events ‹LabelStep _ _ _ _ _› with ⟨rfl, -⟩ | rfl
  all_goals
    simp only [List.append_assoc]
    apply AbortsOn.of_clean ht
    simp [AbortsOn.cons_aborts, AbortsOn.nil_aborts, Event.error, syncedEvents, crdFetch]

theorem DeletionPath.aborts_deletion {env : Env} {mc : ManagedCluster} {nf : Bool}
    {k : KlusterletAddonConfig} {t : List Event} {rf : Bool} {o : Outcome} (msg : String)
    (h : DeletionPath env mc nf k t rf o)
    (ht : ∀ x ∈ t, ¬ x.error = some (Err.other msg)) :
    AbortsOn (fun ev => ev.error = some (Err.other msg))
      (o.result = Result.zero ∧ o.err = some (Err.other msg) ∧ o.panicked = false)
      o.trace := by
  cases h
  all_goals try rcases LabelStep.events ‹LabelStep _ _ _ _ _› with ⟨rfl, -⟩ | rfl
  all_goals
    simp only [List.append_assoc]
    apply AbortsOn.of_clean ht
    simp [AbortsOn.cons_aborts, AbortsOn.nil_aborts, Event.error, tornDownEvents]

theorem ReconcilePath.aborts_cycle {env : Env} {request : Request} {o : Outcome} (msg : String)
    (h : ReconcilePath env request o) :
    AbortsOn (fun ev => ev.error = some (Err.other msg))
      (o.result = Result.zero ∧ o.err = some (Err.other msg) ∧ o.panicked = false)
      o.trace := by
  have key : ∀ mc nf res, ¬ GetResult.err res = some (Err.other msg) →
      OwnerPath env request mc nf [Event.GetManagedCluster request.Namespace res] o →
      AbortsOn (fun ev => ev.error = some (Err.other msg))
        (o.result = Result.zero ∧ o.err = some (Err.other msg) ∧ o.panicked = false)
        o.trace := by
    intro mc nf res hres ho
    have hclean : ∀ k, ∀ x ∈ [Event.GetManagedCluster request.Namespace res,
        Event.GetKlusterletAddonConfig request.Namespace request.Name (GetResult.found k)],
        ¬ x.error = some (Err.other msg) := by
      intro k x hx
      simp only [List.mem_cons, List.mem_singleton, List.not_mem_nil, or_false] at hx
      rcases hx with rfl | rfl
      · exact hres
      · simp [Event.error, GetResult.err_found, GetResult.err_failed]
    cases ho with
    | fetchFailed e he =>
      simp [AbortsOn.cons_aborts, AbortsOn.nil_aborts, Event.error, GetResult.err_found, GetResult.err_failed, hres]
    | goneReleaseFailed e hn hf =>
      simp [AbortsOn.cons_aborts, AbortsOn.nil_aborts, Event.error, GetResult.err_found, GetResult.err_failed, hres]
    | goneReleased hn hf =>
      simp [AbortsOn.cons_aborts, AbortsOn.nil_aborts, Event.error, GetResult.err_found, GetResult.err_failed, hres]
    | gone hf =>
      simp [AbortsOn.cons_aborts, AbortsOn.nil_aborts, Event.error, GetResult.err_found, GetResult.err_failed, hres]
    | deleting k o hk ho => exact ho.aborts_deletion msg (hclean k)
    | live k o hk ho =>
      have hopen := opening_events env request res mc k
      have hflat := ho.flatten
      clear ho
      rcases hflat with ⟨-, rfl⟩ | ⟨-, -, rfl⟩ | ⟨-, -, e, -, rfl⟩ | ⟨-, -, rfl⟩
        | ⟨-, -, e, -, rfl⟩ | ⟨-, hact⟩
      · simp [AbortsOn.cons_aborts, AbortsOn.nil_aborts, Event.error, GetResult.err_found, GetResult.err_failed, hres]
      · simp [AbortsOn.cons_aborts, AbortsOn.nil_aborts, Event.error, GetResult.err_found, GetResult.err_failed, hres]
      · simp [AbortsOn.cons_aborts, AbortsOn.nil_aborts, Event.error, GetResult.err_found, GetResult.err_failed, hres]
      · rcases targetFinalizerEvents_cases env mc with h | h <;> rw [h] <;>
          simp [AbortsOn.cons_aborts, AbortsOn.nil_aborts, Event.error, GetResult.err_found, GetResult.err_failed, hres]
      · rcases targetFinalizerEvents_cases env mc with h | h <;> rw [h] <;>
          simp [AbortsOn.cons_aborts, AbortsOn.nil_aborts, Event.error, GetResult.err_found, GetResult.err_failed, hres]
      · refine hact.aborts_active msg ?_
        intro x hx
        rcases hopen x hx with rfl | rfl | rfl | rfl
        · exact hres
        · simp [Event.error, GetResult.err_found, GetResult.err_failed]
        · simp [Event.error]
        · simp [Event.error]
  cases h with
  | targetFetchFailed e he =>
    simp [AbortsOn.cons_aborts, AbortsOn.nil_aborts, Event.error, GetResult.err_found, GetResult.err_failed]
  | targetAbsent o ho => exact key _ _ _ (by simp [GetResult.err_found, GetResult.err_failed]) ho
  | targetFound mc o ho => exact key _ _ _ (by simp [GetResult.err_found, GetResult.err_failed]) ho

/-- C13: when a call of a cycle (a fetch of the target or of the owner, an
Update, a Delete, the bundle status fetch, a create, sync or delete helper)
is answered with an error that is neither NotFound nor Conflict, that call is
the last call of the cycle, and the cycle returns that same error with the
zero Result. -/
theorem C13_other_error_aborts (env : Env) (request : Request) (pre : List Event)
    (ev : Event) (post : List Event) (msg : String)
    (hsplit : (Reconcile env request).trace = pre ++ ev :: post)
    (herr : ev.error = some (Err.other msg)) :
    post = []
    ∧ (Reconcile env request).result = Result.zero
    ∧ (Reconcile env request).err = some (Err.other msg)
    ∧ (Reconcile env request).panicked = false :=
  (Reconcile_path env request).aborts_cycle msg pre ev post hsplit herr

theorem C13_other_error_aborts_witness :
    (Reconcile envLabelClearFails exRequest).result = Result.zero
    ∧ (Reconcile envLabelClearFails exRequest).err = some (Err.other "boom")
    ∧ (Reconcile envLabelClearFails exRequest).panicked = false :=
  (C13_other_error_aborts envLabelClearFails exRequest
    ([Event.GetManagedCluster "cluster1" (GetResult.found exTarget),
      Event.GetKlusterletAddonConfig "cluster1" "cluster1" (GetResult.found exOwnerDeleting)]
      ++ tornDownEvents envLabelClearFails exOwnerDeleting false)
    (Event.UpdateManagedCluster
      { exTarget with Labels := exTarget.Labels.delete PolicyControllerLabel }
      (some (Err.other "boom")))
    [] "boom" (by decide) (by decide)).2

/-! ## A later cycle on the store a teardown cycle left -/

/-- C11, the claim as stated fails, twice.  First: the owner carries a second
finalizer, so the store keeps it after the first cycle has seen the three
tiers completed and removed `KlusterletAddonFinalizer`; the next cycle on that
store runs the teardown again and issues the Updates of the owner and of the
target again.  Second: the first cycle removes the finalizer from the owner
and then fails on the Update of the target; the next cycle finds the owner
gone and issues the Update that removes the finalizer from the target. -/
theorem C11_later_cycle_writes_again :
    exOwnerShared.DeletionTimestamp.isSome = true
    ∧ (Reconcile (exStoreShared.env baseEnv) exRequest).trace
        = [Event.GetManagedCluster "cluster1" (GetResult.found exTarget),
           Event.GetKlusterletAddonConfig "cluster1" "cluster1"
             (GetResult.found exOwnerShared),
           Event.deleteManifestWorkCRs exOwnerShared false true none,
           Event.DeleteManifestWork "cluster1-klusterlet-addon-operator" "cluster1" false
             (some Err.notFound),
           Event.DeleteManifestWork "cluster1-klusterlet-addon-crds" "cluster1" false
             (some Err.notFound),
           Event.UpdateManagedCluster { exTarget with Labels := some [] } none,
           Event.UpdateKlusterletAddonConfig
             { exOwnerShared with Finalizers := ["example.io/hold"] } none,
           Event.UpdateManagedCluster { exTarget with Labels := some [], Finalizers := [] }
             none]
    ∧ exStoreShared.after (Reconcile (exStoreShared.env baseEnv) exRequest).trace
        = ⟨some { exTarget with Labels := some [], Finalizers := [] },
           some { exOwnerShared with Finalizers := ["example.io/hold"] }⟩
    ∧ (Reconcile
        ((exStoreShared.after
          (Reconcile (exStoreShared.env baseEnv) exRequest).trace).env baseEnv)
        exRequest).trace
        = [Event.GetManagedCluster "cluster1"
             (GetResult.found { exTarget with Labels := some [], Finalizers := [] }),
           Event.GetKlusterletAddonConfig "cluster1" "cluster1"
             (GetResult.found { exOwnerShared with Finalizers := ["example.io/hold"] }),
           Event.deleteManifestWorkCRs
             { exOwnerShared with Finalizers := ["example.io/hold"] } false true none,
           Event.DeleteManifestWork "cluster1-klusterlet-addon-operator" "cluster1" false
             (some Err.notFound),
           Event.DeleteManifestWork "cluster1-klusterlet-addon-crds" "cluster1" false
             (some Err.notFound),
           Event.UpdateKlusterletAddonConfig
             { exOwnerShared with Finalizers := ["example.io/hold"] } none,
           Event.UpdateManagedCluster { exTarget with Labels := some [], Finalizers := [] }
             none]
    ∧ (∃ ev ∈ (Reconcile
        ((exStoreShared.after
          (Reconcile (exStoreShared.env baseEnv) exRequest).trace).env baseEnv)
        exRequest).trace, ev.isWrite = true)
    ∧ (Reconcile (exStorePlain.env envTargetReleaseFails) exRequest).trace
        = [Event.GetManagedCluster "cluster1" (GetResult.found exTargetPlain),
           Event.GetKlusterletAddonConfig "cluster1" "cluster1"
             (GetResult.found exOwnerDeleting),
           Event.deleteManifestWorkCRs exOwnerDeleting false true none,
           Event.DeleteManifestWork "cluster1-klusterlet-addon-operator" "cluster1" false
             (some Err.notFound),
           Event.DeleteManifestWork "cluster1-klusterlet-addon-crds" "cluster1" false
             (some Err.notFound),
           Event.UpdateKlusterletAddonConfig { exOwnerDeleting with Finalizers := [] } none,
           Event.UpdateManagedCluster { exTargetPlain with Finalizers := [] }
             (some Err.conflict)]
    ∧ exStorePlain.after
          (Reconcile (exStorePlain.env envTargetReleaseFails) exRequest).trace
        = ⟨some exTargetPlain, none⟩
    ∧ (Reconcile
        ((exStorePlain.after
          (Reconcile (exStorePlain.env envTargetReleaseFails) exRequest).trace).env baseEnv)
        exRequest).trace
        = [Event.GetManagedCluster "cluster1" (GetResult.found exTargetPlain),
           Event.GetKlusterletAddonConfig "cluster1" "cluster1"
             (GetResult.failed Err.notFound),
           Event.UpdateManagedCluster { exTargetPlain with Finalizers := [] } none] := by
  decide

theorem RemoveFinalizer_eq_nil {l : List String} {f : String} (h : ∀ x ∈ l, x = f) :
    RemoveFinalizer l f = [] := by
  unfold RemoveFinalizer
  rw [List.filter_eq_nil_iff]
  intro x hx
  simp [h x hx]

theorem HasFinalizer_RemoveFinalizer (l : List String) (f : String) :
    HasFinalizer (RemoveFinalizer l f) f = false := by
  unfold HasFinalizer RemoveFinalizer
  rw [Bool.eq_false_iff]
  intro h
  have h2 := List.contains_iff_exists_mem_beq.mp h
  obtain ⟨x, hx, hb⟩ := h2
  have hx2 := (List.mem_filter.mp hx).2
  have hxf : f = x := by simpa using hb
  subst hxf
  simp at hx2

theorem Store.readTarget_found {st : Store} {m : ManagedCluster}
    (h : GetResult.found m = st.readTarget) : st.target = some m := by
  unfold Store.readTarget at h
  cases ht : st.target with
  | none => simp [ht] at h
  | some x =>
    rw [ht] at h
    simp only [GetResult.found.injEq] at h
    rw [h]

theorem Store.readTarget_failed {st : Store} {e : Err}
    (h : GetResult.failed e = st.readTarget) : st.target = none ∧ e = Err.notFound := by
  unfold Store.readTarget at h
  cases ht : st.target with
  | none =>
    rw [ht] at h
    simp only [GetResult.failed.injEq] at h
    exact ⟨rfl, h⟩
  | some x => simp [ht] at h

theorem OwnerPath.trace_owner {env : Env} {request : Request} {mc : ManagedCluster}
    {nf : Bool} {t : List Event} {o : Outcome} (h : OwnerPath env request mc nf t o) :
    ∃ s, o.trace = t ++ s := by
  cases h with
  | fetchFailed e he => exact ⟨_, rfl⟩
  | goneReleaseFailed e hn hf => exact ⟨_, rfl⟩
  | goneReleased hn hf => exact ⟨_, rfl⟩
  | gone hf => exact ⟨_, rfl⟩
  | deleting k o hk ho =>
    obtain ⟨s, hs, -⟩ := ho.trace_deletion
    exact ⟨Event.GetKlusterletAddonConfig request.Namespace request.Name
      (GetResult.found k) :: s, by simp [hs]⟩
  | live k o hk ho =>
    obtain ⟨s, hs, -⟩ := ho.trace_targetFinalizer
    exact ⟨Event.GetKlusterletAddonConfig request.Namespace request.Name
      (GetResult.found k) :: s, by simp [hs]⟩

/-- A cycle on a store without the owner, whose target (if any) does not
carry the finalizer: the two fetches and nothing else. -/
theorem ReconcilePath.quiet {env : Env} {request : Request} {o : Outcome}
    (h : ReconcilePath env request o) (st : Store) (hgone : st.owner = none)
    (hfree : ∀ m, st.target = some m →
      HasFinalizer m.Finalizers env.KlusterletAddonFinalizer = false)
    (hreadT : ∀ name res, Event.GetManagedCluster name res ∈ o.trace → res = st.readTarget)
    (hreadO : ∀ ns name res, Event.GetKlusterletAddonConfig ns name res ∈ o.trace →
      res = st.readOwner) :
    o = ⟨Result.zero, none,
      [Event.GetManagedCluster request.Namespace st.readTarget,
       Event.GetKlusterletAddonConfig request.Namespace request.Name
         (GetResult.failed Err.notFound)], false⟩ := by
  have hro : st.readOwner = GetResult.failed Err.notFound := by
    unfold Store.readOwner
    rw [hgone]
  rw [hro] at hreadO
  have key : ∀ mc nf res, res = st.readTarget →
      (nf = false → HasFinalizer mc.Finalizers env.KlusterletAddonFinalizer = false) →
      OwnerPath env request mc nf [Event.GetManagedCluster request.Namespace res] o →
      o = ⟨Result.zero, none,
        [Event.GetManagedCluster request.Namespace st.readTarget,
         Event.GetKlusterletAddonConfig request.Namespace request.Name
           (GetResult.failed Err.notFound)], false⟩ := by
    intro mc nf res hres hfin ho
    cases ho with
    | fetchFailed e he =>
      have := hreadO request.Namespace request.Name (GetResult.failed e) (by simp)
      simp only [GetResult.failed.injEq] at this
      exact absurd this he
    | goneReleaseFailed e hn hf =>
      rw [hfin hn] at hf
      exact absurd hf (by decide)
    | goneReleased hn hf =>
      rw [hfin hn] at hf
      exact absurd hf (by decide)
    | gone hf => rw [hres]; rfl
    | deleting k o hk ho =>
      obtain ⟨s, hs, -⟩ := ho.trace_deletion
      have := hreadO request.Namespace request.Name (GetResult.found k) (by simp [hs])
      simp at this
    | live k o hk ho =>
      obtain ⟨s, hs, -⟩ := ho.trace_targetFinalizer
      have := hreadO request.Namespace request.Name (GetResult.found k) (by simp [hs])
      simp at this
  cases h with
  | targetFetchFailed e he =>
    have := hreadT request.Namespace (GetResult.failed e) (by simp)
    exact absurd (Store.readTarget_failed this).2 he
  | targetAbsent o ho =>
    have hsuf := ho.trace_owner
    obtain ⟨s, hs⟩ := hsuf
    have hres := hreadT _ _ (show Event.GetManagedCluster request.Namespace
      (GetResult.failed Err.notFound) ∈ o.trace by simp [hs])
    exact key _ _ _ hres (fun h => absurd h (by decide)) ho
  | targetFound mc o ho =>
    have hsuf := ho.trace_owner
    obtain ⟨s, hs⟩ := hsuf
    have hres := hreadT _ _ (show Event.GetManagedCluster request.Namespace
      (GetResult.found mc) ∈ o.trace by simp [hs])
    exact key _ _ _ hres (fun _ => hfree mc (Store.readTarget_found hres)) ho

/-- The store a teardown cycle leaves when it has released an owner that
carried no finalizer but `KlusterletAddonFinalizer` and has returned without
an error: the owner is gone, and the target (if any) is without the
finalizer. -/
theorem DeletionPath.released {env : Env} {mc : ManagedCluster} {nf : Bool}
    {k : KlusterletAddonConfig} {rf : Bool} {o : Outcome} {request : Request}
    {res : GetResult ManagedCluster} (st : Store)
    (h : DeletionPath env mc nf k
      [Event.GetManagedCluster request.Namespace res,
       Event.GetKlusterletAddonConfig request.Namespace request.Name (GetResult.found k)]
      rf o)
    (hres : (res = GetResult.found mc ∧ nf = false)
      ∨ (res = GetResult.failed Err.notFound ∧ mc = ManagedCluster.zero ∧ nf = true))
    (hdel : k.DeletionTimestamp.isSome = true)
    (honly : ∀ f ∈ k.Finalizers, f = env.KlusterletAddonFinalizer)
    (hrel : Event.UpdateKlusterletAddonConfig
      { k with Finalizers := RemoveFinalizer k.Finalizers env.KlusterletAddonFinalizer } none
      ∈ o.trace)
    (herr : o.err = none)
    (hst : Event.GetManagedCluster request.Namespace st.readTarget ∈ o.trace) :
    (st.after o.trace).owner = none
    ∧ ∀ m, (st.after o.trace).target = some m →
        HasFinalizer m.Finalizers env.KlusterletAddonFinalizer = false := by
  have hnil := RemoveFinalizer_eq_nil honly
  cases h
  case crsFailed c e => simp at herr
  case crsPending => simp at hrel
  case operatorFailed e he => simp at herr
  case operatorPending => simp at hrel
  case crdFailed e he => simp at herr
  case crdPending => simp at hrel
  case labelFailed m e s hl => simp at herr
  case ownerUpdateFailed m s e hl => simp at herr
  case targetUpdateFailed m s e hl hn => simp at herr
  case doneNoTarget m s hl hn =>
    clear hrel herr
    subst hn
    have hres2 : res = GetResult.failed Err.notFound ∧ mc = ManagedCluster.zero := by
      rcases hres with ⟨-, h⟩ | ⟨h, h2, -⟩
      · simp at h
      · exact ⟨h, h2⟩
    obtain ⟨rfl, rfl⟩ := hres2
    have hs : s = [] := by
      rcases hl.events with ⟨h, -⟩ | h
      · exact h
      · cases hl
        · rename_i h1 h2
          simp [ManagedCluster.zero, StrMap.find] at h2
        · rfl
        · rename_i h1 h2
          simp [hdel] at h1
        · rfl
    subst hs
    have htar : st.target = none := by
      simp only [tornDownEvents, List.append_nil, List.cons_append, List.nil_append,
        List.mem_cons, List.mem_singleton, List.not_mem_nil, or_false, reduceCtorEq,
        false_or, Event.GetManagedCluster.injEq, true_and] at hst
      exact (Store.readTarget_failed hst.symm).1
    simp [Store.after, Store.apply, tornDownEvents, hnil, hdel, htar]
  case done m s hl hn =>
    clear hrel herr hst
    have hm := hl.target
    have hfin : HasFinalizer (RemoveFinalizer m.Finalizers env.KlusterletAddonFinalizer)
        env.KlusterletAddonFinalizer = false := HasFinalizer_RemoveFinalizer _ _
    generalize RemoveFinalizer m.Finalizers env.KlusterletAddonFinalizer = fs at hfin
    rcases hl.events with ⟨rfl, -⟩ | rfl
    · simp only [Store.after, Store.apply, tornDownEvents, List.append_nil, List.cons_append,
        List.nil_append, List.foldl_cons, List.foldl_nil, hnil, hdel, List.isEmpty_nil,
        Bool.and_self, if_true]
      refine ⟨trivial, ?_⟩
      intro m0 hm0
      split at hm0
      · simp at hm0
      · simp only [Option.some.injEq] at hm0
        rw [← hm0]
        exact hfin
    · simp only [Store.after, Store.apply, tornDownEvents, List.append_nil, List.cons_append,
        List.nil_append, List.foldl_cons, List.foldl_nil, hnil, hdel, List.isEmpty_nil,
        Bool.and_self, if_true]
      refine ⟨trivial, ?_⟩
      intro m0 hm0
      split at hm0
      · simp at hm0
      · simp only [Option.some.injEq] at hm0
        rw [← hm0]
        exact hfin

/-- A teardown cycle that has released the owner and returned without an
error has seen the three tiers completed. -/
theorem DeletionPath.released_tiers {env : Env} {mc : ManagedCluster} {nf : Bool}
    {k : KlusterletAddonConfig} {t : List Event} {rf : Bool} {o : Outcome}
    (h : DeletionPath env mc nf k t rf o)
    (hrel : Event.UpdateKlusterletAddonConfig
      { k with Finalizers := RemoveFinalizer k.Finalizers env.KlusterletAddonFinalizer } none
      ∈ o.trace)
    (hclean : ∀ obj e, Event.UpdateKlusterletAddonConfig obj e ∉ t)
    (herr : o.err = none) :
    tornDownEvents env k rf ⊆ o.trace := by
  cases h
  case crsFailed c e => simp at herr
  case crsPending => simp [hclean] at hrel
  case operatorFailed e he => simp at herr
  case operatorPending => simp [hclean] at hrel
  case crdFailed e he => simp at herr
  case crdPending => simp [hclean] at hrel
  case labelFailed m e s hl => simp at herr
  case ownerUpdateFailed m s e hl => simp at herr
  case targetUpdateFailed m s e hl hn => simp at herr
  case doneNoTarget m s hl hn =>
    intro x hx
    simp [hx]
  case done m s hl hn =>
    intro x hx
    simp [hx]

/-- C11, amended: for an owner in deletion whose only finalizer is
`KlusterletAddonFinalizer`: once a cycle that read the store has seen the
three tiers completed, removed the finalizer from the owner and returned
without an error, the owner is gone from the store, and a later cycle for the
same key that reads the resulting store makes the two fetches and no other
call (so no Update, Delete or create call), and returns the zero Result with
a nil error. -/
theorem C11_released_owner_no_more_writes (env1 env2 : Env) (request : Request)
    (owner : KlusterletAddonConfig) (st : Store)
    (hfin : env2.KlusterletAddonFinalizer = env1.KlusterletAddonFinalizer)
    (howner : st.owner = some owner)
    (hgetT : Event.GetManagedCluster request.Namespace st.readTarget
      ∈ (Reconcile env1 request).trace)
    (hgetO : Event.GetKlusterletAddonConfig request.Namespace request.Name st.readOwner
      ∈ (Reconcile env1 request).trace)
    (hdel : owner.DeletionTimestamp.isSome = true)
    (honly : ∀ f ∈ owner.Finalizers, f = env1.KlusterletAddonFinalizer)
    (hrel : Event.UpdateKlusterletAddonConfig
      { owner with
        Finalizers := RemoveFinalizer owner.Finalizers env1.KlusterletAddonFinalizer } none
      ∈ (Reconcile env1 request).trace)
    (herr : (Reconcile env1 request).err = none)
    (hreadT : ∀ name res, Event.GetManagedCluster name res ∈ (Reconcile env2 request).trace →
      res = (st.after (Reconcile env1 request).trace).readTarget)
    (hreadO : ∀ ns name res,
      Event.GetKlusterletAddonConfig ns name res ∈ (Reconcile env2 request).trace →
      res = (st.after (Reconcile env1 request).trace).readOwner) :
    (∃ rf, tornDownEvents env1 owner rf ⊆ (Reconcile env1 request).trace)
    ∧ (st.after (Reconcile env1 request).trace).owner = none
    ∧ (Reconcile env2 request).trace
        = [Event.GetManagedCluster request.Namespace
             (st.after (Reconcile env1 request).trace).readTarget,
           Event.GetKlusterletAddonConfig request.Namespace request.Name
             (GetResult.failed Err.notFound)]
    ∧ (∀ ev ∈ (Reconcile env2 request).trace, ev.isWrite = false)
    ∧ (Reconcile env2 request).result = Result.zero
    ∧ (Reconcile env2 request).err = none := by
  have hown : Event.GetKlusterletAddonConfig request.Namespace request.Name
      (GetResult.found owner) ∈ (Reconcile env1 request).trace := by
    have : st.readOwner = GetResult.found owner := by
      unfold Store.readOwner
      rw [howner]
    rw [← this]
    exact hgetO
  clear hgetO
  obtain ⟨mc, nf, res, hres, hpath⟩ := (Reconcile_path env1 request).of_owner hown
  clear hown
  have h2 := Reconcile_path env2 request
  generalize Reconcile env2 request = o2 at h2 hreadT hreadO ⊢
  generalize Reconcile env1 request = o1 at hpath hgetT hrel herr hreadT hreadO ⊢
  rcases hpath with ⟨-, hp⟩ | ⟨hk, -⟩
  swap
  · simp [hdel] at hk
  have htiers := hp.released_tiers hrel (by simp) herr
  obtain ⟨hgone, hfree⟩ := hp.released st hres hdel honly hrel herr hgetT
  have hq := h2.quiet (st.after o1.trace) hgone (by rw [hfin]; exact hfree) hreadT hreadO
  refine ⟨⟨_, htiers⟩, hgone, by rw [hq], ?_, by rw [hq], by rw [hq]⟩
  rw [hq]
  simp [Event.isWrite]

theorem exStore_after :
    exStore.after (Reconcile envTeardownDone exRequest).trace
      = ⟨some { exTarget with Labels := some [], Finalizers := [] }, none⟩ := by
  decide

theorem exStore_second_trace :
    (Reconcile ((exStore.after (Reconcile envTeardownDone exRequest).trace).env baseEnv)
        exRequest).trace
      = [Event.GetManagedCluster "cluster1"
           (GetResult.found { exTarget with Labels := some [], Finalizers := [] }),
         Event.GetKlusterletAddonConfig "cluster1" "cluster1"
           (GetResult.failed Err.notFound)] := by
  decide

theorem C11_released_owner_no_more_writes_witness :
    exOwnerDeleting.DeletionTimestamp.isSome = true
    ∧ (exStore.after (Reconcile envTeardownDone exRequest).trace).owner = none
    ∧ ∀ ev ∈ (Reconcile
        ((exStore.after (Reconcile envTeardownDone exRequest).trace).env baseEnv)
        exRequest).trace, ev.isWrite = false :=
  have h := C11_released_owner_no_more_writes envTeardownDone
    ((exStore.after (Reconcile envTeardownDone exRequest).trace).env baseEnv)
    exRequest exOwnerDeleting exStore
    (by decide) (by decide) (by decide) (by decide) (by decide) (by decide) (by decide)
    (by decide)
    (by
      intro name res h
      rw [exStore_second_trace] at h
      rw [exStore_after]
      simp only [List.mem_cons, List.mem_singleton, List.not_mem_nil, or_false,
        reduceCtorEq, Event.GetManagedCluster.injEq] at h
      exact h.2)
    (by
      intro ns name res h
      rw [exStore_second_trace] at h
      rw [exStore_after]
      simp only [List.mem_cons, List.mem_singleton, List.not_mem_nil, or_false,
        reduceCtorEq, false_or, Event.GetKlusterletAddonConfig.injEq] at h
      exact h.2.2)
  ⟨by decide, h.2.1, h.2.2.2.1⟩

/-! ## The policy-controller label -/

theorem lookup_filter_ne (key k : String) (l : List (String × String)) (h : key ≠ k) :
    List.lookup key (l.filter (fun p => p.1 != k)) = List.lookup key l := by
  induction l with
  | nil => rfl
  | cons a l ih =>
    obtain ⟨a1, a2⟩ := a
    by_cases ha : a1 = k
    · subst ha
      have hne : (key == a1) = false := by simpa using h
      simp [List.filter_cons, List.lookup_cons, hne, ih]
    · by_cases hka : key = a1
      · subst hka
        simp [List.filter_cons, List.lookup_cons, ha]
      · have hne : (key == a1) = false := by simpa using hka
        simp [List.filter_cons, List.lookup_cons, ha, hne, ih]

theorem lookup_filter_self (k : String) (l : List (String × String)) :
    List.lookup k (l.filter (fun p => p.1 != k)) = none := by
  induction l with
  | nil => rfl
  | cons a l ih =>
    obtain ⟨a1, a2⟩ := a
    by_cases ha : a1 = k
    · subst ha
      simp [List.filter_cons, ih]
    · have hne : (k == a1) = false := by
        simpa using fun e : k = a1 => ha e.symm
      simp [List.filter_cons, List.lookup_cons, ha, hne, ih]

theorem StrMap.find_delete_self (m : StrMap) (k : String) : (m.delete k).find k = none := by
  cases m with
  | none => rfl
  | some l => exact lookup_filter_self k l

theorem StrMap.find_delete_ne (m : StrMap) (key k : String) (h : key ≠ k) :
    (m.delete k).find key = m.find key := by
  cases m with
  | none => rfl
  | some l => exact lookup_filter_ne key k l h

theorem StrMap.find_set_self (m : StrMap) (k v : String) : (m.set k v).find k = some v := by
  cases m with
  | none => simp [StrMap.set, StrMap.find, List.lookup_cons]
  | some l => simp [StrMap.set, StrMap.find, List.lookup_cons]

theorem StrMap.find_set_ne (m : StrMap) (key k v : String) (h : key ≠ k) :
    (m.set k v).find key = m.find key := by
  have hne : (key == k) = false := by simpa using h
  cases m with
  | none => simp [StrMap.set, StrMap.find, List.lookup_cons, hne]
  | some l =>
    simp only [StrMap.set, StrMap.find, List.lookup_cons, hne]
    exact lookup_filter_ne key k l h

theorem installLabels_find (mc : ManagedCluster) (key : String) :
    (installLabels mc).Labels.find key = mc.Labels.find key := by
  unfold installLabels
  cases h : mc.Labels with
  | none => simp [h, StrMap.find]
  | some l => simp [h]

theorem toLower_eq_lower (c b : Char) (h : c.toLower = b) : c = b ∨ c.toNat + 32 = b.toNat := by
  unfold Char.toLower at h
  by_cases hu : c.toNat ≥ 65 ∧ c.toNat ≤ 90
  · simp only [hu, and_self, if_true] at h
    right
    have hv : (Char.ofNat (c.toNat + 32)).toNat = c.toNat + 32 := by
      obtain ⟨h1, h2⟩ := hu
      generalize c.toNat = n at h1 h2
      interval_cases n <;> rfl
    rw [← h, hv]
  · left
    simpa [hu] using h

theorem ToLower_true (v : String) (h : ToLower v = "true") : IsTrueIgnoringCase v = true := by
  unfold ToLower at h
  have hd : v.data.map Char.toLower = ['t', 'r', 'u', 'e'] := by
    have := congrArg String.data h
    simpa using this
  unfold IsTrueIgnoringCase
  rcases hv : v.data with _ | ⟨c1, _ | ⟨c2, _ | ⟨c3, _ | ⟨c4, _ | ⟨c5, l⟩⟩⟩⟩⟩ <;>
    rw [hv] at hd <;> simp only [List.map_cons, List.map_nil, List.cons.injEq, and_true,
      reduceCtorEq, and_false, false_and] at hd
  obtain ⟨h1, h2, h3, h4⟩ := hd
  have e1 : c1 = 't' ∨ c1 = 'T' := by
    rcases toLower_eq_lower c1 't' h1 with h | h
    · exact Or.inl h
    · exact Or.inr (toNat_add_32 c1 84 h)
  have e2 : c2 = 'r' ∨ c2 = 'R' := by
    rcases toLower_eq_lower c2 'r' h2 with h | h
    · exact Or.inl h
    · exact Or.inr (toNat_add_32 c2 82 h)
  have e3 : c3 = 'u' ∨ c3 = 'U' := by
    rcases toLower_eq_lower c3 'u' h3 with h | h
    · exact Or.inl h
    · exact Or.inr (toNat_add_32 c3 85 h)
  have e4 : c4 = 'e' ∨ c4 = 'E' := by
    rcases toLower_eq_lower c4 'e' h4 with h | h
    · exact Or.inl h
    · exact Or.inr (toNat_add_32 c4 69 h)
  simp only [Bool.and_eq_true, Bool.or_eq_true, beq_iff_eq]
  exact ⟨⟨⟨e1, e2⟩, e3⟩, e4⟩

theorem append_singleton_ne (t : List Event) (x : Event) : t ++ [x] ≠ t := by
  intro h
  have := congrArg List.length h
  simp at this

/-- C21: after `setManagedClusterPolicyControllerLabel` returns, the label
map of the target does not contain `PolicyControllerLabel` when the owner is
in deletion or has the policy controller disabled, and contains it with a
value equal to "true" up to letter case otherwise.  Every other label, and
every other field of the target, is as before.  The call issues one Update of
the target, carrying the target as it leaves it and answered with the error
it returns, exactly when it changed the label map, and no call otherwise. -/
theorem C21_policy_controller_label (env : Env) (t : List Event) (mc : ManagedCluster)
    (k : KlusterletAddonConfig) :
    ((k.DeletionTimestamp.isSome = true ∨ k.Spec.PolicyController.Enabled = false) →
        (setManagedClusterPolicyControllerLabel env t mc k).1.Labels.find
          PolicyControllerLabel = none)
    ∧ (k.DeletionTimestamp.isSome = false → k.Spec.PolicyController.Enabled = true →
        ∃ v, (setManagedClusterPolicyControllerLabel env t mc k).1.Labels.find
            PolicyControllerLabel = some v
          ∧ IsTrueIgnoringCase v = true ∧ EqualFold v "true" = true)
    ∧ (∀ key, key ≠ PolicyControllerLabel →
        (setManagedClusterPolicyControllerLabel env t mc k).1.Labels.find key
          = mc.Labels.find key)
    ∧ (setManagedClusterPolicyControllerLabel env t mc k).1
        = { mc with Labels := (setManagedClusterPolicyControllerLabel env t mc k).1.Labels }
    ∧ (((setManagedClusterPolicyControllerLabel env t mc k).2.2
          = t ++ [Event.UpdateManagedCluster
              (setManagedClusterPolicyControllerLabel env t mc k).1
              (setManagedClusterPolicyControllerLabel env t mc k).2.1]
        ∧ (setManagedClusterPolicyControllerLabel env t mc k).2.1
            = env.UpdateManagedCluster t (setManagedClusterPolicyControllerLabel env t mc k).1
        ∧ (setManagedClusterPolicyControllerLabel env t mc k).1.Labels.find
              PolicyControllerLabel ≠ mc.Labels.find PolicyControllerLabel)
      ∨ ((setManagedClusterPolicyControllerLabel env t mc k).2.2 = t
        ∧ (setManagedClusterPolicyControllerLabel env t mc k).2.1 = none
        ∧ (setManagedClusterPolicyControllerLabel env t mc k).1.Labels = mc.Labels))
    ∧ ((∃ obj e, (setManagedClusterPolicyControllerLabel env t mc k).2.2
            = t ++ [Event.UpdateManagedCluster obj e])
        ↔ (setManagedClusterPolicyControllerLabel env t mc k).1.Labels ≠ mc.Labels)
    ∧ ((∃ obj e, (setManagedClusterPolicyControllerLabel env t mc k).2.2
            = t ++ [Event.UpdateManagedCluster obj e])
        ↔ ∃ key, (setManagedClusterPolicyControllerLabel env t mc k).1.Labels.find key
            ≠ mc.Labels.find key) := by
  by_cases hk : (k.DeletionTimestamp.isSome || !k.Spec.PolicyController.Enabled) = true
  · have hnot : ¬ (k.DeletionTimestamp.isSome = false ∧ k.Spec.PolicyController.Enabled = true) := by
      rintro ⟨h1, h2⟩
      simp [h1, h2] at hk
    by_cases hl : (mc.Labels.find PolicyControllerLabel).isSome = true
    · have hval : setManagedClusterPolicyControllerLabel env t mc k
          = ({ mc with Labels := mc.Labels.delete PolicyControllerLabel },
             env.UpdateManagedCluster t
               { mc with Labels := mc.Labels.delete PolicyControllerLabel },
             t ++ [Event.UpdateManagedCluster
               { mc with Labels := mc.Labels.delete PolicyControllerLabel }
               (env.UpdateManagedCluster t
                 { mc with Labels := mc.Labels.delete PolicyControllerLabel })]) := by
        unfold setManagedClusterPolicyControllerLabel
        rw [if_pos hk, if_pos hl]
      rw [hval]
      have hne : StrMap.find (StrMap.delete mc.Labels PolicyControllerLabel)
          PolicyControllerLabel ≠ mc.Labels.find PolicyControllerLabel := by
        rw [StrMap.find_delete_self]
        intro h
        rw [← h] at hl
        simp at hl
      have hne2 : StrMap.delete mc.Labels PolicyControllerLabel ≠ mc.Labels := by
        intro h
        rw [h] at hne
        exact hne rfl
      refine ⟨fun _ => StrMap.find_delete_self _ _, fun h1 h2 => absurd ⟨h1, h2⟩ hnot,
        fun key hkey => StrMap.find_delete_ne _ _ _ hkey, rfl, Or.inl ⟨rfl, rfl, hne⟩,
        ⟨fun _ => hne2, fun _ => ⟨_, _, rfl⟩⟩,
        ⟨fun _ => ⟨PolicyControllerLabel, hne⟩, fun _ => ⟨_, _, rfl⟩⟩⟩
    · have hval : setManagedClusterPolicyControllerLabel env t mc k = (mc, none, t) := by
        unfold setManagedClusterPolicyControllerLabel
        rw [if_pos hk, if_neg hl]
      rw [hval]
      have hnone : mc.Labels.find PolicyControllerLabel = none := by
        simpa using hl
      refine ⟨fun _ => hnone, fun h1 h2 => absurd ⟨h1, h2⟩ hnot, fun _ _ => rfl, rfl,
        Or.inr ⟨rfl, rfl, rfl⟩, ⟨?_, fun h => absurd rfl h⟩, ⟨?_, ?_⟩⟩
      · rintro ⟨obj, e, h⟩
        exact absurd h.symm (append_singleton_ne _ _)
      · rintro ⟨obj, e, h⟩
        exact absurd h.symm (append_singleton_ne _ _)
      · rintro ⟨key, h⟩
        exact absurd rfl h
  · have hk1 : k.DeletionTimestamp.isSome = false ∧ k.Spec.PolicyController.Enabled = true := by
      cases h1 : k.DeletionTimestamp.isSome <;> cases h2 : k.Spec.PolicyController.Enabled <;>
        simp [h1, h2] at hk ⊢
    have hnot : ¬ (k.DeletionTimestamp.isSome = true ∨ k.Spec.PolicyController.Enabled = false) := by
      rintro (h | h)
      · rw [hk1.1] at h
        exact absurd h (by decide)
      · rw [hk1.2] at h
        exact absurd h (by decide)
    by_cases hl : (ToLower ((installLabels mc).Labels.get PolicyControllerLabel) != "true") = true
    · have hval : setManagedClusterPolicyControllerLabel env t mc k
          = ({ installLabels mc with
               Labels := (installLabels mc).Labels.set PolicyControllerLabel "true" },
             env.UpdateManagedCluster t
               { installLabels mc with
                 Labels := (installLabels mc).Labels.set PolicyControllerLabel "true" },
             t ++ [Event.UpdateManagedCluster
               { installLabels mc with
                 Labels := (installLabels mc).Labels.set PolicyControllerLabel "true" }
               (env.UpdateManagedCluster t
                 { installLabels mc with
                   Labels := (installLabels mc).Labels.set PolicyControllerLabel "true" })]) := by
        unfold setManagedClusterPolicyControllerLabel
        rw [if_neg hk, if_pos hl]
      rw [hval]
      have hne : StrMap.find (StrMap.set (installLabels mc).Labels PolicyControllerLabel "true")
          PolicyControllerLabel ≠ mc.Labels.find PolicyControllerLabel := by
        rw [StrMap.find_set_self]
        intro h
        have hget : (installLabels mc).Labels.get PolicyControllerLabel = "true" := by
          unfold StrMap.get
          rw [installLabels_find, ← h]
          rfl
        rw [hget] at hl
        exact absurd hl (by decide)
      have hne2 : StrMap.set (installLabels mc).Labels PolicyControllerLabel "true"
          ≠ mc.Labels := by
        intro h
        rw [h] at hne
        exact hne rfl
      refine ⟨fun h => absurd h hnot,
        fun _ _ => ⟨"true", StrMap.find_set_self _ _ _, by decide, by decide⟩,
        fun key hkey => (StrMap.find_set_ne _ _ _ _ hkey).trans (installLabels_find _ _),
        ?_, Or.inl ⟨rfl, rfl, hne⟩,
        ⟨fun _ => hne2, fun _ => ⟨_, _, rfl⟩⟩,
        ⟨fun _ => ⟨PolicyControllerLabel, hne⟩, fun _ => ⟨_, _, rfl⟩⟩⟩
      unfold installLabels
      split <;> rfl
    · have hval : setManagedClusterPolicyControllerLabel env t mc k
          = (installLabels mc, none, t) := by
        unfold setManagedClusterPolicyControllerLabel
        rw [if_neg hk, if_neg hl]
      rw [hval]
      have hlow : ToLower ((installLabels mc).Labels.get PolicyControllerLabel) = "true" := by
        simpa using hl
      have hsome : ∃ l, mc.Labels = some l := by
        cases h : mc.Labels with
        | none =>
          have : (installLabels mc).Labels.get PolicyControllerLabel = "" := by
            simp [installLabels, h, StrMap.get, StrMap.find]
          rw [this] at hlow
          exact absurd hlow (by decide)
        | some l => exact ⟨l, rfl⟩
      obtain ⟨l, hlab⟩ := hsome
      have hinst : installLabels mc = mc := by
        simp [installLabels, hlab]
      rw [hinst] at hlow ⊢
      have hfind : ∃ v, mc.Labels.find PolicyControllerLabel = some v
          ∧ ToLower v = "true" := by
        unfold StrMap.get at hlow
        cases h : mc.Labels.find PolicyControllerLabel with
        | none =>
          rw [h] at hlow
          exact absurd hlow (by decide)
        | some v =>
          rw [h] at hlow
          exact ⟨v, rfl, hlow⟩
      obtain ⟨v, hv, hvl⟩ := hfind
      have hcase := ToLower_true v hvl
      refine ⟨fun h => absurd h hnot,
        fun _ _ => ⟨v, hv, hcase, (EqualFold_true_iff v).2 hcase⟩, fun _ _ => rfl, rfl,
        Or.inr ⟨rfl, rfl, rfl⟩, ⟨?_, fun h => absurd rfl h⟩, ⟨?_, ?_⟩⟩
      · rintro ⟨obj, e, h⟩
        exact absurd h.symm (append_singleton_ne _ _)
      · rintro ⟨obj, e, h⟩
        exact absurd h.symm (append_singleton_ne _ _)
      · rintro ⟨key, h⟩
        exact absurd rfl h

/-- The label step on examples: a disabled owner clears the label and keeps the other
labels; an enabled owner leaves an upper-case "TRUE" as it is, without an
Update; and an enabled owner installs the label on a target without a label
map, with one Update. -/
theorem policy_controller_label_examples :
    (setManagedClusterPolicyControllerLabel baseEnv [] exTargetUpper exOwnerNoPolicy)
      = ({ exTargetUpper with Labels := some [("region", "east")] }, none,
          [Event.UpdateManagedCluster
            { exTargetUpper with Labels := some [("region", "east")] } none])
    ∧ (setManagedClusterPolicyControllerLabel baseEnv [] exTargetUpper exOwner)
      = (exTargetUpper, none, [])
    ∧ (setManagedClusterPolicyControllerLabel baseEnv [] exTargetNoLabels exOwner)
      = ({ exTargetNoLabels with Labels := some [(PolicyControllerLabel, "true")] }, none,
          [Event.UpdateManagedCluster
            { exTargetNoLabels with Labels := some [(PolicyControllerLabel, "true")] }
            none]) := by
  decide

end KlusterletAddon
